import Mathlib

/-! # A shallow embedding of `tetris.c`

The development embeds the game logic of `src/tetris.c` (piece table,
collision and wall kicks, the falling loop, locking, overflow check, line
clear, scoring and the bag shuffle) as executable Lean definitions and proves
properties of them.

Modelling conventions.

* C `int` values are integers (`Int`).  The scoreboard variables `score` and
  `lines` are accumulated for as long as the game runs, so the additions of the
  score update are carried out in the arithmetic of a 32-bit `int`: the result
  is reduced modulo `2^32` into the range `-2^31 .. 2^31 - 1` (`wrap_int`), the
  value a two's-complement build stores.  The coordinates of a piece and the
  loop counters stay far away from the limits of an `int` and are not reduced.
* `uint8_t playfield[PF_H][PF_W]` is a total function from row and column to
  the cell value.  Only rows `< PF_H` and columns `< PF_W` are cells of the
  array.  A read with an index outside the array has no defined value in C; it
  is modelled by `pf_read` returning `none`, and every function that performs
  such a read returns `none`.
* A loop whose trip count is not bounded by its header (the line-clear scan,
  which re-examines a row after it has been cleared) takes a fuel argument and
  returns `none` when the fuel is exhausted.
-/

namespace Tetris

/-! ## Macros -/

abbrev BAG_SIZE : Nat := 7
abbrev GRAV_LEVELS : Nat := 15
abbrev PF_W : Nat := 10
abbrev PF_H : Nat := 40
abbrev TETROMINO_SPAWN_X : Int := 3
abbrev TETROMINO_SPAWN_Y : Int := (PF_H : Int) - 1 - 22
abbrev PF_BUFF_SIZE : Nat := 19
abbrev PLAYFIELD_HEIGHT : Nat := PF_H - PF_BUFF_SIZE

/-! ## Types -/

/-- The enumeration `enum directions_e`. -/
inductive directions_e where
  | DIR_LRD
  | DIR_CW
  | DIR_CCW
  deriving DecidableEq

/-- The enumeration `shapes_t`; the enumerators have the values 1 to 7. -/
inductive shapes_t where
  | I_tet
  | O_tet
  | T_tet
  | S_tet
  | Z_tet
  | J_tet
  | L_tet
  deriving DecidableEq

open directions_e shapes_t

/-- The integer value of an enumerator of `shapes_t` (`I_tet = 1`, then
consecutive); it is the value stored in a playfield cell by `tet2playfield`. -/
def shapes_t.tag : shapes_t → Nat
  | I_tet => 1
  | O_tet => 2
  | T_tet => 3
  | S_tet => 4
  | Z_tet => 5
  | J_tet => 6
  | L_tet => 7

/-- The struct `tetromino_t`. The `bitmap` field is a `uint16_t`. -/
structure tetromino_t where
  shape : shapes_t
  x : Int
  y : Int
  rotation : Int
  bitmap : Nat
  falling : Bool
  deriving DecidableEq

/-- The array `uint8_t playfield[PF_H][PF_W]`, indexed by row and column. -/
abbrev playfield_t := Nat → Nat → Nat

/-- The value of `playfield[y][x]` for C integers `y` and `x`; `none` when the
index is outside the array. -/
def pf_read (pf : playfield_t) (y x : Int) : Option Nat :=
  if 0 ≤ y ∧ y < (PF_H : Int) ∧ 0 ≤ x ∧ x < (PF_W : Int) then
    some (pf y.toNat x.toNat)
  else
    none

/-- The assignment `playfield[r][c] = v`. -/
def pf_write (pf : playfield_t) (r c v : Nat) : playfield_t :=
  fun r' c' => if r' = r ∧ c' = c then v else pf r' c'

/-- The test `(bm >> (15 - i)) & 1` on the 4x4 bitmap, for `i` in `0..15`. -/
def bit_at (bm : Nat) (i : Nat) : Bool :=
  (bm >>> (15 - i)) &&& 1 != 0

/-! ## update_tetromino -/

/-- The four nibbles of a bitmap literal, written as in the source,
`(a << 12u) | (b << 8u) | (c << 4u) | (d)`. -/
def rows4 (a b c d : Nat) : Nat :=
  (a <<< 12) ||| (b <<< 8) ||| (c <<< 4) ||| d

/-- The function `update_tetromino`: sets the bitmap from shape and rotation.
The inner switches have no default case, so a rotation outside `0..3` leaves
the bitmap as it was (the O shape ignores the rotation). -/
def update_tetromino (tet : tetromino_t) : tetromino_t :=
  match tet.shape with
  | I_tet =>
    if tet.rotation = 0 then { tet with bitmap := rows4 0b0000 0b1111 0b0000 0b0000 }
    else if tet.rotation = 1 then { tet with bitmap := rows4 0b0010 0b0010 0b0010 0b0010 }
    else if tet.rotation = 2 then { tet with bitmap := rows4 0b0000 0b0000 0b1111 0b0000 }
    else if tet.rotation = 3 then { tet with bitmap := rows4 0b0100 0b0100 0b0100 0b0100 }
    else tet
  | O_tet => { tet with bitmap := rows4 0b0110 0b0110 0b0000 0b0000 }
  | T_tet =>
    if tet.rotation = 0 then { tet with bitmap := rows4 0b0100 0b1110 0b0000 0b0000 }
    else if tet.rotation = 1 then { tet with bitmap := rows4 0b0100 0b0110 0b0100 0b0000 }
    else if tet.rotation = 2 then { tet with bitmap := rows4 0b0000 0b1110 0b0100 0b0000 }
    else if tet.rotation = 3 then { tet with bitmap := rows4 0b0100 0b1100 0b0100 0b0000 }
    else tet
  | S_tet =>
    if tet.rotation = 0 then { tet with bitmap := rows4 0b0110 0b1100 0b0000 0b0000 }
    else if tet.rotation = 1 then { tet with bitmap := rows4 0b0100 0b0110 0b0010 0b0000 }
    else if tet.rotation = 2 then { tet with bitmap := rows4 0b0000 0b0110 0b1100 0b0000 }
    else if tet.rotation = 3 then { tet with bitmap := rows4 0b1000 0b1100 0b0100 0b0000 }
    else tet
  | Z_tet =>
    if tet.rotation = 0 then { tet with bitmap := rows4 0b1100 0b0110 0b0000 0b0000 }
    else if tet.rotation = 1 then { tet with bitmap := rows4 0b0010 0b0110 0b0100 0b0000 }
    else if tet.rotation = 2 then { tet with bitmap := rows4 0b0000 0b1100 0b0110 0b0000 }
    else if tet.rotation = 3 then { tet with bitmap := rows4 0b0100 0b1100 0b1000 0b0000 }
    else tet
  | J_tet =>
    if tet.rotation = 0 then { tet with bitmap := rows4 0b1000 0b1110 0b0000 0b0000 }
    else if tet.rotation = 1 then { tet with bitmap := rows4 0b0110 0b0100 0b0100 0b0000 }
    else if tet.rotation = 2 then { tet with bitmap := rows4 0b0000 0b1110 0b0010 0b0000 }
    else if tet.rotation = 3 then { tet with bitmap := rows4 0b0100 0b0100 0b1100 0b0000 }
    else tet
  | L_tet =>
    if tet.rotation = 0 then { tet with bitmap := rows4 0b0010 0b1110 0b0000 0b0000 }
    else if tet.rotation = 1 then { tet with bitmap := rows4 0b0100 0b0100 0b0110 0b0000 }
    else if tet.rotation = 2 then { tet with bitmap := rows4 0b0000 0b1110 0b1000 0b0000 }
    else if tet.rotation = 3 then { tet with bitmap := rows4 0b1100 0b0100 0b0100 0b0000 }
    else tet

/-! ## collision -/

abbrev NO_COLLISION : Nat := 0
abbrev ERR_COLLISION : Nat := 1

/-- The loop of the `dir == DIR_LRD` branch of `collision`, over the remaining
bit indices `i`. The result is the value the loop returns with
(`ERR_COLLISION`) or falls through with (`NO_COLLISION`); `none` when
`playfield[y][x]` is evaluated outside the array. The test
`x < 0 || x >= PF_W || y >= PF_H || playfield[y][x]` is evaluated left to
right, so the playfield is read only when the first three tests fail. -/
def collision_loop (tet : tetromino_t) (pf : playfield_t) (yoff xoff : Int) :
    List Nat → Option Nat
  | [] => some NO_COLLISION
  | i :: rest =>
    let x : Int := ((i % 4 : Nat) : Int) + tet.x + xoff
    let y : Int := ((i / 4 : Nat) : Int) + tet.y + yoff
    if bit_at tet.bitmap i then
      if x < 0 ∨ x ≥ (PF_W : Int) ∨ y ≥ (PF_H : Int) then some ERR_COLLISION
      else
        match pf_read pf y x with
        | none => none
        | some v => if v ≠ 0 then some ERR_COLLISION else collision_loop tet pf yoff xoff rest
    else collision_loop tet pf yoff xoff rest

/-- The `dir == DIR_LRD` branch of `collision` (translation left, right,
down): returns the result code and the piece after the call. -/
def collision_lrd (tet : tetromino_t) (pf : playfield_t) (yoff xoff : Int) :
    Option (Nat × tetromino_t) :=
  match collision_loop tet pf yoff xoff (List.range 16) with
  | none => none
  | some r =>
    if r ≠ NO_COLLISION then some (ERR_COLLISION, tet)
    else some (NO_COLLISION, { tet with x := tet.x + xoff, y := tet.y + yoff })

/-- The table `JLSTZ_wallkick[8][5]` of points `(x, y)`. -/
def JLSTZ_wallkick : List (List (Int × Int)) :=
  [[(0, 0), (-1, 0), (-1, 1), (0, -2), (-1, -2)],
   [(0, 0), (1, 0), (1, -1), (0, 2), (1, 2)],
   [(0, 0), (1, 0), (1, -1), (0, 2), (1, 2)],
   [(0, 0), (-1, 0), (-1, 1), (0, -2), (-1, -2)],
   [(0, 0), (1, 0), (1, 1), (0, -2), (1, -2)],
   [(0, 0), (-1, 0), (-1, -1), (0, 2), (-1, 2)],
   [(0, 0), (-1, 0), (-1, -1), (0, 2), (-1, 2)],
   [(0, 0), (1, 0), (1, 1), (0, -2), (1, -2)]]

/-- The table `I_wallkick[8][5]` of points `(x, y)`. -/
def I_wallkick : List (List (Int × Int)) :=
  [[(0, 0), (-2, 0), (1, 0), (1, 2), (-2, -1)],
   [(0, 0), (2, 0), (-1, 0), (2, 1), (-1, -2)],
   [(0, 0), (-1, 0), (2, 0), (-1, 2), (2, -1)],
   [(0, 0), (-2, 0), (1, 0), (-2, 1), (1, -1)],
   [(0, 0), (2, 0), (-1, 0), (2, 1), (-1, -1)],
   [(0, 0), (1, 0), (-2, 0), (1, 2), (-2, -1)],
   [(0, 0), (-2, 0), (1, 0), (-2, 1), (1, -2)],
   [(0, 0), (2, 0), (-1, 0), (-1, 2), (2, -1)]]

/-- The switch on `tet->rotation` that sets `table_idx`. It has no default
case: for a rotation outside `0..3` the variable stays uninitialised, which is
modelled by `none`. -/
def table_idx (rotation : Int) (dir : directions_e) : Option Nat :=
  if rotation = 0 then some (if dir = DIR_CW then 0 else 7)
  else if rotation = 1 then some (if dir = DIR_CW then 2 else 1)
  else if rotation = 2 then some (if dir = DIR_CW then 4 else 3)
  else if rotation = 3 then some (if dir = DIR_CW then 6 else 5)
  else none

/-- The row of five kick points used for a shape and a table index: the I
table for the I shape, the shared table for T, S, Z, J and L. -/
def kick_row (shape : shapes_t) (idx : Nat) : List (Int × Int) :=
  match shape with
  | I_tet => I_wallkick.getD idx []
  | _ => JLSTZ_wallkick.getD idx []

/-- The loop `for (int i = 0; i < 5; i++)` over the kick points of one table
row, run on the already rotated piece `tet`. Each point is probed on a copy
`tmp = *tet` with the translation branch at offsets `(-p.y, p.x)`; the first
point whose probe returns `NO_COLLISION` is committed to `tet`. The result is
`some (some t)` when a point is committed, `some none` when the loop ends
without one, and `none` when a probe reads outside the playfield. -/
def kick_loop (tet : tetromino_t) (pf : playfield_t) :
    List (Int × Int) → Option (Option tetromino_t)
  | [] => some none
  | p :: rest =>
    match collision_lrd tet pf (-p.2) p.1 with
    | none => none
    | some (r, _) =>
      if r ≠ NO_COLLISION then kick_loop tet pf rest
      else some (some { tet with x := tet.x + p.1, y := tet.y - p.2 })

/-- The function `collision`: returns the result code (1 if there was a
collision, otherwise 0) and the piece after the call. The recursive calls of
the source are all made with `DIR_LRD`, so they are calls of
`collision_lrd`. -/
def collision (tet : tetromino_t) (pf : playfield_t) (dir : directions_e)
    (yoff xoff : Int) : Option (Nat × tetromino_t) :=
  if dir = DIR_LRD then collision_lrd tet pf yoff xoff
  else if tet.shape = O_tet then some (NO_COLLISION, tet)
  else
    match table_idx tet.rotation dir with
    | none => none
    | some idx =>
      let rotated := update_tetromino
        { tet with rotation :=
            if dir = DIR_CW then (tet.rotation + 1).tmod 4 else (tet.rotation + 3).tmod 4 }
      match kick_loop rotated pf (kick_row tet.shape idx) with
      | none => none
      | some (some t) => some (NO_COLLISION, t)
      | some none =>
        some (ERR_COLLISION, update_tetromino
          { rotated with rotation :=
              if dir = DIR_CW then (rotated.rotation + 3).tmod 4
              else (rotated.rotation + 1).tmod 4 })

/-- The body of the loop of `tet2playfield` for the bit index `i`. -/
def lock_cell (tet : tetromino_t) (p : playfield_t) (i : Nat) : playfield_t :=
  let x : Int := ((i % 4 : Nat) : Int) + tet.x
  let y : Int := ((i / 4 : Nat) : Int) + tet.y
  if bit_at tet.bitmap i ∧ x < (PF_W : Int) ∧ y < (PF_H : Int) ∧ x ≥ 0 ∧ y ≥ 0 then
    pf_write p y.toNat x.toNat tet.shape.tag
  else p

/-- The function `tet2playfield`: copies the set cells of the piece that lie
inside the grid into the playfield. -/
def tet2playfield (tet : tetromino_t) (pf : playfield_t) : playfield_t :=
  (List.range 16).foldl (lock_cell tet) pf

/-! ## The lock phase of tetris_run -/

/-- The scoreboard and playfield variables of `tetris_run` that the code
after the falling loop reads and writes. -/
structure game_t where
  playfield : playfield_t
  running : Bool
  score : Int
  lines : Int
  level : Int
  lines_cleared : Int

/-- The game-over check: the loops `for (i = PF_BUFF_SIZE; i >= 0; i--)` and
`for (j = 0; j < PF_W; j++)` that clear `running` at a non-empty cell. The
result is the value of `running` after the loops. -/
def overflow_check (pf : playfield_t) (running : Bool) : Bool :=
  (List.range (PF_BUFF_SIZE + 1)).reverse.foldl
    (fun run i => (List.range PF_W).foldl (fun run j => if pf i j ≠ 0 then false else run) run)
    running

/-- The game-over check as a step on the variables: only `running` is
assigned. -/
def overflow_step (g : game_t) : game_t :=
  { g with running := overflow_check g.playfield g.running }

/-- The loop that computes `sum` for row `i`: it counts the cells from column
0 on and stops at the first empty one (`break`). -/
def row_sum (pf : playfield_t) (i : Nat) : List Nat → Nat
  | [] => 0
  | j :: rest => if pf i j ≠ 0 then row_sum pf i rest + 1 else 0

/-- The inner loop `for (j = 0; j < PF_W; j++) playfield[i2][j] = playfield[i2-1][j]`. -/
def copy_row (pf : playfield_t) (i2 : Nat) : playfield_t :=
  (List.range PF_W).foldl (fun p j => pf_write p i2 j (p (i2 - 1) j)) pf

/-- The loop `for (i2 = i; i2 > PLAYFIELD_HEIGHT; i2--)` that moves the rows
above a full row down by one, started at `i2`. -/
def shift_rows (pf : playfield_t) : Nat → playfield_t
  | 0 => pf
  | i2 + 1 =>
    if i2 + 1 > PLAYFIELD_HEIGHT then shift_rows (copy_row pf (i2 + 1)) i2 else pf

/-- The line-clear loop `for (i = PF_H-1; i > PLAYFIELD_HEIGHT; i--)`, from
the loop variable `i` and the counter `lines_cleared` on. After a full row the
body runs `i++`, so the same `i` is examined again and the number of
iterations is not bounded by the loop header: each iteration uses one unit of
fuel, and the result is `none` when the fuel runs out. -/
def clear_loop (fuel : Nat) (pf : playfield_t) (i : Nat) (lines_cleared : Int) :
    Option (playfield_t × Int) :=
  match fuel with
  | 0 => none
  | fuel + 1 =>
    if i > PLAYFIELD_HEIGHT then
      if row_sum pf i (List.range PF_W) = PF_W then
        clear_loop fuel (shift_rows pf i) i (lines_cleared + 1)
      else
        clear_loop fuel pf (i - 1) lines_cleared
    else some (pf, lines_cleared)

/-- The line-clear step of `tetris_run`: the loop started at `i = PF_H - 1`. -/
def clear_lines (fuel : Nat) (pf : playfield_t) (lines_cleared : Int) :
    Option (playfield_t × Int) :=
  clear_loop fuel pf (PF_H - 1) lines_cleared

/-- The value stored in a 32-bit `int` for the mathematical result `x` of an
addition or multiplication of `int` values: `x` reduced modulo `2^32` into the
range `-2147483648 .. 2147483647`. -/
def wrap_int (x : Int) : Int :=
  (x + 2147483648) % 4294967296 - 2147483648

/-- The statements after the scoring switch: `lines += lines_cleared`, the
new level and `lines_cleared = 0`, with the score the switch computed. The
level is computed from the stored value of `lines`. -/
def score_commit (g : game_t) (score : Int) : game_t :=
  { g with
    score := score
    lines := wrap_int (g.lines + g.lines_cleared)
    level :=
      if g.level = (GRAV_LEVELS : Int) then (GRAV_LEVELS : Int)
      else (wrap_int (g.lines + g.lines_cleared)).tdiv 10 + 1
    lines_cleared := 0 }

/-- The block `if (lines_cleared) { switch (lines_cleared) ... }`. The
default case of the switch calls `_exit(3)`; it is the error `3`. The
statements `score += 100 * level` and so on store the sum as an `int`. -/
def score_update (g : game_t) : Except Nat game_t :=
  if g.lines_cleared ≠ 0 then
    if g.lines_cleared = 1 then .ok (score_commit g (wrap_int (g.score + 100 * g.level)))
    else if g.lines_cleared = 2 then .ok (score_commit g (wrap_int (g.score + 300 * g.level)))
    else if g.lines_cleared = 3 then .ok (score_commit g (wrap_int (g.score + 500 * g.level)))
    else if g.lines_cleared = 4 then .ok (score_commit g (wrap_int (g.score + 800 * g.level)))
    else .error 3
  else .ok g

/-- The part of the body of `while (running)` after the falling loop: copy
the piece to the playfield, check for game over, clear lines, update the
score. The result is `none` when the line-clear loop runs out of fuel,
`some (.error 3)` when the process exits in the scoring switch, and the
variables at the end of the iteration otherwise. -/
def lock_phase (fuel : Nat) (tet : tetromino_t) (g : game_t) : Option (Except Nat game_t) :=
  let g1 := overflow_step { g with playfield := tet2playfield tet g.playfield }
  match clear_lines fuel g1.playfield g1.lines_cleared with
  | none => none
  | some (pf2, n) => some (score_update { g1 with playfield := pf2, lines_cleared := n })

/-! ## shuffle_bag -/

/-- The struct `bag_t`. -/
structure bag_t where
  tetrominos : List shapes_t
  idx : Int
  deriving DecidableEq

/-- The shape with a given enumerator value, for the expression `I_tet+i`. -/
def shape_of_tag (n : Nat) : shapes_t :=
  if n = 1 then I_tet
  else if n = 2 then O_tet
  else if n = 3 then T_tet
  else if n = 4 then S_tet
  else if n = 5 then Z_tet
  else if n = 6 then J_tet
  else L_tet

/-- The index `j = rand() % (i+1)` for a value `r` returned by `rand()`. -/
def swap_index (r i : Nat) : Nat :=
  r % (i + 1)

/-- The swap loop `for (i = BAG_SIZE-1; i > 0; i--)` of `shuffle_bag`, from
the loop variable `i` on. The calls of `rand()` are a stream `rand`, of which
`n` values have been consumed; the result is the array and the number of
values consumed. -/
def shuffle_loop (rand : Nat → Nat) : Nat → Nat → List shapes_t → List shapes_t × Nat
  | 0, n, l => (l, n)
  | i + 1, n, l =>
    let j := swap_index (rand n) (i + 1)
    let tmp := l.getD j I_tet
    let l1 := l.set j (l.getD (i + 1) I_tet)
    let l2 := l1.set (i + 1) tmp
    shuffle_loop rand i (n + 1) l2

/-- The function `shuffle_bag`: fills the bag with `I_tet+i`, shuffles it and
resets the cursor. Also returns the number of `rand()` values consumed. -/
def shuffle_bag (rand : Nat → Nat) (n : Nat) (_B : bag_t) : bag_t × Nat :=
  let filled := (List.range BAG_SIZE).map (fun i => shape_of_tag (I_tet.tag + i))
  let r := shuffle_loop rand (BAG_SIZE - 1) n filled
  ({ tetrominos := r.1, idx := 0 }, r.2)

/-! ## The piece supply of tetris_run -/

/-- The variables `bag` and `next_shape` of `tetris_run`, with the number of
`rand()` values consumed so far. -/
structure supply_t where
  bag : bag_t
  next_shape : shapes_t
  rand_used : Nat
  deriving DecidableEq

/-- The statements before the loop: `shuffle_bag(&bag)` and
`next_shape = bag.tetrominos[0]`. -/
def supply_init (rand : Nat → Nat) (n : Nat) (B : bag_t) : supply_t :=
  let r := shuffle_bag rand n B
  { bag := r.1, next_shape := r.1.tetrominos.getD 0 I_tet, rand_used := r.2 }

/-- The supply part of "set up a new tetromino": the piece takes
`next_shape`, then `if (++bag.idx == BAG_SIZE) shuffle_bag(&bag)` and
`next_shape = bag.tetrominos[bag.idx]`. The result is the shape given to the
piece and the variables afterwards. -/
def supply_spawn (rand : Nat → Nat) (s : supply_t) : shapes_t × supply_t :=
  let shape := s.next_shape
  let bumped : bag_t := { s.bag with idx := s.bag.idx + 1 }
  let r := if bumped.idx = (BAG_SIZE : Int) then shuffle_bag rand s.rand_used bumped
    else (bumped, s.rand_used)
  (shape, { bag := r.1, next_shape := r.1.tetrominos.getD r.1.idx.toNat I_tet, rand_used := r.2 })

/-- The supply variables after `k` pieces have been spawned. -/
def supply_after (rand : Nat → Nat) (n : Nat) (B : bag_t) : Nat → supply_t
  | 0 => supply_init rand n B
  | k + 1 => (supply_spawn rand (supply_after rand n B k)).2

/-- The shape given to spawned piece number `k`, counted from 0. -/
def draw (rand : Nat → Nat) (n : Nat) (B : bag_t) (k : Nat) : shapes_t :=
  (supply_spawn rand (supply_after rand n B k)).1

/-- The piece part of "set up a new tetromino": shape, spawn origin,
rotation 0, the falling flag and `update_tetromino`; the bitmap before the
update is the one left in the variable. -/
def spawn_piece (old : tetromino_t) (shape : shapes_t) : tetromino_t :=
  update_tetromino
    { old with
      shape := shape
      x := TETROMINO_SPAWN_X
      y := TETROMINO_SPAWN_Y
      rotation := 0
      falling := true }

/-! ## The falling loop of tetris_run -/

/-- The hard drop, case `z`: `while (!collision(..., DIR_LRD, 1, 0));` and
`tetromino.falling = false`. Each call of `collision` uses one unit of fuel;
the result is `none` when the fuel runs out or a call reads outside the
playfield. -/
def hard_drop (fuel : Nat) (tet : tetromino_t) (pf : playfield_t) : Option tetromino_t :=
  match fuel with
  | 0 => none
  | fuel + 1 =>
    match collision tet pf DIR_LRD 1 0 with
    | none => none
    | some (r, t) =>
      if r ≠ NO_COLLISION then some { t with falling := false } else hard_drop fuel t pf

/-- The body of `if (duration > gravity[level - 1])`, run when the gravity
interval has elapsed: the move down by one row and, when it is blocked, the
lock decision. The elapsed time of the slide timer, `duration` in
microseconds, is the argument `slide_us`. -/
def gravity_tick (tet : tetromino_t) (pf : playfield_t) (level : Int) (slide_us : Int) :
    Option tetromino_t :=
  match collision tet pf DIR_LRD 1 0 with
  | none => none
  | some (r, t) =>
    if r ≠ NO_COLLISION then
      if level ≠ (GRAV_LEVELS : Int) - 1 then
        if slide_us > 500000 then some { t with falling := false } else some t
      else some { t with falling := false }
    else some t

/-- The iterations of `while (running)` seen from the lock phase: each
iteration ends with the lock of a piece, the piece being whatever the falling
loop left; the falling loop itself changes neither the playfield nor, without
the debug keys, the scoreboard variables. The result is the variables when the
loop condition fails or the list of pieces is used up. -/
def play (fuel : Nat) : List tetromino_t → game_t → Option (Except Nat game_t)
  | [], g => some (.ok g)
  | t :: rest, g =>
    if g.running then
      match lock_phase fuel t g with
      | some (.ok g2) => play fuel rest g2
      | other => other
    else some (.ok g)

/-! ## The level keys and the gravity table -/

/-- The array `gravity[GRAV_LEVELS]`, in microseconds per drop. -/
def gravity : List Int :=
  [1000000, 793000, 617800, 472730, 355200, 262000, 189680,
   134730, 93880, 64150, 42980, 28220, 18150, 11440, 7060]

/-- The value of `gravity[level - 1]`; `none` when the index is outside the
array. -/
def gravity_read (level : Int) : Option Int :=
  if 0 ≤ level - 1 ∧ level - 1 < (GRAV_LEVELS : Int) then
    some (gravity.getD (level - 1).toNat 0)
  else
    none

/-- The effect on `level` of the key read by `getch()`: case `o` is
`level--`, case `p` is `level++`, no other case assigns `level`. -/
def key_level (ch : Char) (level : Int) : Int :=
  if ch = 'o' then level - 1
  else if ch = 'p' then level + 1
  else level

/-- The level through iterations of the falling loop, one key per iteration:
the switch on the key, then the gravity test, which evaluates
`gravity[level - 1]`. The result is the level after the iterations, or `none`
when the table is read outside its bounds. -/
def falling_levels : List Char → Int → Option Int
  | [], level => some level
  | ch :: rest, level =>
    match gravity_read (key_level ch level) with
    | none => none
    | some _ => falling_levels rest (key_level ch level)

/-! ## The falling loop, one iteration -/

/-- What one iteration of `while (tetromino.falling)` gets from outside the
program: the value of `getch()` and, when the test
`duration > gravity[level - 1]` of the gravity timer succeeds in this
iteration, the elapsed time of the slide timer in microseconds. -/
structure falling_event where
  key : Char
  tick : Option Int

/-- The switch on the key in the falling loop, on the piece: the cases `a`,
`d`, `s`, `e`, `q`, `z` and `x`. The cases `o` and `p` change the level only
(`key_level`), and any other value, like the value of `getch()` when no key is
pending, has no case. The result is `none` when a call of `collision` reads
outside the playfield or the hard drop runs out of fuel. -/
def key_step (fuel : Nat) (ch : Char) (tet : tetromino_t) (pf : playfield_t) :
    Option tetromino_t :=
  if ch = 'a' then
    match collision tet pf DIR_LRD 0 (-1) with
    | none => none
    | some (_, t) => some t
  else if ch = 'd' then
    match collision tet pf DIR_LRD 0 1 with
    | none => none
    | some (_, t) => some t
  else if ch = 's' then
    match collision tet pf DIR_LRD 1 0 with
    | none => none
    | some (r, t) => if r ≠ NO_COLLISION then some { t with falling := false } else some t
  else if ch = 'e' then
    match collision tet pf DIR_CW 0 0 with
    | none => none
    | some (_, t) => some t
  else if ch = 'q' then
    match collision tet pf DIR_CCW 0 0 with
    | none => none
    | some (_, t) => some t
  else if ch = 'z' then hard_drop fuel tet pf
  else if ch = 'x' then some { tet with falling := false }
  else some tet

/-- One iteration of the falling loop on the piece and the level: the switch
on the key, then the gravity step when its timer has elapsed. -/
def falling_iter (fuel : Nat) (pf : playfield_t) (ev : falling_event)
    (s : tetromino_t × Int) : Option (tetromino_t × Int) :=
  match key_step fuel ev.key s.1 pf with
  | none => none
  | some t =>
    match ev.tick with
    | none => some (t, key_level ev.key s.2)
    | some slide_us =>
      match gravity_tick t pf (key_level ev.key s.2) slide_us with
      | none => none
      | some t2 => some (t2, key_level ev.key s.2)

/-- The loop `while (tetromino.falling)` on the piece and the level, for the
events of its iterations; the playfield is not written in the loop. The result
is the state when the loop condition fails or the events are used up, `none`
when an iteration has no result. -/
def falling_loop (fuel : Nat) (pf : playfield_t) :
    List falling_event → tetromino_t × Int → Option (tetromino_t × Int)
  | [], s => some s
  | ev :: rest, s =>
    if s.1.falling then
      match falling_iter fuel pf ev s with
      | none => none
      | some s2 => falling_loop fuel pf rest s2
    else some s

/-! ## Specification-side predicates -/

/-- Bit `i` of the bitmap `bm` is set and, with the 4x4 box at origin
`(x, y)`, its cell is outside the columns `0..PF_W-1`, or at a row
`>= PF_H`, or on a non-empty playfield cell. -/
def cell_blocked (pf : playfield_t) (bm : Nat) (x y : Int) (i : Nat) : Prop :=
  bit_at bm i = true ∧
    (x + ((i % 4 : Nat) : Int) < 0 ∨ x + ((i % 4 : Nat) : Int) ≥ 10 ∨
      y + ((i / 4 : Nat) : Int) ≥ 40 ∨
      pf (y + ((i / 4 : Nat) : Int)).toNat (x + ((i % 4 : Nat) : Int)).toNat ≠ 0)

instance (pf : playfield_t) (bm : Nat) (x y : Int) (i : Nat) :
    Decidable (cell_blocked pf bm x y i) := by
  unfold cell_blocked; infer_instance

/-- Some set bit of the bitmap `bm` at origin `(x, y)` is blocked. -/
def blocked (pf : playfield_t) (bm : Nat) (x y : Int) : Prop :=
  ∃ i, i < 16 ∧ cell_blocked pf bm x y i

instance (pf : playfield_t) (bm : Nat) (x y : Int) : Decidable (blocked pf bm x y) := by
  unfold blocked; infer_instance

/-- Every set bit of the bitmap `bm` at origin row `y` lies in a row `>= 0`. -/
def rows_nonneg (bm : Nat) (y : Int) : Prop :=
  ∀ i, i < 16 → bit_at bm i = true → 0 ≤ y + ((i / 4 : Nat) : Int)

instance (bm : Nat) (y : Int) : Decidable (rows_nonneg bm y) := by
  unfold rows_nonneg; infer_instance

/-- The bitmap of the piece is the table value for its shape and rotation. -/
def table_bitmap (tet : tetromino_t) : Prop :=
  (update_tetromino tet).bitmap = tet.bitmap

instance (tet : tetromino_t) : Decidable (table_bitmap tet) := by
  unfold table_bitmap; infer_instance

/-- The playfield with every cell empty. -/
def empty_pf : playfield_t := fun _ _ => 0

/-- The table value of the bitmap for a shape and a rotation: what
`update_tetromino` writes. -/
def table_value (shape : shapes_t) (rotation : Int) : Nat :=
  (update_tetromino ⟨shape, 0, 0, rotation, 0, false⟩).bitmap

/-- The five kick points listed for the transition from `rotation` in
direction `dir`, in the table of the family of `shape`. -/
def kick_candidates (shape : shapes_t) (rotation : Int) (dir : directions_e) :
    List (Int × Int) :=
  match table_idx rotation dir with
  | some idx => kick_row shape idx
  | none => []

/-- A T piece in rotation 0 at the spawn origin. -/
def piece_T_spawn : tetromino_t :=
  ⟨T_tet, TETROMINO_SPAWN_X, TETROMINO_SPAWN_Y, 0, rows4 0b0100 0b1110 0b0000 0b0000, true⟩

/-- A T piece in rotation 0 with its box at the left wall, at row 30. -/
def piece_T_left : tetromino_t := ⟨T_tet, 0, 30, 0, rows4 0b0100 0b1110 0b0000 0b0000, true⟩

/-- The rotation state after a rotation in direction `dir`: `+1` modulo 4 for
clockwise, `+3` modulo 4 for counter-clockwise. -/
def rotation_after (rotation : Int) (dir : directions_e) : Int :=
  if dir = DIR_CW then (rotation + 1) % 4 else (rotation + 3) % 4

/-- The playfield cell at row `r`, column `c` is covered by a set bit of the
bitmap of the piece at the origin of the piece. -/
def covers (tet : tetromino_t) (r c : Nat) : Prop :=
  ∃ i, i < 16 ∧ bit_at tet.bitmap i = true ∧
    tet.x + ((i % 4 : Nat) : Int) = (c : Int) ∧ tet.y + ((i / 4 : Nat) : Int) = (r : Int)

instance (tet : tetromino_t) (r c : Nat) : Decidable (covers tet r c) := by
  unfold covers; infer_instance

/-- Every set bit of the bitmap of the piece lies on a cell of the grid. -/
def in_bounds (tet : tetromino_t) : Prop :=
  ∀ i, i < 16 → bit_at tet.bitmap i = true →
    0 ≤ tet.x + ((i % 4 : Nat) : Int) ∧ tet.x + ((i % 4 : Nat) : Int) < 10 ∧
    0 ≤ tet.y + ((i / 4 : Nat) : Int) ∧ tet.y + ((i / 4 : Nat) : Int) < 40

instance (tet : tetromino_t) : Decidable (in_bounds tet) := by
  unfold in_bounds; infer_instance

/-- The cells of the grid covered by the piece. -/
def covered_cells (tet : tetromino_t) : Finset (Nat × Nat) :=
  (Finset.range PF_H ×ˢ Finset.range PF_W).filter (fun rc => covers tet rc.1 rc.2)

/-- An L piece in rotation 1 with its box at column 4, row 30. -/
def piece_L_mid : tetromino_t := ⟨L_tet, 4, 30, 1, rows4 0b0100 0b0100 0b0110 0b0000, true⟩

/-- Every column of row `i` of the playfield is non-empty. -/
def row_full (pf : playfield_t) (i : Nat) : Prop :=
  ∀ j, j < 10 → pf i j ≠ 0

instance (pf : playfield_t) (i : Nat) : Decidable (row_full pf i) := by
  unfold row_full; infer_instance

/-- A playfield with row 39 full and one more non-empty cell in each of the
rows 21 and 5. -/
def pf_one_full : playfield_t :=
  fun r c => if r = 39 ∧ c < 10 then 1 else if (r = 21 ∨ r = 5) ∧ c = 0 then 3 else 0

/-- A stack that fills the columns 0..8 of the rows 21..39 and the columns
0..5 of row 20. -/
def pf_stack_20 : playfield_t :=
  fun r c => if 21 ≤ r ∧ r < 40 ∧ c < 9 then 1 else if r = 20 ∧ c < 6 then 1 else 0

/-- An I piece in rotation 0 whose cells are the columns 6..9 of row 20. -/
def piece_I_row20 : tetromino_t := ⟨I_tet, 6, 19, 0, rows4 0b0000 0b1111 0b0000 0b0000, false⟩

/-- A stack that fills the columns 1..9 of the rows 23..39 and the columns
0..7 of the rows 21 and 22. -/
def pf_stack_22 : playfield_t :=
  fun r c =>
    if 23 ≤ r ∧ r < 40 ∧ 1 ≤ c ∧ c < 10 then 1 else if (r = 21 ∨ r = 22) ∧ c < 8 then 1 else 0

/-- An O piece whose cells are the columns 8 and 9 of the rows 21 and 22. -/
def piece_O_rows21 : tetromino_t := ⟨O_tet, 7, 21, 0, rows4 0b0110 0b0110 0b0000 0b0000, false⟩

/-- A stack that fills the columns 1..9 of the rows 23..39 and the columns
0..8 of row 22. -/
def pf_stack_high : playfield_t :=
  fun r c => if 23 ≤ r ∧ r < 40 ∧ 1 ≤ c ∧ c < 10 then 1 else if r = 22 ∧ c < 9 then 1 else 0

/-- An I piece in rotation 1 whose cells are column 9 of the rows 19..22. -/
def piece_I_col9 : tetromino_t := ⟨I_tet, 7, 19, 1, rows4 0b0010 0b0010 0b0010 0b0010, false⟩

/-- The variables of a game at level 1 with score 0 on `pf_stack_high`. -/
def game_stack_high : game_t := ⟨pf_stack_high, true, 0, 0, 1, 0⟩

/-- The reward table of the scoring switch: the factor of the level for a
number of cleared rows; no reward for no row. -/
def reward (k : Int) : Int :=
  if k = 1 then 100 else if k = 2 then 300 else if k = 3 then 500 else if k = 4 then 800 else 0

/-- The array of a freshly shuffled bag: the result of `shuffle_bag` when `n`
values of `rand()` have been consumed before the call. -/
def fresh_bag (rand : Nat → Nat) (n : Nat) : List shapes_t :=
  (shuffle_bag rand n ⟨[], 0⟩).1.tetrominos

/-- The stream of `rand()` values in which call number `k` returns `k`. -/
def rand_count : Nat → Nat := fun k => k

/-- The number of set bits among the 16 bits of a bitmap. -/
def popcount (bm : Nat) : Nat :=
  ((Finset.range 16).filter (fun i => bit_at bm i = true)).card

/-- A T piece in rotation 0 with its box at the left wall, at row `y`. -/
def piece_T_wall (y : Int) (falling : Bool) : tetromino_t :=
  ⟨T_tet, 0, y, 0, rows4 0b0100 0b1110 0b0000 0b0000, falling⟩

/-- The piece rotated in place in direction `dir`: rotation advanced, bitmap
the table value, origin and the other fields as before. -/
def turned (t : tetromino_t) (dir : directions_e) : tetromino_t :=
  { t with
    rotation := rotation_after t.rotation dir
    bitmap := table_value t.shape (rotation_after t.rotation dir) }

/-- The I piece `piece_I_row20` while it is still falling. -/
def piece_I_row20_falling : tetromino_t := { piece_I_row20 with falling := true }

/-- The I piece at rotation 0 as the hard drop leaves it on the empty
playfield: origin `(3, 38)`, its cells in row 39, not falling. -/
def piece_I_bottom : tetromino_t := ⟨I_tet, 3, 38, 0, rows4 0b0000 0b1111 0b0000 0b0000, false⟩

/-- The number of full rows among the scanned rows `22..i` of a playfield. -/
def full_count (pf : playfield_t) : Nat → Nat
  | 0 => 0
  | i + 1 => full_count pf i + (if 21 < i + 1 ∧ row_full pf (i + 1) then 1 else 0)

/-- A piece is placed on a playfield: every set cell of its bitmap has its
column in `0..9` and its row in `0..39` and lies on an empty cell. -/
def placed (tet : tetromino_t) (pf : playfield_t) : Prop :=
  ∀ i, i < 16 → bit_at tet.bitmap i = true →
    0 ≤ tet.x + ((i % 4 : Nat) : Int) ∧ tet.x + ((i % 4 : Nat) : Int) < 10 ∧
    0 ≤ tet.y + ((i / 4 : Nat) : Int) ∧ tet.y + ((i / 4 : Nat) : Int) < 40 ∧
    pf (tet.y + ((i / 4 : Nat) : Int)).toNat (tet.x + ((i % 4 : Nat) : Int)).toNat = 0

instance (tet : tetromino_t) (pf : playfield_t) : Decidable (placed tet pf) := by
  unfold placed; infer_instance

/-- A stack that fills the columns 0..8 of the rows 36..39. -/
def pf_four_rows : playfield_t :=
  fun r c => if 36 ≤ r ∧ r < 40 ∧ c < 9 then 1 else 0

/-- An I piece in rotation 1 whose cells are column 9 of the rows 36..39. -/
def piece_I_four : tetromino_t := ⟨I_tet, 7, 36, 1, rows4 0b0010 0b0010 0b0010 0b0010, false⟩

/-- The variables of a game at level 3 with 20 lines on `pf_four_rows`. -/
def game_four_rows : game_t := ⟨pf_four_rows, true, 1500, 20, 3, 0⟩

/-- The integer `x` is a value of a 32-bit `int`. -/
def int_range (x : Int) : Prop :=
  -2147483648 ≤ x ∧ x ≤ 2147483647

instance (x : Int) : Decidable (int_range x) := by
  unfold int_range; infer_instance

/-- A bottom row with the columns 0..2 and 7..9 filled. -/
def pf_bottom_gap : playfield_t :=
  fun r c => if r = 39 ∧ (c < 3 ∨ (6 < c ∧ c < 10)) then 1 else 0

/-- The playfield `pf_bottom_gap` with a score 47 below the largest `int`, at
level 1 with one line: the scoreboard after one row is cleared at level
21474836, a level the key `p` reaches. -/
def game_near_max : game_t := ⟨pf_bottom_gap, true, 2147483600, 1, 1, 0⟩

/-- Every set bit of the bitmap `bm`, with the box at column `x`, is in a
column of the grid. -/
def cols_inside (bm : Nat) (x : Int) : Prop :=
  ∀ i, i < 16 → bit_at bm i = true →
    0 ≤ x + ((i % 4 : Nat) : Int) ∧ x + ((i % 4 : Nat) : Int) < 10

instance (bm : Nat) (x : Int) : Decidable (cols_inside bm x) := by
  unfold cols_inside; infer_instance

/-- Kick point number `j` of the transition keeps the rotated bitmap in the
columns of the grid, and the kick points up to number `j` do not change the
row. -/
def kick_in_row (shape : shapes_t) (rotation : Int) (dir : directions_e) (x : Int)
    (j : Nat) : Prop :=
  j < (kick_candidates shape rotation dir).length ∧
  cols_inside (table_value shape (rotation_after rotation dir))
    (x + ((kick_candidates shape rotation dir).getD j (0, 0)).1) ∧
  ∀ k, k < j + 1 → ((kick_candidates shape rotation dir).getD k (0, 0)).2 = 0

instance (shape : shapes_t) (rotation : Int) (dir : directions_e) (x : Int) (j : Nat) :
    Decidable (kick_in_row shape rotation dir x j) := by
  unfold kick_in_row; infer_instance

/-- The state of the active piece in the falling loop: placed, origin row at
least 15, rotation in `0..3` and a table bitmap. -/
def in_play (tet : tetromino_t) (pf : playfield_t) : Prop :=
  placed tet pf ∧ 15 ≤ tet.y ∧ (0 ≤ tet.rotation ∧ tet.rotation ≤ 3) ∧ table_bitmap tet

/-- The events of a falling loop: rotate counter-clockwise, move left with a
gravity step, hard drop. -/
def events_sample : List falling_event :=
  [⟨'q', none⟩, ⟨'a', some 0⟩, ⟨'z', none⟩]

/-! # Theorems -/

/-! ## The translation branch of collision -/

theorem pf_read_of_bounds (pf : playfield_t) (y x : Int)
    (hy : 0 ≤ y) (hy2 : y < 40) (hx : 0 ≤ x) (hx2 : x < 10) :
    pf_read pf y x = some (pf y.toNat x.toNat) := by
  unfold pf_read
  rw [if_pos]
  exact ⟨hy, by simpa using hy2, hx, by simpa using hx2⟩

theorem pf_read_neg_row (pf : playfield_t) (y x : Int) (hy : y < 0) :
    pf_read pf y x = none := by
  unfold pf_read
  rw [if_neg]
  intro h
  omega

/-- When every set bit among the indices of `l` lies in a row `>= 0`, the
translation loop over `l` returns a code, and the code is `ERR_COLLISION`
exactly when one of these bits is blocked. -/
theorem collision_loop_eq (tet : tetromino_t) (pf : playfield_t) (yoff xoff : Int)
    (l : List Nat)
    (h : ∀ i ∈ l, bit_at tet.bitmap i = true → 0 ≤ tet.y + yoff + ((i / 4 : Nat) : Int)) :
    collision_loop tet pf yoff xoff l =
      some (if ∃ i ∈ l, cell_blocked pf tet.bitmap (tet.x + xoff) (tet.y + yoff) i
        then ERR_COLLISION else NO_COLLISION) := by
  induction l with
  | nil => simp [collision_loop]
  | cons i rest ih =>
    have ih2 := ih (fun k hk hb => h k (List.mem_cons_of_mem _ hk) hb)
    have ex : ((i % 4 : Nat) : Int) + tet.x + xoff = tet.x + xoff + ((i % 4 : Nat) : Int) := by
      omega
    have ey : ((i / 4 : Nat) : Int) + tet.y + yoff = tet.y + yoff + ((i / 4 : Nat) : Int) := by
      omega
    simp only [collision_loop]
    rw [ex, ey, ih2]
    by_cases hb : bit_at tet.bitmap i = true
    · have hrow := h i (List.mem_cons_self _ _) hb
      by_cases hout : tet.x + xoff + ((i % 4 : Nat) : Int) < 0 ∨
          tet.x + xoff + ((i % 4 : Nat) : Int) ≥ ((PF_W : Nat) : Int) ∨
          tet.y + yoff + ((i / 4 : Nat) : Int) ≥ ((PF_H : Nat) : Int)
      · have hblk : cell_blocked pf tet.bitmap (tet.x + xoff) (tet.y + yoff) i := by
          refine ⟨hb, ?_⟩
          rcases hout with h1 | h1 | h1
          · exact Or.inl h1
          · exact Or.inr (Or.inl (by simpa using h1))
          · exact Or.inr (Or.inr (Or.inl (by simpa using h1)))
        have hex : ∃ k ∈ i :: rest, cell_blocked pf tet.bitmap (tet.x + xoff) (tet.y + yoff) k :=
          ⟨i, List.mem_cons_self _ _, hblk⟩
        rw [if_pos hb, if_pos hout, if_pos hex]
      · have hin : ¬ (tet.x + xoff + ((i % 4 : Nat) : Int) < 0) ∧
            ¬ (tet.x + xoff + ((i % 4 : Nat) : Int) ≥ 10) ∧
            ¬ (tet.y + yoff + ((i / 4 : Nat) : Int) ≥ 40) := by
          refine ⟨fun h1 => hout (Or.inl h1), fun h1 => hout (Or.inr (Or.inl (by simpa using h1))),
            fun h1 => hout (Or.inr (Or.inr (by simpa using h1)))⟩
        rw [if_pos hb, if_neg hout,
          pf_read_of_bounds pf _ _ hrow (by omega) (by omega) (by omega)]
        simp only []
        by_cases hv : pf (tet.y + yoff + ((i / 4 : Nat) : Int)).toNat
            (tet.x + xoff + ((i % 4 : Nat) : Int)).toNat ≠ 0
        · have hex : ∃ k ∈ i :: rest,
              cell_blocked pf tet.bitmap (tet.x + xoff) (tet.y + yoff) k :=
            ⟨i, List.mem_cons_self _ _, hb, Or.inr (Or.inr (Or.inr hv))⟩
          rw [if_pos hv, if_pos hex]
        · rw [if_neg hv]
          have hni : ¬ cell_blocked pf tet.bitmap (tet.x + xoff) (tet.y + yoff) i := by
            rintro ⟨_, h1 | h1 | h1 | h1⟩
            · exact hin.1 h1
            · exact hin.2.1 h1
            · exact hin.2.2 h1
            · exact hv h1
          have hiff : (∃ k ∈ i :: rest,
              cell_blocked pf tet.bitmap (tet.x + xoff) (tet.y + yoff) k) ↔
              ∃ k ∈ rest, cell_blocked pf tet.bitmap (tet.x + xoff) (tet.y + yoff) k := by
            constructor
            · rintro ⟨k, hk, hc⟩
              rcases List.mem_cons.mp hk with rfl | hk2
              · exact absurd hc hni
              · exact ⟨k, hk2, hc⟩
            · rintro ⟨k, hk, hc⟩
              exact ⟨k, List.mem_cons_of_mem _ hk, hc⟩
          simp only [hiff]
    · have hni : ¬ cell_blocked pf tet.bitmap (tet.x + xoff) (tet.y + yoff) i :=
        fun hc => hb hc.1
      have hiff : (∃ k ∈ i :: rest,
          cell_blocked pf tet.bitmap (tet.x + xoff) (tet.y + yoff) k) ↔
          ∃ k ∈ rest, cell_blocked pf tet.bitmap (tet.x + xoff) (tet.y + yoff) k := by
        constructor
        · rintro ⟨k, hk, hc⟩
          rcases List.mem_cons.mp hk with rfl | hk2
          · exact absurd hc hni
          · exact ⟨k, hk2, hc⟩
        · rintro ⟨k, hk, hc⟩
          exact ⟨k, List.mem_cons_of_mem _ hk, hc⟩
      rw [if_neg hb]
      simp only [hiff]

/-- The translation branch on a piece whose moved cells lie in rows `>= 0`:
it returns, blocked exactly when some moved cell is blocked. -/
theorem collision_lrd_eq (tet : tetromino_t) (pf : playfield_t) (yoff xoff : Int)
    (h : rows_nonneg tet.bitmap (tet.y + yoff)) :
    collision_lrd tet pf yoff xoff =
      if blocked pf tet.bitmap (tet.x + xoff) (tet.y + yoff) then some (ERR_COLLISION, tet)
      else some (NO_COLLISION, { tet with x := tet.x + xoff, y := tet.y + yoff }) := by
  have hl := collision_loop_eq tet pf yoff xoff (List.range 16)
    (fun i hi hb => h i (List.mem_range.mp hi) hb)
  have hiff : (∃ i ∈ List.range 16, cell_blocked pf tet.bitmap (tet.x + xoff) (tet.y + yoff) i) ↔
      blocked pf tet.bitmap (tet.x + xoff) (tet.y + yoff) := by
    unfold blocked
    constructor
    · rintro ⟨i, hi, hc⟩
      exact ⟨i, List.mem_range.mp hi, hc⟩
    · rintro ⟨i, hi, hc⟩
      exact ⟨i, List.mem_range.mpr hi, hc⟩
  unfold collision_lrd
  rw [hl]
  by_cases hb : blocked pf tet.bitmap (tet.x + xoff) (tet.y + yoff)
  · rw [if_pos hb, if_pos (hiff.mpr hb)]
    simp
  · rw [if_neg hb, if_neg (fun hh => hb (hiff.mp hh))]
    simp

/-- C1: a translation by `(dx, dy)` whose moved cells all lie in rows `>= 0`
returns; it returns blocked if and only if some set bit of the bitmap, moved by
the offset, has column `< 0` or `>= 10`, row `>= 40`, or lies on a non-empty
playfield cell; on success the origin is `(x + dx, y + dy)` and the other
fields of the piece are unchanged. -/
theorem C1_translate_semantics (pf : playfield_t) (tet : tetromino_t) (dx dy : Int)
    (hrows : rows_nonneg tet.bitmap (tet.y + dy)) :
    ∃ r t, collision tet pf DIR_LRD dy dx = some (r, t) ∧
      (r = ERR_COLLISION ∨ r = NO_COLLISION) ∧
      (r = ERR_COLLISION ↔ blocked pf tet.bitmap (tet.x + dx) (tet.y + dy)) ∧
      (r = NO_COLLISION → t = { tet with x := tet.x + dx, y := tet.y + dy }) := by
  have h := collision_lrd_eq tet pf dy dx hrows
  unfold collision
  rw [if_pos rfl, h]
  by_cases hb : blocked pf tet.bitmap (tet.x + dx) (tet.y + dy)
  · rw [if_pos hb]
    exact ⟨ERR_COLLISION, tet, rfl, Or.inl rfl, ⟨fun _ => hb, fun _ => rfl⟩,
      fun h0 => absurd h0 (by decide)⟩
  · rw [if_neg hb]
    exact ⟨NO_COLLISION, _, rfl, Or.inr rfl, ⟨fun h0 => absurd h0 (by decide), fun h1 => absurd h1 hb⟩,
      fun _ => rfl⟩

/-- Witness of C1: the T piece at the spawn origin moved one column right and
one row down on the empty playfield. -/
theorem C1_translate_semantics_witness :
    rows_nonneg piece_T_spawn.bitmap (piece_T_spawn.y + 1) ∧
    ∃ r t, collision piece_T_spawn empty_pf DIR_LRD 1 1 = some (r, t) ∧
      (r = ERR_COLLISION ∨ r = NO_COLLISION) ∧
      (r = ERR_COLLISION ↔
        blocked empty_pf piece_T_spawn.bitmap (piece_T_spawn.x + 1) (piece_T_spawn.y + 1)) ∧
      (r = NO_COLLISION →
        t = { piece_T_spawn with x := piece_T_spawn.x + 1, y := piece_T_spawn.y + 1 }) :=
  ⟨by decide, C1_translate_semantics empty_pf piece_T_spawn 1 1 (by decide)⟩

/-! ## Blocked calls leave the piece unchanged -/

/-- The function `update_tetromino` writes the bitmap only. -/
theorem update_tetromino_eq (tet : tetromino_t) :
    update_tetromino tet = { tet with bitmap := (update_tetromino tet).bitmap } := by
  obtain ⟨s, x, y, r, bm, f⟩ := tet
  cases s <;> simp only [update_tetromino] <;> split_ifs <;> rfl

/-- The bitmap written by `update_tetromino` is the table value when the
rotation is in `0..3`. -/
theorem update_tetromino_bitmap (tet : tetromino_t)
    (hrot : 0 ≤ tet.rotation ∧ tet.rotation ≤ 3) :
    (update_tetromino tet).bitmap = table_value tet.shape tet.rotation := by
  obtain ⟨s, x, y, r, bm, f⟩ := tet
  simp only at hrot
  have hr : r = 0 ∨ r = 1 ∨ r = 2 ∨ r = 3 := by omega
  rcases hr with rfl | rfl | rfl | rfl <;> cases s <;> rfl

/-- Rotating forward and back, with the bitmap updated each time, restores a
piece whose rotation is in `0..3` and whose bitmap is the table value. -/
theorem rotate_back (tet : tetromino_t) (dir : directions_e)
    (hrot : 0 ≤ tet.rotation ∧ tet.rotation ≤ 3) (htab : table_bitmap tet) :
    update_tetromino
      { update_tetromino
          { tet with rotation :=
              if dir = DIR_CW then (tet.rotation + 1).tmod 4 else (tet.rotation + 3).tmod 4 } with
        rotation :=
          if dir = DIR_CW then
            ((update_tetromino
              { tet with rotation :=
                  if dir = DIR_CW then (tet.rotation + 1).tmod 4
                  else (tet.rotation + 3).tmod 4 }).rotation + 3).tmod 4
          else
            ((update_tetromino
              { tet with rotation :=
                  if dir = DIR_CW then (tet.rotation + 1).tmod 4
                  else (tet.rotation + 3).tmod 4 }).rotation + 1).tmod 4 } = tet := by
  obtain ⟨s, x, y, r, bm, f⟩ := tet
  simp only at hrot
  unfold table_bitmap at htab
  have hr : r = 0 ∨ r = 1 ∨ r = 2 ∨ r = 3 := by omega
  rcases hr with rfl | rfl | rfl | rfl <;> cases s <;> cases dir <;>
    (simp [update_tetromino] at htab; subst htab; rfl)

/-- C2: when `collision` returns blocked, for a translation by any offset or
for a rotation in either direction, on a piece whose rotation is in `0..3` and
whose bitmap is the table value, the piece after the call equals the piece
before the call in every field. -/
theorem C2_blocked_leaves_piece (pf : playfield_t) (tet : tetromino_t) (dir : directions_e)
    (yoff xoff : Int) (t : tetromino_t)
    (hrot : 0 ≤ tet.rotation ∧ tet.rotation ≤ 3) (htab : table_bitmap tet)
    (hres : collision tet pf dir yoff xoff = some (ERR_COLLISION, t)) :
    t = tet := by
  unfold collision at hres
  by_cases hd : dir = DIR_LRD
  · rw [if_pos hd] at hres
    unfold collision_lrd at hres
    split at hres
    · exact absurd hres (by simp)
    · split at hres
      · simp only [Option.some.injEq, Prod.mk.injEq, true_and] at hres
        exact hres.symm
      · simp at hres
  · rw [if_neg hd] at hres
    by_cases ho : tet.shape = O_tet
    · rw [if_pos ho] at hres
      simp at hres
    · rw [if_neg ho] at hres
      split at hres
      · exact absurd hres (by simp)
      · simp only at hres
        split at hres
        · exact absurd hres (by simp)
        · simp at hres
        · simp only [Option.some.injEq, Prod.mk.injEq, true_and] at hres
          rw [← hres]
          exact rotate_back tet dir hrot htab

/-- Witness of C2: the T piece with its box at the left wall, moved one
column to the left on the empty playfield, is blocked. -/
theorem C2_blocked_leaves_piece_witness :
    (0 ≤ piece_T_left.rotation ∧ piece_T_left.rotation ≤ 3) ∧ table_bitmap piece_T_left ∧
    collision piece_T_left empty_pf DIR_LRD 0 (-1) = some (ERR_COLLISION, piece_T_left) ∧
    piece_T_left = piece_T_left :=
  ⟨by decide, by decide, by decide,
    C2_blocked_leaves_piece empty_pf piece_T_left DIR_LRD 0 (-1) piece_T_left
      (by decide) (by decide) (by decide)⟩

/-! ## Rotation with wall kicks -/

/-- The kick loop on a rotated piece whose probes all stay in rows `>= 0`:
when some point is not blocked, the loop commits the first such point. -/
theorem kick_loop_first_free (tet : tetromino_t) (pf : playfield_t) (l : List (Int × Int))
    (hrows : ∀ p ∈ l, rows_nonneg tet.bitmap (tet.y - p.2))
    (hfree : ∃ p ∈ l, ¬ blocked pf tet.bitmap (tet.x + p.1) (tet.y - p.2)) :
    ∃ (k : Nat) (p : Int × Int), l[k]? = some p ∧
      ¬ blocked pf tet.bitmap (tet.x + p.1) (tet.y - p.2) ∧
      (∀ (j : Nat) (q : Int × Int), j < k → l[j]? = some q → blocked pf tet.bitmap (tet.x + q.1) (tet.y - q.2)) ∧
      kick_loop tet pf l = some (some { tet with x := tet.x + p.1, y := tet.y - p.2 }) := by
  induction l with
  | nil =>
    obtain ⟨p, hp, _⟩ := hfree
    exact absurd hp (List.not_mem_nil p)
  | cons p rest ih =>
    have hr : rows_nonneg tet.bitmap (tet.y + -p.2) := by
      rw [← Int.sub_eq_add_neg]
      exact hrows p (List.mem_cons_self _ _)
    have hc := collision_lrd_eq tet pf (-p.2) p.1 hr
    rw [← Int.sub_eq_add_neg] at hc
    by_cases hb : blocked pf tet.bitmap (tet.x + p.1) (tet.y - p.2)
    · rw [if_pos hb] at hc
      have hfree2 : ∃ q ∈ rest, ¬ blocked pf tet.bitmap (tet.x + q.1) (tet.y - q.2) := by
        obtain ⟨q, hq, hqf⟩ := hfree
        rcases List.mem_cons.mp hq with rfl | hq2
        · exact absurd hb hqf
        · exact ⟨q, hq2, hqf⟩
      obtain ⟨k, q, hk, hqf, hearlier, hloop⟩ :=
        ih (fun q hq => hrows q (List.mem_cons_of_mem _ hq)) hfree2
      refine ⟨k + 1, q, by simpa using hk, hqf, ?_, ?_⟩
      · intro j q2 hj hq2
        cases j with
        | zero =>
          have : p = q2 := by simpa using hq2
          rw [← this]
          exact hb
        | succ j2 =>
          exact hearlier j2 q2 (by omega) (by simpa using hq2)
      · simp only [kick_loop]
        rw [hc]
        simp only [ne_eq, one_ne_zero, not_false_eq_true, if_true]
        exact hloop
    · rw [if_neg hb] at hc
      refine ⟨0, p, by simp, hb, ?_, ?_⟩
      · intro j q hj _
        exact absurd hj (Nat.not_lt_zero j)
      · simp only [kick_loop]
        rw [hc]
        simp

/-- The kick loop on a rotated piece whose probes all stay in rows `>= 0`:
when every point is blocked, the loop ends without a commit. -/
theorem kick_loop_all_blocked (tet : tetromino_t) (pf : playfield_t) (l : List (Int × Int))
    (hrows : ∀ p ∈ l, rows_nonneg tet.bitmap (tet.y - p.2))
    (hblk : ∀ p ∈ l, blocked pf tet.bitmap (tet.x + p.1) (tet.y - p.2)) :
    kick_loop tet pf l = some none := by
  induction l with
  | nil => rfl
  | cons p rest ih =>
    have hr : rows_nonneg tet.bitmap (tet.y + -p.2) := by
      rw [← Int.sub_eq_add_neg]
      exact hrows p (List.mem_cons_self _ _)
    have hc := collision_lrd_eq tet pf (-p.2) p.1 hr
    rw [← Int.sub_eq_add_neg, if_pos (hblk p (List.mem_cons_self _ _))] at hc
    simp only [kick_loop]
    rw [hc]
    simp only [ne_eq, one_ne_zero, not_false_eq_true, if_true]
    exact ih (fun q hq => hrows q (List.mem_cons_of_mem _ hq))
      (fun q hq => hblk q (List.mem_cons_of_mem _ hq))

/-- The piece on which the kick points are probed: rotation advanced, bitmap
recomputed, the other fields as before. -/
theorem rotated_piece_eq (tet : tetromino_t) (dir : directions_e)
    (hrot : 0 ≤ tet.rotation ∧ tet.rotation ≤ 3) :
    update_tetromino
      { tet with rotation :=
          if dir = DIR_CW then (tet.rotation + 1).tmod 4 else (tet.rotation + 3).tmod 4 } =
    { tet with
      rotation := rotation_after tet.rotation dir
      bitmap := table_value tet.shape (rotation_after tet.rotation dir) } := by
  obtain ⟨s, x, y, r, bm, f⟩ := tet
  simp only at hrot
  have hr : r = 0 ∨ r = 1 ∨ r = 2 ∨ r = 3 := by omega
  rcases hr with rfl | rfl | rfl | rfl <;> cases s <;> cases dir <;> rfl

theorem table_idx_some (rotation : Int) (dir : directions_e)
    (hrot : 0 ≤ rotation ∧ rotation ≤ 3) :
    ∃ idx, table_idx rotation dir = some idx := by
  have hr : rotation = 0 ∨ rotation = 1 ∨ rotation = 2 ∨ rotation = 3 := by omega
  rcases hr with rfl | rfl | rfl | rfl <;> exact ⟨_, rfl⟩

theorem lock_fold (tet : tetromino_t) (l : List Nat) (pf : playfield_t) (r c : Nat) :
    (l.foldl (lock_cell tet) pf) r c =
      if ∃ i ∈ l, bit_at tet.bitmap i = true ∧ tet.x + ((i % 4 : Nat) : Int) = (c : Int) ∧
          tet.y + ((i / 4 : Nat) : Int) = (r : Int) ∧ r < 40 ∧ c < 10
      then tet.shape.tag else pf r c := by
  induction l generalizing pf with
  | nil => simp
  | cons i rest ih =>
    rw [List.foldl_cons, ih]
    by_cases hrest : ∃ k ∈ rest, bit_at tet.bitmap k = true ∧
        tet.x + ((k % 4 : Nat) : Int) = (c : Int) ∧
        tet.y + ((k / 4 : Nat) : Int) = (r : Int) ∧ r < 40 ∧ c < 10
    · have hall : ∃ k ∈ i :: rest, bit_at tet.bitmap k = true ∧
          tet.x + ((k % 4 : Nat) : Int) = (c : Int) ∧
          tet.y + ((k / 4 : Nat) : Int) = (r : Int) ∧ r < 40 ∧ c < 10 := by
        obtain ⟨k, hk, h⟩ := hrest
        exact ⟨k, List.mem_cons_of_mem _ hk, h⟩
      rw [if_pos hrest, if_pos hall]
    · rw [if_neg hrest]
      by_cases hi : bit_at tet.bitmap i = true ∧ tet.x + ((i % 4 : Nat) : Int) = (c : Int) ∧
          tet.y + ((i / 4 : Nat) : Int) = (r : Int) ∧ r < 40 ∧ c < 10
      · have hall : ∃ k ∈ i :: rest, bit_at tet.bitmap k = true ∧
            tet.x + ((k % 4 : Nat) : Int) = (c : Int) ∧
            tet.y + ((k / 4 : Nat) : Int) = (r : Int) ∧ r < 40 ∧ c < 10 :=
          ⟨i, List.mem_cons_self _ _, hi⟩
        rw [if_pos hall]
        obtain ⟨hb, hx, hy, hr, hc⟩ := hi
        unfold lock_cell
        rw [if_pos ⟨hb, by simp only [PF_W]; omega, by simp only [PF_H]; omega, by omega,
          by omega⟩]
        unfold pf_write
        rw [if_pos ⟨by omega, by omega⟩]
      · have hall : ¬ ∃ k ∈ i :: rest, bit_at tet.bitmap k = true ∧
            tet.x + ((k % 4 : Nat) : Int) = (c : Int) ∧
            tet.y + ((k / 4 : Nat) : Int) = (r : Int) ∧ r < 40 ∧ c < 10 := by
          rintro ⟨k, hk, h⟩
          rcases List.mem_cons.mp hk with rfl | hk2
          · exact hi h
          · exact hrest ⟨k, hk2, h⟩
        rw [if_neg hall]
        unfold lock_cell
        split
        · rename_i hcond
          obtain ⟨hb, hx1, hy1, hx0, hy0⟩ := hcond
          unfold pf_write
          rw [if_neg]
          rintro ⟨h1, h2⟩
          simp only [PF_W, PF_H] at hx1 hy1
          exact hi ⟨hb, by omega, by omega, by omega, by omega⟩
        · rfl

/-- The cell values after `tet2playfield`, for every row and column. -/
theorem tet2playfield_apply (tet : tetromino_t) (pf : playfield_t) (r c : Nat) :
    tet2playfield tet pf r c =
      if r < 40 ∧ c < 10 ∧ covers tet r c then tet.shape.tag else pf r c := by
  unfold tet2playfield
  rw [lock_fold]
  have hiff : (∃ i ∈ List.range 16, bit_at tet.bitmap i = true ∧
      tet.x + ((i % 4 : Nat) : Int) = (c : Int) ∧
      tet.y + ((i / 4 : Nat) : Int) = (r : Int) ∧ r < 40 ∧ c < 10) ↔
      (r < 40 ∧ c < 10 ∧ covers tet r c) := by
    unfold covers
    constructor
    · rintro ⟨i, hi, hb, hx, hy, hr, hc⟩
      exact ⟨hr, hc, i, List.mem_range.mp hi, hb, hx, hy⟩
    · rintro ⟨hr, hc, i, hi, hb, hx, hy⟩
      exact ⟨i, List.mem_range.mpr hi, hb, hx, hy, hr, hc⟩
  simp only [hiff]

/-- Every table value of the bitmap has exactly four set bits. -/
theorem table_value_four_bits (shape : shapes_t) (rotation : Int)
    (hrot : 0 ≤ rotation ∧ rotation ≤ 3) :
    ((Finset.range 16).filter (fun i => bit_at (table_value shape rotation) i = true)).card
      = 4 := by
  have hr : rotation = 0 ∨ rotation = 1 ∨ rotation = 2 ∨ rotation = 3 := by omega
  rcases hr with rfl | rfl | rfl | rfl <;> cases shape <;> decide

/-- The bitmap of a piece with rotation in `0..3` and a table bitmap. -/
theorem table_bitmap_eq (tet : tetromino_t) (hrot : 0 ≤ tet.rotation ∧ tet.rotation ≤ 3)
    (htab : table_bitmap tet) : tet.bitmap = table_value tet.shape tet.rotation :=
  htab.symm.trans (update_tetromino_bitmap tet hrot)

/-- A piece with a table bitmap that lies inside the grid covers four cells. -/
theorem covered_cells_card (tet : tetromino_t) (hrot : 0 ≤ tet.rotation ∧ tet.rotation ≤ 3)
    (htab : table_bitmap tet) (hin : in_bounds tet) : (covered_cells tet).card = 4 := by
  have himg : covered_cells tet =
      ((Finset.range 16).filter (fun i => bit_at tet.bitmap i = true)).image
        (fun i => ((tet.y + ((i / 4 : Nat) : Int)).toNat,
          (tet.x + ((i % 4 : Nat) : Int)).toNat)) := by
    ext ⟨r, c⟩
    simp only [covered_cells, Finset.mem_filter, Finset.mem_product, Finset.mem_range,
      Finset.mem_image, covers, Prod.mk.injEq]
    constructor
    · rintro ⟨_, i, hi, hb, hx, hy⟩
      exact ⟨i, ⟨hi, hb⟩, by omega, by omega⟩
    · rintro ⟨i, ⟨hi, hb⟩, hy, hx⟩
      obtain ⟨h1, h2, h3, h4⟩ := hin i hi hb
      exact ⟨⟨by simp only [PF_H]; omega, by simp only [PF_W]; omega⟩, i, hi, hb,
        by omega, by omega⟩
  rw [himg, Finset.card_image_of_injOn, table_bitmap_eq tet hrot htab]
  · exact table_value_four_bits tet.shape tet.rotation hrot
  · intro i hi j hj hij
    simp only [Finset.coe_filter, Finset.mem_range, Set.mem_setOf_eq] at hi hj
    simp only [Prod.mk.injEq] at hij
    obtain ⟨h1, h2, h3, h4⟩ := hin i hi.1 hi.2
    obtain ⟨g1, g2, g3, g4⟩ := hin j hj.1 hj.2
    omega

/-- C4: after `tet2playfield`, a cell of the grid holds the shape tag of the
piece if it is covered by a set bit of the bitmap at the origin of the piece,
and its previous value otherwise; no cell outside the grid is written (a set
bit whose cell is outside the grid, also in a negative row, writes nothing);
and a piece with rotation in `0..3` and a table bitmap that lies inside the
grid covers exactly 4 cells. -/
theorem C4_lock_effect (pf : playfield_t) (tet : tetromino_t) :
    (∀ r c, r < 40 → c < 10 →
      tet2playfield tet pf r c = if covers tet r c then tet.shape.tag else pf r c) ∧
    (∀ r c, ¬ (r < 40 ∧ c < 10) → tet2playfield tet pf r c = pf r c) ∧
    ((0 ≤ tet.rotation ∧ tet.rotation ≤ 3) → table_bitmap tet → in_bounds tet →
      (covered_cells tet).card = 4) := by
  refine ⟨?_, ?_, covered_cells_card tet⟩
  · intro r c hr hc
    rw [tet2playfield_apply]
    by_cases h : covers tet r c
    · rw [if_pos ⟨hr, hc, h⟩, if_pos h]
    · rw [if_neg (fun hh => h hh.2.2), if_neg h]
  · intro r c hrc
    rw [tet2playfield_apply, if_neg]
    rintro ⟨h1, h2, _⟩
    exact hrc ⟨h1, h2⟩

/-- Witness of C4: an L piece in rotation 1 inside the grid covers 4 cells. -/
theorem C4_lock_effect_witness :
    (0 ≤ piece_L_mid.rotation ∧ piece_L_mid.rotation ≤ 3) ∧ table_bitmap piece_L_mid ∧
    in_bounds piece_L_mid ∧ (covered_cells piece_L_mid).card = 4 :=
  ⟨by decide, by decide, by decide,
    (C4_lock_effect empty_pf piece_L_mid).2.2 (by decide) (by decide) (by decide)⟩

/-! ## The line-clear loop -/

theorem row_sum_le (pf : playfield_t) (i : Nat) (l : List Nat) : row_sum pf i l ≤ l.length := by
  induction l with
  | nil => simp [row_sum]
  | cons j rest ih =>
    simp only [row_sum, List.length_cons]
    split
    · omega
    · omega

theorem row_sum_eq_length (pf : playfield_t) (i : Nat) (l : List Nat) :
    row_sum pf i l = l.length ↔ ∀ j ∈ l, pf i j ≠ 0 := by
  induction l with
  | nil => simp [row_sum]
  | cons j rest ih =>
    simp only [row_sum, List.length_cons, List.mem_cons, forall_eq_or_imp]
    by_cases hj : pf i j ≠ 0
    · rw [if_pos hj]
      constructor
      · intro h
        exact ⟨hj, ih.mp (by omega)⟩
      · intro h
        have := ih.mpr h.2
        omega
    · rw [if_neg hj]
      constructor
      · intro h
        omega
      · intro h
        exact absurd h.1 hj

/-- The test `sum == PF_W` of the line-clear loop holds exactly for a full row. -/
theorem row_sum_full (pf : playfield_t) (i : Nat) :
    row_sum pf i (List.range PF_W) = PF_W ↔ row_full pf i := by
  have h := row_sum_eq_length pf i (List.range PF_W)
  rw [List.length_range] at h
  rw [h]
  unfold row_full
  constructor
  · intro hh j hj
    exact hh j (List.mem_range.mpr hj)
  · intro hh j hj
    exact hh j (List.mem_range.mp hj)

theorem copy_fold (i2 : Nat) (hi : 1 ≤ i2) (l : List Nat) (pf : playfield_t) (r c : Nat) :
    (l.foldl (fun p j => pf_write p i2 j (p (i2 - 1) j)) pf) r c =
      if r = i2 ∧ c ∈ l then pf (i2 - 1) c else pf r c := by
  induction l generalizing pf with
  | nil => simp
  | cons j rest ih =>
    rw [List.foldl_cons, ih]
    have hne : i2 - 1 ≠ i2 := by omega
    by_cases h1 : r = i2 ∧ c ∈ rest
    · rw [if_pos h1, if_pos ⟨h1.1, List.mem_cons_of_mem _ h1.2⟩]
      unfold pf_write
      rw [if_neg (fun h => hne h.1)]
    · rw [if_neg h1]
      unfold pf_write
      by_cases h2 : r = i2 ∧ c = j
      · rw [if_pos h2, if_pos ⟨h2.1, by rw [h2.2]; exact List.mem_cons_self _ _⟩, h2.2]
      · rw [if_neg h2, if_neg]
        rintro ⟨h3, h4⟩
        rcases List.mem_cons.mp h4 with h5 | h5
        · exact h2 ⟨h3, h5⟩
        · exact h1 ⟨h3, h5⟩

/-- The cells after the row copy `playfield[i2][j] = playfield[i2-1][j]`. -/
theorem copy_row_apply (pf : playfield_t) (i2 : Nat) (hi : 1 ≤ i2) (r c : Nat) :
    copy_row pf i2 r c = if r = i2 ∧ c < 10 then pf (i2 - 1) c else pf r c := by
  unfold copy_row
  rw [copy_fold i2 hi]
  simp only [List.mem_range]

/-- The cells after the rows above a full row `i` are moved down: the rows
`22..i` hold the previous rows `21..i-1`, every other cell is unchanged. -/
theorem shift_rows_apply (i : Nat) (pf : playfield_t) (r c : Nat) :
    shift_rows pf i r c = if 21 < r ∧ r ≤ i ∧ c < 10 then pf (r - 1) c else pf r c := by
  induction i generalizing pf with
  | zero =>
    simp only [shift_rows]
    rw [if_neg]
    omega
  | succ i2 ih =>
    simp only [shift_rows]
    by_cases hgt : i2 + 1 > PLAYFIELD_HEIGHT
    · rw [if_pos hgt, ih]
      simp only [PLAYFIELD_HEIGHT, PF_H, PF_BUFF_SIZE] at hgt
      by_cases h1 : 21 < r ∧ r ≤ i2 ∧ c < 10
      · rw [if_pos h1, if_pos ⟨h1.1, by omega, h1.2.2⟩, copy_row_apply _ _ (by omega), if_neg]
        omega
      · rw [if_neg h1, copy_row_apply _ _ (by omega)]
        by_cases h2 : r = i2 + 1 ∧ c < 10
        · rw [if_pos h2, if_pos ⟨by omega, by omega, h2.2⟩, h2.1]
        · rw [if_neg h2, if_neg]
          omega
    · rw [if_neg hgt, if_neg]
      simp only [PLAYFIELD_HEIGHT, PF_H, PF_BUFF_SIZE] at hgt
      omega

theorem clear_loop_done (fuel : Nat) (pf : playfield_t) (i : Nat) (n : Int) (hi : i ≤ 21) :
    clear_loop (fuel + 1) pf i n = some (pf, n) := by
  simp only [clear_loop]
  rw [if_neg]
  simp only [PLAYFIELD_HEIGHT, PF_H, PF_BUFF_SIZE]
  omega

theorem clear_loop_skip (fuel : Nat) (pf : playfield_t) (i : Nat) (n : Int) (hi : 21 < i)
    (hrow : ¬ row_full pf i) :
    clear_loop (fuel + 1) pf i n = clear_loop fuel pf (i - 1) n := by
  simp only [clear_loop]
  rw [if_pos (by simp only [PLAYFIELD_HEIGHT, PF_H, PF_BUFF_SIZE]; omega),
    if_neg (fun h => hrow ((row_sum_full pf i).mp h))]

theorem clear_loop_full (fuel : Nat) (pf : playfield_t) (i : Nat) (n : Int) (hi : 21 < i)
    (hrow : row_full pf i) :
    clear_loop (fuel + 1) pf i n = clear_loop fuel (shift_rows pf i) i (n + 1) := by
  simp only [clear_loop]
  rw [if_pos (by simp only [PLAYFIELD_HEIGHT, PF_H, PF_BUFF_SIZE]; omega),
    if_pos ((row_sum_full pf i).mpr hrow)]

/-- When no row among `22..i` is full, the scan from `i` ends without a
change, given fuel for the rows `i` down to `21`. -/
theorem clear_loop_no_full (fuel : Nat) (pf : playfield_t) (i : Nat) (n : Int)
    (hrows : ∀ k, 21 < k → k ≤ i → ¬ row_full pf k) (hfuel : i - 21 < fuel) :
    clear_loop fuel pf i n = some (pf, n) := by
  induction fuel generalizing i with
  | zero => omega
  | succ f ih =>
    by_cases hi : i ≤ 21
    · exact clear_loop_done f pf i n hi
    · rw [clear_loop_skip f pf i n (by omega) (hrows i (by omega) (le_refl i))]
      exact ih (i - 1) (fun k h1 h2 => hrows k h1 (by omega)) (by omega)

/-- The scan passes `d` rows that are not full, using `d` units of fuel. -/
theorem clear_loop_descend (d fuel : Nat) (pf : playfield_t) (i : Nat) (n : Int)
    (hrows : ∀ k, i - d < k → k ≤ i → ¬ row_full pf k) (hd : 21 + d ≤ i) :
    clear_loop (fuel + d) pf i n = clear_loop fuel pf (i - d) n := by
  induction d generalizing i with
  | zero => rfl
  | succ d2 ih =>
    rw [← Nat.add_assoc, clear_loop_skip (fuel + d2) pf i n (by omega)
      (hrows i (by omega) (le_refl i))]
    have h := ih (i - 1) (fun k h1 h2 => hrows k (by omega) (by omega)) (by omega)
    rw [h]
    congr 1
    omega

/-- The scan of a playfield whose only full row among `21..39` is row `r`,
with `22 <= r`: the rows above `r` are moved down once and one row is
counted. -/
theorem clear_lines_one_row (fuel : Nat) (pf : playfield_t) (r : Nat) (n : Int)
    (hr : 22 ≤ r ∧ r ≤ 39) (hfull : row_full pf r)
    (hother : ∀ k, 21 ≤ k → k < 40 → k ≠ r → ¬ row_full pf k) (hfuel : 20 ≤ fuel) :
    clear_lines fuel pf n = some (shift_rows pf r, n + 1) := by
  obtain ⟨f0, rfl⟩ : ∃ f0, fuel = (f0 + 1) + (39 - r) := ⟨fuel - 1 - (39 - r), by omega⟩
  unfold clear_lines
  have h1 := clear_loop_descend (39 - r) (f0 + 1) pf 39 n
    (fun k h1 h2 => hother k (by omega) (by omega) (by omega)) (by omega)
  have e : 39 - (39 - r) = r := by omega
  rw [e] at h1
  show clear_loop (f0 + 1 + (39 - r)) pf 39 n = _
  rw [h1, clear_loop_full f0 pf r n (by omega) hfull]
  apply clear_loop_no_full
  · intro k hk1 hk2 hf
    have hk : ¬ row_full pf (k - 1) := hother (k - 1) (by omega) (by omega) (by omega)
    apply hk
    intro j hj
    have := hf j hj
    rw [shift_rows_apply, if_pos ⟨hk1, hk2, hj⟩] at this
    exact this
  · omega

/-- When the rows 21 and 22 are full and no row among `23..i` is, the scan
from `i` never ends: row 22 is refilled from row 21 at every clear. -/
theorem clear_loop_diverges (fuel : Nat) (pf : playfield_t) (i : Nat) (n : Int)
    (h21 : row_full pf 21) (h22 : row_full pf 22) (hi : 22 ≤ i)
    (hrows : ∀ k, 22 < k → k ≤ i → ¬ row_full pf k) :
    clear_loop fuel pf i n = none := by
  induction fuel generalizing pf i n with
  | zero => rfl
  | succ f ih =>
    by_cases hf : row_full pf i
    · have hi22 : i = 22 := by
        by_contra hne
        exact hrows i (by omega) (le_refl i) hf
      subst hi22
      rw [clear_loop_full f pf 22 n (by omega) hf]
      apply ih
      · intro j hj
        rw [shift_rows_apply, if_neg (by omega)]
        exact h21 j hj
      · intro j hj
        rw [shift_rows_apply, if_pos ⟨by omega, by omega, hj⟩]
        exact h21 j hj
      · omega
      · intro k h1 h2
        omega
    · have hne : i ≠ 22 := by
        intro h
        rw [h] at hf
        exact hf h22
      rw [clear_loop_skip f pf i n (by omega) hf]
      exact ih pf (i - 1) n h21 h22 (by omega) (fun k h1 h2 => hrows k h1 (by omega))

/-- C5 (as amended): when exactly one row `r` of the playfield is full and it
is one of the scanned rows `22..39`, the line-clear step ends with a count of
1, afterwards every row `i` with `22 <= i <= r` holds the previous contents of
row `i - 1`, and the rows below `r` are unchanged. -/
theorem C5_clear_one_row (pf : playfield_t) (r fuel : Nat)
    (hr : 22 ≤ r ∧ r ≤ 39) (hfull : row_full pf r)
    (hother : ∀ k, k < 40 → k ≠ r → ¬ row_full pf k) (hfuel : 20 ≤ fuel) :
    ∃ pf2, clear_lines fuel pf 0 = some (pf2, 1) ∧
      (∀ i c, 22 ≤ i → i ≤ r → c < 10 → pf2 i c = pf (i - 1) c) ∧
      (∀ i c, r < i → pf2 i c = pf i c) := by
  refine ⟨shift_rows pf r, ?_, ?_, ?_⟩
  · exact clear_lines_one_row fuel pf r 0 hr hfull (fun k _ h2 h3 => hother k h2 h3) hfuel
  · intro i c h1 h2 h3
    rw [shift_rows_apply, if_pos ⟨by omega, h2, h3⟩]
  · intro i c h1
    rw [shift_rows_apply, if_neg (by omega)]

/-- Witness of C5: the playfield `pf_one_full`, whose only full row is 39. -/
theorem C5_clear_one_row_witness :
    ∃ pf2, clear_lines 20 pf_one_full 0 = some (pf2, 1) ∧
      (∀ i c, 22 ≤ i → i ≤ 39 → c < 10 → pf2 i c = pf_one_full (i - 1) c) ∧
      (∀ i c, 39 < i → pf2 i c = pf_one_full i c) :=
  C5_clear_one_row pf_one_full 39 20 (by decide) (by decide) (by decide) (by decide)

/-- Counterexample to C5 as stated: in `pf_one_full` exactly one row, 39, is
full, and the line-clear step clears it with a count of 1. The claim says that
afterwards row 21 holds the previous contents of row 20 and row 6 those of row
5. Row 20 is empty and row 5 is not, but after the step row 21 still has its
non-empty cell and row 6 is still empty: the rows `0..21` are not moved. -/
theorem C5_counterexample :
    row_full pf_one_full 39 ∧ (∀ k, k < 40 → k ≠ 39 → ¬ row_full pf_one_full k) ∧
    ∃ pf2, clear_lines 20 pf_one_full 0 = some (pf2, 1) ∧
      pf2 21 0 ≠ pf_one_full 20 0 ∧ pf2 6 0 ≠ pf_one_full 5 0 := by
  refine ⟨by decide, by decide, shift_rows pf_one_full 39, ?_, ?_, ?_⟩
  · exact clear_lines_one_row 20 pf_one_full 39 0 (by decide) (by decide)
      (fun k _ h2 h3 => by revert k; decide) (by decide)
  · rw [shift_rows_apply]
    decide
  · rw [shift_rows_apply]
    decide

set_option maxRecDepth 100000 in
/-- C6, the code at a failing input: the I piece `piece_I_row20` rests on the
stack `pf_stack_20` (a move down is blocked) and has no full row under it.
After the lock the overflow check passes (the rows `0..19` are empty, `running`
stays true) and row 20 is full. The line-clear step completes with a count of
0 and leaves the playfield as it is: the scan stops above row 22, so the full
row 20 of the play area is not cleared. -/
theorem C6_full_row_20_survives :
    (∀ k, k < 40 → ¬ row_full pf_stack_20 k) ∧
    collision piece_I_row20 pf_stack_20 DIR_LRD 1 0 = some (ERR_COLLISION, piece_I_row20) ∧
    (∀ i j, i ≤ 19 → j < 10 → tet2playfield piece_I_row20 pf_stack_20 i j = 0) ∧
    overflow_check (tet2playfield piece_I_row20 pf_stack_20) true = true ∧
    (∀ fuel, 19 ≤ fuel →
      clear_lines fuel (tet2playfield piece_I_row20 pf_stack_20) 0 =
        some (tet2playfield piece_I_row20 pf_stack_20, 0)) ∧
    row_full (tet2playfield piece_I_row20 pf_stack_20) 20 := by
  refine ⟨by decide, by decide, ?_, by decide, ?_, by decide⟩
  · intro i j hi hj
    have h : ∀ i, i < 20 → ∀ j, j < 10 → tet2playfield piece_I_row20 pf_stack_20 i j = 0 := by
      decide
    exact h i (by omega) j hj
  · intro fuel hfuel
    show clear_loop fuel _ 39 0 = _
    apply clear_loop_no_full
    · intro k h1 h2
      have h : ∀ k, k < 40 → 21 < k → ¬ row_full (tet2playfield piece_I_row20 pf_stack_20) k := by
        decide
      exact h k (by omega) h1
    · omega

set_option maxRecDepth 100000 in
/-- C7, the code at a failing input: the stack `pf_stack_22` has no full row,
and the O piece `piece_O_rows21` (a table bitmap) rests on it without
overlapping it. After the lock the rows 21 and 22 are both full. The
line-clear scan then never ends, whatever the fuel: each clear of row 22 copies
the full row 21 into it and the same row is examined again. No cleared-row
count is produced. -/
theorem C7_clear_never_ends :
    (∀ k, k < 40 → ¬ row_full pf_stack_22 k) ∧
    table_bitmap piece_O_rows21 ∧
    collision piece_O_rows21 pf_stack_22 DIR_LRD 0 0 = some (NO_COLLISION, piece_O_rows21) ∧
    collision piece_O_rows21 pf_stack_22 DIR_LRD 1 0 = some (ERR_COLLISION, piece_O_rows21) ∧
    overflow_check (tet2playfield piece_O_rows21 pf_stack_22) true = true ∧
    (∀ fuel, clear_lines fuel (tet2playfield piece_O_rows21 pf_stack_22) 0 = none) ∧
    (∀ fuel, lock_phase fuel piece_O_rows21 ⟨pf_stack_22, true, 0, 0, 1, 0⟩ = none) := by
  have hdiv : ∀ fuel, clear_lines fuel (tet2playfield piece_O_rows21 pf_stack_22) 0 = none := by
    intro fuel
    show clear_loop fuel _ 39 0 = _
    apply clear_loop_diverges
    · decide
    · decide
    · decide
    · intro k h1 h2
      have h : ∀ k, k < 40 → 22 < k →
          ¬ row_full (tet2playfield piece_O_rows21 pf_stack_22) k := by
        decide
      exact h k (by omega) h1
  refine ⟨by decide, by decide, by decide, by decide, by decide, hdiv, ?_⟩
  intro fuel
  unfold lock_phase overflow_step
  simp only []
  rw [hdiv fuel]

/-! ## The overflow check -/

theorem overflow_inner (pf : playfield_t) (i : Nat) (l : List Nat) (run : Bool) :
    l.foldl (fun run j => if pf i j ≠ 0 then false else run) run = true ↔
      (run = true ∧ ∀ j ∈ l, pf i j = 0) := by
  induction l generalizing run with
  | nil => simp
  | cons j rest ih =>
    rw [List.foldl_cons, ih]
    by_cases hj : pf i j ≠ 0
    · rw [if_pos hj]
      constructor
      · intro h
        exact absurd h.1 (by simp)
      · intro h
        exact absurd (h.2 j (List.mem_cons_self _ _)) hj
    · rw [if_neg hj]
      constructor
      · rintro ⟨h1, h2⟩
        refine ⟨h1, fun k hk => ?_⟩
        rcases List.mem_cons.mp hk with rfl | hk2
        · exact not_not.mp hj
        · exact h2 k hk2
      · rintro ⟨h1, h2⟩
        exact ⟨h1, fun k hk => h2 k (List.mem_cons_of_mem _ hk)⟩

theorem overflow_outer (pf : playfield_t) (rows : List Nat) (run : Bool) :
    rows.foldl
        (fun run i =>
          (List.range PF_W).foldl (fun run j => if pf i j ≠ 0 then false else run) run)
        run = true ↔
      (run = true ∧ ∀ i ∈ rows, ∀ j, j < 10 → pf i j = 0) := by
  induction rows generalizing run with
  | nil => simp
  | cons i rest ih =>
    rw [List.foldl_cons, ih, overflow_inner]
    constructor
    · rintro ⟨⟨h1, h2⟩, h3⟩
      refine ⟨h1, fun k hk j hj => ?_⟩
      rcases List.mem_cons.mp hk with rfl | hk2
      · exact h2 j (List.mem_range.mpr hj)
      · exact h3 k hk2 j hj
    · rintro ⟨h1, h2⟩
      exact ⟨⟨h1, fun j hj => h2 i (List.mem_cons_self _ _) j (List.mem_range.mp hj)⟩,
        fun k hk j hj => h2 k (List.mem_cons_of_mem _ hk) j hj⟩

/-- After the game-over check `running` is true exactly when it was true
before and every cell of the rows `0..19` is empty. -/
theorem overflow_check_true (pf : playfield_t) (run : Bool) :
    overflow_check pf run = true ↔ (run = true ∧ ∀ i j, i ≤ 19 → j < 10 → pf i j = 0) := by
  unfold overflow_check
  rw [overflow_outer]
  constructor
  · rintro ⟨h1, h2⟩
    refine ⟨h1, fun i j hi hj => h2 i ?_ j hj⟩
    rw [List.mem_reverse, List.mem_range]
    simp only [PF_BUFF_SIZE]
    omega
  · rintro ⟨h1, h2⟩
    refine ⟨h1, fun i hi j hj => h2 i j ?_ hj⟩
    rw [List.mem_reverse, List.mem_range] at hi
    simp only [PF_BUFF_SIZE] at hi
    omega

/-- C8: the game-over check, entered with `running` true, clears `running` if
and only if some cell of the rows `0..19` (row 19, `PF_BUFF_SIZE`, included) is
non-empty; its result depends on the cells of the rows `0..19` only, so cells
in the rows `20..39` never raise the flag; and the check assigns `running`
only, the playfield is not modified. -/
theorem C8_overflow_check (pf : playfield_t) :
    (overflow_check pf true = false ↔ ∃ i j, i ≤ 19 ∧ j < 10 ∧ pf i j ≠ 0) ∧
    (∀ (pf2 : playfield_t) (run : Bool), (∀ i j, i ≤ 19 → j < 10 → pf2 i j = pf i j) →
      overflow_check pf2 run = overflow_check pf run) ∧
    (∀ g : game_t, (overflow_step g).playfield = g.playfield ∧
      (overflow_step g).running = overflow_check g.playfield g.running ∧
      (overflow_step g).score = g.score ∧ (overflow_step g).lines = g.lines ∧
      (overflow_step g).level = g.level) := by
  refine ⟨?_, ?_, fun g => ⟨rfl, rfl, rfl, rfl, rfl⟩⟩
  · have h := overflow_check_true pf true
    constructor
    · intro hf
      by_contra hne
      have hall : ∀ i j, i ≤ 19 → j < 10 → pf i j = 0 := by
        intro i j hi hj
        by_contra hc
        exact hne ⟨i, j, hi, hj, hc⟩
      rw [h.mpr ⟨rfl, hall⟩] at hf
      exact absurd hf (by simp)
    · rintro ⟨i, j, hi, hj, hc⟩
      cases hv : overflow_check pf true with
      | false => rfl
      | true => exact absurd ((h.mp hv).2 i j hi hj) hc
  · intro pf2 run hsame
    have h1 := overflow_check_true pf run
    have h2 := overflow_check_true pf2 run
    have hiff : overflow_check pf2 run = true ↔ overflow_check pf run = true := by
      rw [h1, h2]
      constructor
      · rintro ⟨hr, hz⟩
        exact ⟨hr, fun i j hi hj => by rw [← hsame i j hi hj]; exact hz i j hi hj⟩
      · rintro ⟨hr, hz⟩
        exact ⟨hr, fun i j hi hj => by rw [hsame i j hi hj]; exact hz i j hi hj⟩
    cases ha : overflow_check pf2 run <;> cases hb : overflow_check pf run <;> simp_all

/-- Witness of C8: after the I piece `piece_I_col9` is locked on
`pf_stack_high`, the cell in row 19, column 9 is non-empty and the check
clears `running`. -/
theorem C8_overflow_check_witness :
    overflow_check (tet2playfield piece_I_col9 pf_stack_high) true = false ∧
    ∃ i j, i ≤ 19 ∧ j < 10 ∧ tet2playfield piece_I_col9 pf_stack_high i j ≠ 0 :=
  ⟨(C8_overflow_check (tet2playfield piece_I_col9 pf_stack_high)).1.mpr
      ⟨19, 9, by decide, by decide, by decide⟩,
    19, 9, by decide, by decide, by decide⟩

/-! ## The lock phase -/

/-- The lock phase when the line-clear scan ends: the score update runs on
the scanned playfield, with `running` as the game-over check left it. -/
theorem lock_phase_eq (fuel : Nat) (tet : tetromino_t) (g : game_t) (pf2 : playfield_t)
    (n : Int)
    (hclear : clear_lines fuel (tet2playfield tet g.playfield) g.lines_cleared = some (pf2, n)) :
    lock_phase fuel tet g =
      some (score_update
        { g with
          playfield := pf2
          running := overflow_check (tet2playfield tet g.playfield) g.running
          lines_cleared := n }) := by
  unfold lock_phase overflow_step
  simp only []
  rw [hclear]

/-- The game-over check clears `running` when a cell of the rows `0..19` is
non-empty. -/
theorem overflow_check_false (pf : playfield_t) (run : Bool)
    (hover : ∃ i j, i ≤ 19 ∧ j < 10 ∧ pf i j ≠ 0) : overflow_check pf run = false := by
  obtain ⟨i, j, hi, hj, hc⟩ := hover
  cases hv : overflow_check pf run with
  | false => rfl
  | true => exact absurd (((overflow_check_true pf run).mp hv).2 i j hi hj) hc

/-- A value of a 32-bit `int` is stored unchanged. -/
theorem wrap_int_eq (x : Int) (h : int_range x) : wrap_int x = x := by
  unfold int_range at h
  unfold wrap_int
  omega

/-- The stored value is a value of a 32-bit `int`. -/
theorem wrap_int_range (x : Int) : int_range (wrap_int x) := by
  unfold int_range wrap_int
  omega

/-- The score update for a count of `0..4` cleared rows. -/
theorem score_update_eq (g : game_t) (h : 0 ≤ g.lines_cleared ∧ g.lines_cleared ≤ 4) :
    ∃ g2, score_update g = .ok g2 ∧ g2.running = g.running ∧ g2.playfield = g.playfield ∧
      g2.score =
        (if g.lines_cleared = 0 then g.score
         else wrap_int (g.score + reward g.lines_cleared * g.level)) ∧
      g2.lines =
        (if g.lines_cleared = 0 then g.lines else wrap_int (g.lines + g.lines_cleared)) ∧
      g2.level =
        (if g.lines_cleared = 0 then g.level
         else if g.level = 15 then 15
         else (wrap_int (g.lines + g.lines_cleared)).tdiv 10 + 1) := by
  obtain ⟨pf, run, score, lines, level, n⟩ := g
  simp only at h
  have hn : n = 0 ∨ n = 1 ∨ n = 2 ∨ n = 3 ∨ n = 4 := by omega
  rcases hn with rfl | rfl | rfl | rfl | rfl <;>
    simp [score_update, score_commit, reward]

/-- C9 (as amended): a lock that trips the overflow check (some cell of the
rows `0..19` is non-empty after the piece is locked) clears `running`, so the
loop ends after this iteration, but the line-clear scan and the score update
still run on that lock. When the scan ends with `n` rows cleared, `0 <= n <= 4`,
the playfield is the compacted one, the score is the score before the lock plus
the reward for `n` rows times the level, `lines` grows by `n` and the level
is recomputed, the sums being stored in a 32-bit `int`: they are exactly these
sums whenever the sums are values of an `int`. This score is the one
returned. Here `lines_cleared` is 0 when the lock starts, as it is at every
iteration of the loop of `tetris_run`. -/
theorem C9_overflow_lock_still_scores (fuel : Nat) (tet : tetromino_t) (g : game_t)
    (pf2 : playfield_t) (n : Int)
    (hzero : g.lines_cleared = 0)
    (hover : ∃ i j, i ≤ 19 ∧ j < 10 ∧ tet2playfield tet g.playfield i j ≠ 0)
    (hclear : clear_lines fuel (tet2playfield tet g.playfield) 0 = some (pf2, n))
    (hn : 0 ≤ n ∧ n ≤ 4) :
    ∃ g2, lock_phase fuel tet g = some (.ok g2) ∧ g2.running = false ∧ g2.playfield = pf2 ∧
      g2.score = (if n = 0 then g.score else wrap_int (g.score + reward n * g.level)) ∧
      g2.lines = (if n = 0 then g.lines else wrap_int (g.lines + n)) ∧
      g2.level =
        (if n = 0 then g.level
         else if g.level = 15 then 15 else (wrap_int (g.lines + n)).tdiv 10 + 1) ∧
      (int_range (g.score + reward n * g.level) →
        g2.score = g.score + reward n * g.level) ∧
      (int_range (g.lines + n) →
        g2.lines = g.lines + n ∧
        g2.level =
          (if n = 0 then g.level
           else if g.level = 15 then 15 else (g.lines + n).tdiv 10 + 1)) := by
  rw [← hzero] at hclear
  rw [lock_phase_eq fuel tet g pf2 n hclear, overflow_check_false _ _ hover]
  obtain ⟨g2, h1, h2, h3, h4, h5, h6⟩ :=
    score_update_eq { g with playfield := pf2, running := false, lines_cleared := n } hn
  simp only [] at h4 h5 h6
  refine ⟨g2, by rw [h1], h2, h3, h4, h5, h6, ?_, ?_⟩
  · intro hr
    rw [h4]
    by_cases h0 : n = 0
    · rw [if_pos h0, h0]
      simp [reward]
    · rw [if_neg h0, wrap_int_eq _ hr]
  · intro hr
    rw [h5, h6]
    by_cases h0 : n = 0
    · rw [if_pos h0, if_pos h0, if_pos h0, h0, Int.add_zero]
      exact ⟨rfl, rfl⟩
    · rw [if_neg h0, if_neg h0, if_neg h0, wrap_int_eq _ hr]
      exact ⟨rfl, rfl⟩

set_option maxRecDepth 100000 in
/-- The line-clear scan after `piece_I_col9` is locked on `pf_stack_high`:
row 22 is cleared. -/
theorem clear_stack_high :
    clear_lines 20 (tet2playfield piece_I_col9 pf_stack_high) 0 =
      some (shift_rows (tet2playfield piece_I_col9 pf_stack_high) 22, 1) := by
  apply clear_lines_one_row 20 _ 22 0 (by decide) (by decide) _ (by decide)
  intro k h1 h2 h3
  have h : ∀ k, k < 40 → k ≠ 22 → ¬ row_full (tet2playfield piece_I_col9 pf_stack_high) k := by
    decide
  exact h k h2 h3

/-- Witness of C9: the I piece `piece_I_col9` locked on `pf_stack_high`
reaches row 19 and completes row 22. -/
theorem C9_overflow_lock_still_scores_witness :
    ∃ g2, lock_phase 20 piece_I_col9 game_stack_high = some (.ok g2) ∧ g2.running = false ∧
      g2.playfield = shift_rows (tet2playfield piece_I_col9 pf_stack_high) 22 ∧
      g2.score = game_stack_high.score + reward 1 * game_stack_high.level ∧
      g2.lines = game_stack_high.lines + 1 ∧
      g2.level =
        (if (1 : Int) = 0 then game_stack_high.level
         else if game_stack_high.level = 15 then 15
         else (game_stack_high.lines + 1).tdiv 10 + 1) := by
  obtain ⟨g2, h1, h2, h3, _, _, _, hs, hl⟩ :=
    C9_overflow_lock_still_scores 20 piece_I_col9 game_stack_high
      (shift_rows (tet2playfield piece_I_col9 pf_stack_high) 22) 1 rfl
      ⟨19, 9, by decide, by decide, by decide⟩ clear_stack_high (by decide)
  exact ⟨g2, h1, h2, h3, hs (by decide), (hl (by decide)).1, (hl (by decide)).2⟩

/-- Counterexample to C9 as stated: the I piece `piece_I_col9` rests on the
stack `pf_stack_high` in column 9 of the rows `19..22`. After the lock the
cell in row 19, column 9 is non-empty, so the overflow check trips and
`running` becomes false. The lock still clears row 22 (the cell in row 22,
column 0, non-empty after the lock, is empty at the end) and the score goes
from 0 to 100 and `lines` from 0 to 1: the score at the end of the loop is
not the score before the lock. -/
theorem C9_counterexample :
    collision piece_I_col9 pf_stack_high DIR_LRD 1 0 = some (ERR_COLLISION, piece_I_col9) ∧
    (∃ i j, i ≤ 19 ∧ j < 10 ∧ tet2playfield piece_I_col9 game_stack_high.playfield i j ≠ 0) ∧
    ∃ g2, lock_phase 20 piece_I_col9 game_stack_high = some (.ok g2) ∧
      g2.running = false ∧
      game_stack_high.score = 0 ∧ g2.score = 100 ∧
      game_stack_high.lines = 0 ∧ g2.lines = 1 ∧
      tet2playfield piece_I_col9 game_stack_high.playfield 22 0 = 1 ∧ g2.playfield 22 0 = 0 := by
  refine ⟨by decide, ⟨19, 9, by decide, by decide, by decide⟩, ?_⟩
  have h := lock_phase_eq 20 piece_I_col9 game_stack_high
    (shift_rows (tet2playfield piece_I_col9 pf_stack_high) 22) 1 clear_stack_high
  rw [overflow_check_false _ _ ⟨19, 9, by decide, by decide, by decide⟩] at h
  obtain ⟨g2, h1, h2, h3, h4, h5, _⟩ := score_update_eq
    { game_stack_high with
      playfield := shift_rows (tet2playfield piece_I_col9 pf_stack_high) 22
      running := false
      lines_cleared := 1 } (by decide)
  rw [h1] at h
  refine ⟨g2, h, h2, rfl, ?_, rfl, ?_, by decide, ?_⟩
  · rw [h4]
    decide
  · rw [h5]
    decide
  · rw [h3]
    show shift_rows (tet2playfield piece_I_col9 pf_stack_high) 22 22 0 = 0
    rw [shift_rows_apply]
    decide

/-! ## shuffle_bag -/

/-- Exchanging two elements of the array keeps the number of occurrences of
every shape. -/
theorem swap_count (l : List shapes_t) (i j : Nat) (hi : i < l.length) (hj : j < l.length)
    (s : shapes_t) :
    ((l.set j (l.getD i I_tet)).set i (l.getD j I_tet)).count s = l.count s := by
  rw [List.getD_eq_getElem _ _ hi, List.getD_eq_getElem _ _ hj]
  rw [List.count_set _ _ _ _ (by rw [List.length_set]; exact hi), List.count_set _ _ _ _ hj]
  have hi2 : i < (l.set j l[i]).length := by rw [List.length_set]; exact hi
  have hget : (l.set j l[i])[i] = l[i] := by
    rw [List.getElem_set]
    split
    · rfl
    · rfl
  rw [hget]
  have hle : (if (l[j] == s) = true then 1 else 0) ≤ l.count s := by
    split
    · rename_i h
      have hs : l[j] = s := by simpa using h
      have hm : s ∈ l := hs ▸ List.getElem_mem hj
      exact List.count_pos_iff.mpr hm
    · omega
  omega

/-- The swap loop keeps the length of the array and the number of occurrences
of every shape, and consumes one value of `rand` per iteration. -/
theorem shuffle_loop_inv (rand : Nat → Nat) (i n : Nat) (l : List shapes_t)
    (hi : i < l.length) :
    (shuffle_loop rand i n l).1.length = l.length ∧
    (∀ s, (shuffle_loop rand i n l).1.count s = l.count s) ∧
    (shuffle_loop rand i n l).2 = n + i := by
  induction i generalizing n l with
  | zero => exact ⟨rfl, fun _ => rfl, rfl⟩
  | succ k ih =>
    have hj : swap_index (rand n) (k + 1) < l.length := by
      unfold swap_index
      have := Nat.mod_lt (rand n) (show 0 < k + 1 + 1 by omega)
      omega
    simp only [shuffle_loop]
    have hlen : ((l.set (swap_index (rand n) (k + 1)) (l.getD (k + 1) I_tet)).set (k + 1)
        (l.getD (swap_index (rand n) (k + 1)) I_tet)).length = l.length := by
      rw [List.length_set, List.length_set]
    obtain ⟨h1, h2, h3⟩ := ih (n + 1) _ (by rw [hlen]; omega)
    refine ⟨by rw [h1, hlen], fun s => ?_, by rw [h3]; omega⟩
    rw [h2 s]
    exact swap_count l (k + 1) (swap_index (rand n) (k + 1)) hi hj s

/-- C10: for every stream of values returned by `rand()`, after `shuffle_bag`
the bag has 7 slots that contain each of the shapes I, O, T, S, Z, J, L exactly
once, the cursor `idx` is 0, and every swap index `j = rand() % (i+1)` lies in
`[0, i]`; the call consumes 6 values of `rand()`. -/
theorem C10_shuffle_bag_permutation (rand : Nat → Nat) (n : Nat) (B : bag_t) :
    (shuffle_bag rand n B).1.tetrominos.length = 7 ∧
    (∀ s : shapes_t, (shuffle_bag rand n B).1.tetrominos.count s = 1) ∧
    (shuffle_bag rand n B).1.idx = 0 ∧
    (∀ r i, swap_index r i ≤ i) ∧
    (shuffle_bag rand n B).2 = n + 6 := by
  obtain ⟨h1, h2, h3⟩ := shuffle_loop_inv rand (BAG_SIZE - 1) n
    ((List.range BAG_SIZE).map (fun i => shape_of_tag (I_tet.tag + i))) (by decide)
  refine ⟨?_, ?_, rfl, ?_, ?_⟩
  · exact h1.trans (by decide)
  · intro s
    exact (h2 s).trans (by cases s <;> decide)
  · intro r i
    unfold swap_index
    have := Nat.mod_lt r (show 0 < i + 1 by omega)
    omega
  · exact h3

/-! ## The bag draws -/

/-- The result of `shuffle_bag`: a fresh bag with cursor 0, six values of
`rand()` consumed. -/
theorem shuffle_bag_eq (rand : Nat → Nat) (n : Nat) (B : bag_t) :
    shuffle_bag rand n B = (⟨fresh_bag rand n, 0⟩, n + 6) := by
  have h := (shuffle_loop_inv rand (BAG_SIZE - 1) n
    ((List.range BAG_SIZE).map (fun i => shape_of_tag (I_tet.tag + i))) (by decide)).2.2
  unfold shuffle_bag fresh_bag shuffle_bag
  simp only []
  rw [h]
  rfl

/-- A fresh bag has 7 slots that hold each shape exactly once. -/
theorem fresh_bag_perm (rand : Nat → Nat) (n : Nat) :
    (fresh_bag rand n).length = 7 ∧ ∀ s, (fresh_bag rand n).count s = 1 := by
  obtain ⟨h1, h2, _⟩ := shuffle_loop_inv rand (BAG_SIZE - 1) n
    ((List.range BAG_SIZE).map (fun i => shape_of_tag (I_tet.tag + i))) (by decide)
  exact ⟨h1.trans (by decide), fun s => (h2 s).trans (by cases s <;> decide)⟩

/-- The supply variables after `k` spawns: the bag is fresh bag number `k / 7`,
the cursor is `k % 7` and `next_shape` is the slot at the cursor. -/
theorem supply_after_eq (rand : Nat → Nat) (n : Nat) (B : bag_t) (k : Nat) :
    supply_after rand n B k =
      { bag := ⟨fresh_bag rand (n + 6 * (k / 7)), ((k % 7 : Nat) : Int)⟩
        next_shape := (fresh_bag rand (n + 6 * (k / 7))).getD (k % 7) I_tet
        rand_used := n + 6 * (k / 7 + 1) } := by
  induction k with
  | zero =>
    simp only [supply_after, supply_init]
    rw [shuffle_bag_eq]
    simp
  | succ k ih =>
    simp only [supply_after]
    rw [ih]
    unfold supply_spawn
    simp only []
    by_cases h6 : k % 7 = 6
    · have hd : (k + 1) / 7 = k / 7 + 1 := by omega
      have hm : (k + 1) % 7 = 0 := by omega
      have hidx : ((k % 7 : Nat) : Int) + 1 = ((BAG_SIZE : Nat) : Int) := by
        simp only [BAG_SIZE]
        omega
      rw [if_pos hidx, shuffle_bag_eq, hd, hm]
      simp
      omega
    · have hd : (k + 1) / 7 = k / 7 := by omega
      have hm : (k + 1) % 7 = k % 7 + 1 := by omega
      have hidx : ¬ ((k % 7 : Nat) : Int) + 1 = ((BAG_SIZE : Nat) : Int) := by
        simp only [BAG_SIZE]
        omega
      rw [if_neg hidx, hd, hm]
      simp only [supply_t.mk.injEq, bag_t.mk.injEq, true_and, and_true]
      refine ⟨by push_cast; rfl, ?_⟩
      congr 1

/-- The shape given to piece number `7 * m + r`, `r < 7`, is slot `r` of fresh
bag number `m`. -/
theorem draw_eq (rand : Nat → Nat) (n : Nat) (B : bag_t) (m r : Nat) (hr : r < 7) :
    draw rand n B (7 * m + r) = (fresh_bag rand (n + 6 * m)).getD r I_tet := by
  unfold draw supply_spawn
  simp only []
  rw [supply_after_eq]
  have hd : (7 * m + r) / 7 = m := by omega
  have hm : (7 * m + r) % 7 = r := by omega
  rw [hd, hm]

/-- A list of 7 elements is the list of its slots 0 to 6. -/
theorem slots_of_seven (l : List shapes_t) (hl : l.length = 7) :
    (List.range 7).map (fun r => l.getD r I_tet) = l := by
  match l, hl with
  | [_, _, _, _, _, _, _], _ => rfl

/-- C11 (as amended): for every stream of random values and every `m`, the
shapes given to the 7 spawned pieces number `7m .. 7m+6` are, in order, the
slots of a freshly shuffled bag, so each of the 7 shapes appears exactly once
among them, and the next draw, number `7(m+1)`, is the first element of the
next freshly shuffled bag; after every spawn (and before the first) the bag
has 7 slots, the cursor is in `[0, 7)` and the previewed next shape is
`bag[cursor]`. -/
theorem C11_bag_draws (rand : Nat → Nat) (n : Nat) (B : bag_t) :
    (∀ m, (List.range 7).map (fun r => draw rand n B (7 * m + r)) =
        fresh_bag rand (n + 6 * m)) ∧
    (∀ m s, ((List.range 7).map (fun r => draw rand n B (7 * m + r))).count s = 1) ∧
    (∀ m, draw rand n B (7 * (m + 1)) = (fresh_bag rand (n + 6 * (m + 1))).getD 0 I_tet) ∧
    (∀ k, (supply_after rand n B k).bag.tetrominos.length = 7 ∧
      0 ≤ (supply_after rand n B k).bag.idx ∧ (supply_after rand n B k).bag.idx < 7 ∧
      (supply_after rand n B k).next_shape =
        (supply_after rand n B k).bag.tetrominos.getD
          (supply_after rand n B k).bag.idx.toNat I_tet) := by
  have hmap : ∀ m, (List.range 7).map (fun r => draw rand n B (7 * m + r)) =
      fresh_bag rand (n + 6 * m) := by
    intro m
    have h : (List.range 7).map (fun r => draw rand n B (7 * m + r)) =
        (List.range 7).map (fun r => (fresh_bag rand (n + 6 * m)).getD r I_tet) := by
      apply List.map_congr_left
      intro r hr
      exact draw_eq rand n B m r (List.mem_range.mp hr)
    rw [h]
    exact slots_of_seven _ (fresh_bag_perm rand (n + 6 * m)).1
  refine ⟨hmap, ?_, ?_, ?_⟩
  · intro m s
    rw [hmap m]
    exact (fresh_bag_perm rand (n + 6 * m)).2 s
  · intro m
    have h := draw_eq rand n B (m + 1) 0 (by omega)
    rw [Nat.add_zero] at h
    exact h
  · intro k
    rw [supply_after_eq]
    simp only [Int.toNat_ofNat]
    refine ⟨(fresh_bag_perm rand _).1, by omega, by omega, trivial⟩

/-- Counterexample to C11 as stated: with the stream of random values in which
call number `k` returns `k`, the 7 consecutive draws number 1 to 7 (the last 6
of the first bag and the first of the second bag) contain the I shape twice
and the L shape not at all. -/
theorem C11_counterexample :
    ((List.range 7).map (fun r => draw rand_count 0 ⟨[], 0⟩ (1 + r))).count I_tet = 2 ∧
    ((List.range 7).map (fun r => draw rand_count 0 ⟨[], 0⟩ (1 + r))).count L_tet = 0 ∧
    ¬ ∀ s, ((List.range 7).map (fun r => draw rand_count 0 ⟨[], 0⟩ (1 + r))).count s = 1 := by
  refine ⟨by decide, by decide, fun h => ?_⟩
  exact absurd (h L_tet) (by decide)

/-! ## Scoring and level -/

/-- The score update for a count outside `0..4`: the process exits. -/
theorem score_update_exit (g : game_t) (h : g.lines_cleared < 0 ∨ 4 < g.lines_cleared) :
    score_update g = .error 3 := by
  have h0 : g.lines_cleared ≠ 0 := by omega
  have h1 : g.lines_cleared ≠ 1 := by omega
  have h2 : g.lines_cleared ≠ 2 := by omega
  have h3 : g.lines_cleared ≠ 3 := by omega
  have h4 : g.lines_cleared ≠ 4 := by omega
  unfold score_update
  rw [if_pos h0, if_neg h1, if_neg h2, if_neg h3, if_neg h4]

/-- C12 (as amended): for every score, lines and level, a lock whose
line-clear scan ends with `k` rows cleared leaves score, lines and level
unchanged for `k = 0`; for `k = 1, 2, 3, 4` it stores `score + 100 * level`,
`score + 300 * level`, `score + 500 * level`, `score + 800 * level` (with the
level before it is recomputed) and `lines + k` in 32-bit `int` variables, so
the score changes by exactly that amount and `lines` increases by exactly `k`
whenever the sum is a value of an `int`, and the stored value is the sum
reduced modulo `2^32` otherwise; for any other `k` the process exits with
status 3 and no score is produced. -/
theorem C12_reward_table (fuel : Nat) (tet : tetromino_t) (g : game_t) (pf2 : playfield_t)
    (k : Int)
    (hclear : clear_lines fuel (tet2playfield tet g.playfield) g.lines_cleared = some (pf2, k)) :
    (k = 0 → ∃ g2, lock_phase fuel tet g = some (.ok g2) ∧ g2.score = g.score ∧
      g2.lines = g.lines ∧ g2.level = g.level) ∧
    (k = 1 → ∃ g2, lock_phase fuel tet g = some (.ok g2) ∧
      g2.score = wrap_int (g.score + 100 * g.level) ∧ g2.lines = wrap_int (g.lines + 1) ∧
      (int_range (g.score + 100 * g.level) → g2.score = g.score + 100 * g.level) ∧
      (int_range (g.lines + 1) → g2.lines = g.lines + 1)) ∧
    (k = 2 → ∃ g2, lock_phase fuel tet g = some (.ok g2) ∧
      g2.score = wrap_int (g.score + 300 * g.level) ∧ g2.lines = wrap_int (g.lines + 2) ∧
      (int_range (g.score + 300 * g.level) → g2.score = g.score + 300 * g.level) ∧
      (int_range (g.lines + 2) → g2.lines = g.lines + 2)) ∧
    (k = 3 → ∃ g2, lock_phase fuel tet g = some (.ok g2) ∧
      g2.score = wrap_int (g.score + 500 * g.level) ∧ g2.lines = wrap_int (g.lines + 3) ∧
      (int_range (g.score + 500 * g.level) → g2.score = g.score + 500 * g.level) ∧
      (int_range (g.lines + 3) → g2.lines = g.lines + 3)) ∧
    (k = 4 → ∃ g2, lock_phase fuel tet g = some (.ok g2) ∧
      g2.score = wrap_int (g.score + 800 * g.level) ∧ g2.lines = wrap_int (g.lines + 4) ∧
      (int_range (g.score + 800 * g.level) → g2.score = g.score + 800 * g.level) ∧
      (int_range (g.lines + 4) → g2.lines = g.lines + 4)) ∧
    (k < 0 ∨ 4 < k → lock_phase fuel tet g = some (.error 3)) := by
  rw [lock_phase_eq fuel tet g pf2 k hclear]
  refine ⟨?_, ?_, ?_, ?_, ?_, ?_⟩
  · intro hk
    subst hk
    exact ⟨_, rfl, rfl, rfl, rfl⟩
  · intro hk
    subst hk
    exact ⟨_, rfl, rfl, rfl, fun hr => wrap_int_eq _ hr, fun hr => wrap_int_eq _ hr⟩
  · intro hk
    subst hk
    exact ⟨_, rfl, rfl, rfl, fun hr => wrap_int_eq _ hr, fun hr => wrap_int_eq _ hr⟩
  · intro hk
    subst hk
    exact ⟨_, rfl, rfl, rfl, fun hr => wrap_int_eq _ hr, fun hr => wrap_int_eq _ hr⟩
  · intro hk
    subst hk
    exact ⟨_, rfl, rfl, rfl, fun hr => wrap_int_eq _ hr, fun hr => wrap_int_eq _ hr⟩
  · intro hk
    rw [score_update_exit _ hk]

/-- Witness of C12: the lock of `piece_I_col9` on `pf_stack_high`, which
clears one row at level 1 with score 0. -/
theorem C12_reward_table_witness :
    ∃ g2, lock_phase 20 piece_I_col9 game_stack_high = some (.ok g2) ∧
      g2.score = game_stack_high.score + 100 * game_stack_high.level ∧
      g2.lines = game_stack_high.lines + 1 := by
  obtain ⟨g2, h1, _, _, hs, hl⟩ := (C12_reward_table 20 piece_I_col9 game_stack_high
    (shift_rows (tet2playfield piece_I_col9 pf_stack_high) 22) 1 clear_stack_high).2.1 rfl
  exact ⟨g2, h1, hs (by decide), hl (by decide)⟩

set_option maxRecDepth 100000 in
/-- The line-clear scan after `piece_I_bottom` is locked on `pf_bottom_gap`:
row 39 is cleared. -/
theorem clear_bottom_gap :
    clear_lines 20 (tet2playfield piece_I_bottom pf_bottom_gap) 0 =
      some (shift_rows (tet2playfield piece_I_bottom pf_bottom_gap) 39, 1) := by
  apply clear_lines_one_row 20 _ 39 0 (by decide) (by decide) _ (by decide)
  intro k h1 h2 h3
  have h : ∀ k, k < 40 → k ≠ 39 → ¬ row_full (tet2playfield piece_I_bottom pf_bottom_gap) k := by
    decide
  exact h k h2 h3

set_option maxRecDepth 100000 in
/-- Counterexample to C12 as stated: the I piece `piece_I_bottom` rests on the
floor in the gap of `pf_bottom_gap`; its lock leaves the rows `0..19` empty
and clears one row. With score 2147483600 and level 1 the sum
`score + 100 * level` is 2147483700, which is not a value of a 32-bit `int`;
the score stored is -2147483596, so the score does not change by
`100 * level`. -/
theorem C12_counterexample :
    collision piece_I_bottom pf_bottom_gap DIR_LRD 1 0 = some (ERR_COLLISION, piece_I_bottom) ∧
    game_near_max.score = 2147483600 ∧ game_near_max.level = 1 ∧
    clear_lines 20 (tet2playfield piece_I_bottom game_near_max.playfield)
        game_near_max.lines_cleared =
      some (shift_rows (tet2playfield piece_I_bottom pf_bottom_gap) 39, 1) ∧
    ∃ g2, lock_phase 20 piece_I_bottom game_near_max = some (.ok g2) ∧
      g2.running = true ∧ g2.score = -2147483596 ∧
      g2.score ≠ game_near_max.score + 100 * game_near_max.level := by
  refine ⟨by decide, rfl, rfl, clear_bottom_gap, ?_⟩
  have h := lock_phase_eq 20 piece_I_bottom game_near_max
    (shift_rows (tet2playfield piece_I_bottom pf_bottom_gap) 39) 1 clear_bottom_gap
  have hrun : overflow_check (tet2playfield piece_I_bottom game_near_max.playfield)
      game_near_max.running = true := by
    refine (overflow_check_true _ _).mpr ⟨rfl, ?_⟩
    have hz : ∀ i, i < 20 → ∀ j, j < 10 →
        tet2playfield piece_I_bottom pf_bottom_gap i j = 0 := by
      decide
    exact fun i j hi hj => hz i (by omega) j hj
  rw [hrun] at h
  obtain ⟨g2, h1, h2, _, h4, _, _⟩ := score_update_eq
    { game_near_max with
      playfield := shift_rows (tet2playfield piece_I_bottom pf_bottom_gap) 39
      running := true
      lines_cleared := 1 } (by decide)
  rw [h1] at h
  have hs : g2.score = -2147483596 := by
    rw [h4]
    decide
  refine ⟨g2, h, h2, hs, ?_⟩
  rw [hs]
  decide

/-- The line-clear loop never decreases the counter. -/
theorem clear_loop_count_le (fuel : Nat) (pf : playfield_t) (i : Nat) (n : Int)
    (pf2 : playfield_t) (n2 : Int) (h : clear_loop fuel pf i n = some (pf2, n2)) : n ≤ n2 := by
  induction fuel generalizing pf i n with
  | zero => simp [clear_loop] at h
  | succ f ih =>
    simp only [clear_loop] at h
    split at h
    · split at h
      · have := ih _ _ _ h
        omega
      · exact ih _ _ _ h
    · simp only [Option.some.injEq, Prod.mk.injEq] at h
      omega

/-- After the score update `lines_cleared` is 0. -/
theorem score_update_resets (g g2 : game_t) (h : score_update g = .ok g2) :
    g2.lines_cleared = 0 := by
  unfold score_update at h
  split at h
  · split at h
    · injection h with h; rw [← h]; rfl
    · split at h
      · injection h with h; rw [← h]; rfl
      · split at h
        · injection h with h; rw [← h]; rfl
        · split at h
          · injection h with h; rw [← h]; rfl
          · exact absurd h (by simp)
  · rename_i h0
    injection h with h
    rw [← h]
    exact not_not.mp h0

/-- The score update after a scan that ended: the count is `0..4`, and the
variables are those of `score_update_eq`. -/
theorem lock_phase_cases (fuel : Nat) (tet : tetromino_t) (g g2 : game_t)
    (h0 : g.lines_cleared = 0) (h : lock_phase fuel tet g = some (.ok g2)) :
    ∃ k : Int, 0 ≤ k ∧ k ≤ 4 ∧ g2.lines_cleared = 0 ∧
      g2.lines = (if k = 0 then g.lines else wrap_int (g.lines + k)) ∧
      g2.level =
        (if k = 0 then g.level
         else if g.level = 15 then 15 else (wrap_int (g.lines + k)).tdiv 10 + 1) := by
  cases hc : clear_lines fuel (tet2playfield tet g.playfield) g.lines_cleared with
  | none =>
    unfold lock_phase overflow_step at h
    simp only [] at h
    rw [hc] at h
    exact absurd h (by simp)
  | some res =>
    obtain ⟨pf2, k⟩ := res
    have hk : 0 ≤ k := by
      have := clear_loop_count_le fuel _ _ _ pf2 k hc
      omega
    rw [lock_phase_eq fuel tet g pf2 k hc] at h
    simp only [Option.some.injEq] at h
    by_cases hbig : 4 < k
    · rw [score_update_exit _ (Or.inr hbig)] at h
      exact absurd h (by simp)
    · have hres := score_update_resets _ _ h
      obtain ⟨g3, e1, _, _, _, e5, e6⟩ := score_update_eq
        { g with
          playfield := pf2
          running := overflow_check (tet2playfield tet g.playfield) g.running
          lines_cleared := k } ⟨hk, not_lt.mp hbig⟩
      rw [e1] at h
      injection h with h
      subst h
      simp only [] at e5 e6
      exact ⟨k, hk, not_lt.mp hbig, hres, e5, e6⟩

/-- The bounds of the level between two iterations of the loop of
`tetris_run`: below level 15 the level is `lines / 10 + 1` and `lines` is
below 140. -/
theorem lock_phase_level_bounds (fuel : Nat) (tet : tetromino_t) (g g2 : game_t)
    (hinv : g.lines_cleared = 0 ∧ 1 ≤ g.level ∧ g.level ≤ 15 ∧
      (g.level < 15 → 0 ≤ g.lines ∧ g.lines < 140 ∧ g.level = g.lines / 10 + 1))
    (h : lock_phase fuel tet g = some (.ok g2)) :
    g2.lines_cleared = 0 ∧ 1 ≤ g2.level ∧ g2.level ≤ 15 ∧
      (g2.level < 15 → 0 ≤ g2.lines ∧ g2.lines < 140 ∧ g2.level = g2.lines / 10 + 1) := by
  obtain ⟨h0, h1, h15, hlow⟩ := hinv
  obtain ⟨k, hk0, hk4, hres, e5, e6⟩ := lock_phase_cases fuel tet g g2 h0 h
  refine ⟨hres, ?_⟩
  by_cases hz : k = 0
  · rw [if_pos hz] at e5 e6
    rw [e5, e6]
    exact ⟨h1, h15, hlow⟩
  · rw [if_neg hz] at e5 e6
    by_cases hl : g.level = 15
    · rw [if_pos hl] at e6
      rw [e6]
      exact ⟨by decide, by decide, fun hlt => absurd hlt (by decide)⟩
    · rw [if_neg hl] at e6
      obtain ⟨hl0, hl140, _⟩ := hlow (by omega)
      have hw : wrap_int (g.lines + k) = g.lines + k :=
        wrap_int_eq _ ⟨by omega, by omega⟩
      rw [hw] at e5 e6
      have ht : (g.lines + k).tdiv 10 = (g.lines + k) / 10 :=
        Int.tdiv_eq_ediv (by omega) (by decide)
      rw [ht] at e6
      rw [e5, e6]
      refine ⟨by omega, by omega, fun hlt => ⟨by omega, by omega, rfl⟩⟩

/-- The invariant of the scoreboard variables between two iterations of the
loop of `tetris_run`, after at most `c` locks, while `4 * (c + 1)` is a value
of an `int`: `lines` is at most `4 * c` and the level is
`min(lines / 10 + 1, 15)`. -/
theorem lock_phase_level (fuel : Nat) (tet : tetromino_t) (g g2 : game_t) (c : Int)
    (hinv : g.lines_cleared = 0 ∧ 0 ≤ g.lines ∧ g.lines ≤ 4 * c ∧
      g.level = min (g.lines / 10 + 1) 15)
    (hc : 4 * (c + 1) ≤ 2147483647)
    (h : lock_phase fuel tet g = some (.ok g2)) :
    g2.lines_cleared = 0 ∧ 0 ≤ g2.lines ∧ g2.lines ≤ 4 * (c + 1) ∧
      g2.level = min (g2.lines / 10 + 1) 15 := by
  obtain ⟨h0, hl, hlc, hlev⟩ := hinv
  obtain ⟨k, hk0, hk4, hres, e5, e6⟩ := lock_phase_cases fuel tet g g2 h0 h
  refine ⟨hres, ?_⟩
  by_cases hz : k = 0
  · rw [if_pos hz] at e5 e6
    rw [e5, e6]
    exact ⟨hl, by omega, hlev⟩
  · rw [if_neg hz] at e5 e6
    have hw : wrap_int (g.lines + k) = g.lines + k :=
      wrap_int_eq _ ⟨by omega, by omega⟩
    rw [hw] at e5 e6
    have ht : (g.lines + k).tdiv 10 = (g.lines + k) / 10 :=
      Int.tdiv_eq_ediv (by omega) (by decide)
    rw [ht] at e6
    rw [e5, e6]
    refine ⟨by omega, by omega, ?_⟩
    by_cases h15 : g.level = 15
    · rw [if_pos h15]
      omega
    · rw [if_neg h15]
      omega

/-- The bounds of the level hold after every number of iterations of the
loop. -/
theorem play_level_bounds (fuel : Nat) (ts : List tetromino_t) (g g2 : game_t)
    (hinv : g.lines_cleared = 0 ∧ 1 ≤ g.level ∧ g.level ≤ 15 ∧
      (g.level < 15 → 0 ≤ g.lines ∧ g.lines < 140 ∧ g.level = g.lines / 10 + 1))
    (h : play fuel ts g = some (.ok g2)) :
    g2.lines_cleared = 0 ∧ 1 ≤ g2.level ∧ g2.level ≤ 15 ∧
      (g2.level < 15 → 0 ≤ g2.lines ∧ g2.lines < 140 ∧ g2.level = g2.lines / 10 + 1) := by
  induction ts generalizing g with
  | nil =>
    simp only [play, Option.some.injEq, Except.ok.injEq] at h
    rw [← h]
    exact hinv
  | cons t rest ih =>
    simp only [play] at h
    split at h
    · split at h
      · rename_i g3 hl
        exact ih g3 (lock_phase_level_bounds fuel t g g3 hinv hl) h
      · rename_i other hne
        exact absurd h (hne g2)
    · simp only [Option.some.injEq, Except.ok.injEq] at h
      rw [← h]
      exact hinv

/-- The invariant holds after every number of iterations of the loop for
which four times the number of locks is a value of an `int`. -/
theorem play_level (fuel : Nat) (ts : List tetromino_t) (g g2 : game_t) (c : Int)
    (hinv : g.lines_cleared = 0 ∧ 0 ≤ g.lines ∧ g.lines ≤ 4 * c ∧
      g.level = min (g.lines / 10 + 1) 15)
    (hc : 4 * (c + (ts.length : Int)) ≤ 2147483647)
    (h : play fuel ts g = some (.ok g2)) :
    g2.lines_cleared = 0 ∧ 0 ≤ g2.lines ∧ g2.lines ≤ 4 * (c + (ts.length : Int)) ∧
      g2.level = min (g2.lines / 10 + 1) 15 := by
  induction ts generalizing g c with
  | nil =>
    simp only [play, Option.some.injEq, Except.ok.injEq] at h
    rw [← h]
    simp only [List.length_nil, Nat.cast_zero, Int.add_zero]
    exact hinv
  | cons t rest ih =>
    simp only [List.length_cons, Nat.cast_add, Nat.cast_one] at hc ⊢
    simp only [play] at h
    split at h
    · split at h
      · rename_i g3 hl
        have h3 := ih g3 (c + 1) (lock_phase_level fuel t g g3 c hinv (by omega) hl)
          (by omega) h
        obtain ⟨a1, a2, a3, a4⟩ := h3
        exact ⟨a1, a2, by omega, a4⟩
      · rename_i other hne
        exact absurd h (hne g2)
    · simp only [Option.some.injEq, Except.ok.injEq] at h
      rw [← h]
      obtain ⟨a1, a2, a3, a4⟩ := hinv
      exact ⟨a1, a2, by omega, a4⟩

/-- One iteration of the loop from `game_stack_high`: the lock of
`piece_I_col9` clears one row. -/
theorem play_stack_high :
    ∃ g, play 20 [piece_I_col9] ⟨pf_stack_high, true, 0, 0, 1, 0⟩ = some (.ok g) ∧
      g.lines = 1 := by
  have h := lock_phase_eq 20 piece_I_col9 game_stack_high
    (shift_rows (tet2playfield piece_I_col9 pf_stack_high) 22) 1 clear_stack_high
  obtain ⟨g2, h1, _, _, _, h5, _⟩ := score_update_eq
    { game_stack_high with
      playfield := shift_rows (tet2playfield piece_I_col9 pf_stack_high) 22
      running := overflow_check (tet2playfield piece_I_col9 game_stack_high.playfield)
        game_stack_high.running
      lines_cleared := 1 } (by decide)
  rw [h1] at h
  refine ⟨g2, ?_, ?_⟩
  · show play 20 [piece_I_col9] game_stack_high = _
    simp only [play]
    rw [if_pos (show game_stack_high.running = true from rfl), h]
  · rw [h5]
    decide

/-- C14: for each of the 7 shapes and each rotation in `0..3`, the bitmap
written by `update_tetromino` has exactly 4 set bits; and the bitmap of the O
shape is the same for every rotation. -/
theorem C14_table_four_bits (tet : tetromino_t) :
    ((0 ≤ tet.rotation ∧ tet.rotation ≤ 3) → popcount (update_tetromino tet).bitmap = 4) ∧
    (tet.shape = O_tet →
      (update_tetromino tet).bitmap = rows4 0b0110 0b0110 0b0000 0b0000) := by
  constructor
  · intro hrot
    rw [update_tetromino_bitmap tet hrot]
    exact table_value_four_bits tet.shape tet.rotation hrot
  · intro ho
    obtain ⟨s, x, y, r, bm, f⟩ := tet
    simp only at ho
    subst ho
    rfl

/-- Witness of C14: the bitmap written for an L piece in rotation 1. -/
theorem C14_table_four_bits_witness :
    (0 ≤ piece_L_mid.rotation ∧ piece_L_mid.rotation ≤ 3) ∧
    popcount (update_tetromino piece_L_mid).bitmap = 4 :=
  ⟨by decide, (C14_table_four_bits piece_L_mid).1 (by decide)⟩

/-! ## Invariants of collision -/

/-- For a rotation in `0..3`, the bitmap is a table bitmap exactly when it is
the table value of shape and rotation. -/
theorem table_bitmap_iff (tet : tetromino_t) (hrot : 0 ≤ tet.rotation ∧ tet.rotation ≤ 3) :
    table_bitmap tet ↔ tet.bitmap = table_value tet.shape tet.rotation := by
  unfold table_bitmap
  rw [update_tetromino_bitmap tet hrot]
  exact eq_comm

theorem rotation_after_range (rotation : Int) (dir : directions_e) :
    0 ≤ rotation_after rotation dir ∧ rotation_after rotation dir ≤ 3 := by
  unfold rotation_after
  split <;> omega

/-- A piece committed by the kick loop is the probed piece moved by a kick
point. -/
theorem kick_loop_some (tet : tetromino_t) (pf : playfield_t) (l : List (Int × Int))
    (t : tetromino_t) (h : kick_loop tet pf l = some (some t)) :
    ∃ p ∈ l, t = { tet with x := tet.x + p.1, y := tet.y - p.2 } := by
  induction l with
  | nil => simp [kick_loop] at h
  | cons p rest ih =>
    simp only [kick_loop] at h
    split at h
    · exact absurd h (by simp)
    · split at h
      · obtain ⟨q, hq, ht⟩ := ih h
        exact ⟨q, List.mem_cons_of_mem _ hq, ht⟩
      · simp only [Option.some.injEq] at h
        exact ⟨p, List.mem_cons_self _ _, h.symm⟩

/-- The piece after a call of the translation branch is the piece before the
call, possibly with another origin. -/
theorem collision_lrd_fields (tet : tetromino_t) (pf : playfield_t) (yoff xoff : Int)
    (r : Nat) (t : tetromino_t) (h : collision_lrd tet pf yoff xoff = some (r, t)) :
    ∃ x y, t = { tet with x := x, y := y } := by
  unfold collision_lrd at h
  split at h
  · exact absurd h (by simp)
  · split at h
    · simp only [Option.some.injEq, Prod.mk.injEq] at h
      exact ⟨tet.x, tet.y, h.2.symm⟩
    · simp only [Option.some.injEq, Prod.mk.injEq] at h
      exact ⟨_, _, h.2.symm⟩

/-- C15: if a piece has a rotation in `0..3` and its bitmap is the table value
for its shape and rotation, then after any call of `collision` that returns
(translation by any offset, clockwise or counter-clockwise rotation, success or
blocked, any playfield) the rotation is still in `0..3`, the shape is unchanged
and the bitmap is the table value for shape and rotation. -/
theorem C15_bitmap_rotation_invariant (pf : playfield_t) (tet : tetromino_t)
    (dir : directions_e) (yoff xoff : Int) (r : Nat) (t : tetromino_t)
    (hrot : 0 ≤ tet.rotation ∧ tet.rotation ≤ 3) (htab : table_bitmap tet)
    (hres : collision tet pf dir yoff xoff = some (r, t)) :
    (0 ≤ t.rotation ∧ t.rotation ≤ 3) ∧ t.shape = tet.shape ∧ table_bitmap t := by
  have hbm := (table_bitmap_iff tet hrot).mp htab
  unfold collision at hres
  by_cases hd : dir = DIR_LRD
  · rw [if_pos hd] at hres
    obtain ⟨x, y, ht⟩ := collision_lrd_fields tet pf yoff xoff r t hres
    subst ht
    exact ⟨hrot, rfl,
      (table_bitmap_iff ⟨tet.shape, x, y, tet.rotation, tet.bitmap, tet.falling⟩ hrot).mpr hbm⟩
  · rw [if_neg hd] at hres
    by_cases ho : tet.shape = O_tet
    · rw [if_pos ho] at hres
      simp only [Option.some.injEq, Prod.mk.injEq] at hres
      rw [← hres.2]
      exact ⟨hrot, rfl, htab⟩
    · rw [if_neg ho] at hres
      obtain ⟨idx, hidx⟩ := table_idx_some tet.rotation dir hrot
      rw [hidx] at hres
      simp only [] at hres
      split at hres
      · exact absurd hres (by simp)
      · rename_i t2 hk
        simp only [Option.some.injEq, Prod.mk.injEq] at hres
        rw [rotated_piece_eq tet dir hrot] at hk
        obtain ⟨p, _, hp⟩ := kick_loop_some _ _ _ _ hk
        rw [← hres.2, hp]
        exact ⟨rotation_after_range _ _, rfl,
          (table_bitmap_iff
            ⟨tet.shape, tet.x + p.1, tet.y - p.2, rotation_after tet.rotation dir,
              table_value tet.shape (rotation_after tet.rotation dir), tet.falling⟩
            (rotation_after_range _ _)).mpr rfl⟩
      · simp only [Option.some.injEq, Prod.mk.injEq] at hres
        rw [← hres.2, rotate_back tet dir hrot htab]
        exact ⟨hrot, rfl, htab⟩

/-- Witness of C15: the T piece at the left wall rotated counter-clockwise on
the empty playfield. -/
theorem C15_bitmap_rotation_invariant_witness :
    (0 ≤ (3 : Int) ∧ (3 : Int) ≤ 3) ∧ T_tet = piece_T_left.shape ∧
    table_bitmap ⟨T_tet, 0, 30, 3, rows4 0b0100 0b1100 0b0100 0b0000, true⟩ :=
  C15_bitmap_rotation_invariant empty_pf piece_T_left DIR_CCW 0 0 NO_COLLISION
    ⟨T_tet, 0, 30, 3, rows4 0b0100 0b1100 0b0100 0b0000, true⟩ (by decide) (by decide)
    (by decide)

/-! ## Rotation in place -/

/-- Every row of the kick tables starts with the zero offset. -/
theorem kick_row_head (shape : shapes_t) (rotation : Int) (dir : directions_e) (idx : Nat)
    (h : table_idx rotation dir = some idx) :
    ∃ rest, kick_row shape idx = (0, 0) :: rest := by
  unfold table_idx at h
  split at h
  · simp only [Option.some.injEq] at h
    subst h
    cases shape <;> split <;> exact ⟨_, rfl⟩
  · split at h
    · simp only [Option.some.injEq] at h
      subst h
      cases shape <;> split <;> exact ⟨_, rfl⟩
    · split at h
      · simp only [Option.some.injEq] at h
        subst h
        cases shape <;> split <;> exact ⟨_, rfl⟩
      · split at h
        · simp only [Option.some.injEq] at h
          subst h
          cases shape <;> split <;> exact ⟨_, rfl⟩
        · exact absurd h (by simp)

/-- When the first kick point is not blocked and keeps the cells in rows
`>= 0`, the kick loop commits it. -/
theorem kick_loop_head (tet : tetromino_t) (pf : playfield_t) (p : Int × Int)
    (rest : List (Int × Int)) (hrows : rows_nonneg tet.bitmap (tet.y - p.2))
    (hfree : ¬ blocked pf tet.bitmap (tet.x + p.1) (tet.y - p.2)) :
    kick_loop tet pf (p :: rest) = some (some { tet with x := tet.x + p.1, y := tet.y - p.2 }) := by
  have hr : rows_nonneg tet.bitmap (tet.y + -p.2) := by
    rw [← Int.sub_eq_add_neg]
    exact hrows
  have hc := collision_lrd_eq tet pf (-p.2) p.1 hr
  rw [← Int.sub_eq_add_neg, if_neg hfree] at hc
  simp only [kick_loop]
  rw [hc]
  simp

/-- A rotation whose rotated bitmap is free at the origin of the piece, with
its cells in rows `>= 0`, succeeds in place: only rotation and bitmap change. -/
theorem rotate_in_place (pf : playfield_t) (tet : tetromino_t) (dir : directions_e)
    (yoff xoff : Int) (hd : dir ≠ DIR_LRD) (hshape : tet.shape ≠ O_tet)
    (hrot : 0 ≤ tet.rotation ∧ tet.rotation ≤ 3)
    (hrows : rows_nonneg (table_value tet.shape (rotation_after tet.rotation dir)) tet.y)
    (hfree : ¬ blocked pf (table_value tet.shape (rotation_after tet.rotation dir)) tet.x tet.y) :
    collision tet pf dir yoff xoff =
      some (NO_COLLISION,
        { tet with
          rotation := rotation_after tet.rotation dir
          bitmap := table_value tet.shape (rotation_after tet.rotation dir) }) := by
  obtain ⟨idx, hidx⟩ := table_idx_some tet.rotation dir hrot
  obtain ⟨rest, hrest⟩ := kick_row_head tet.shape tet.rotation dir idx hidx
  unfold collision
  rw [if_neg hd, if_neg hshape, hidx]
  simp only []
  rw [rotated_piece_eq tet dir hrot, hrest, kick_loop_head]
  · simp
  · simpa using hrows
  · simpa using hfree

/-- On the empty playfield, a bitmap whose 4x4 box lies inside the grid is not
blocked and has its cells in rows `>= 0`. -/
theorem box_inside_free (bm : Nat) (x y : Int) (hx : 0 ≤ x ∧ x ≤ 6) (hy : 0 ≤ y ∧ y ≤ 36) :
    rows_nonneg bm y ∧ ¬ blocked empty_pf bm x y := by
  constructor
  · intro i _ _
    omega
  · rintro ⟨i, hi, _, h | h | h | h⟩
    · omega
    · omega
    · omega
    · exact h rfl

theorem rotation_after_four (rotation : Int) (dir : directions_e)
    (hrot : 0 ≤ rotation ∧ rotation ≤ 3) :
    rotation_after (rotation_after (rotation_after (rotation_after rotation dir) dir) dir) dir =
      rotation := by
  unfold rotation_after
  split <;> omega

/-- C16: for every shape, every starting rotation in `0..3` (with the table
bitmap) and each direction, on the empty playfield with the 4x4 box of the
piece inside the grid (`0 <= x <= 6`, `0 <= y <= 36`), four successive
rotations in the same direction all return success, and the piece after the
fourth is the original piece: bitmap, rotation, origin and the other fields. -/
theorem C16_full_cycle (tet : tetromino_t) (dir : directions_e)
    (hdir : dir = DIR_CW ∨ dir = DIR_CCW)
    (hrot : 0 ≤ tet.rotation ∧ tet.rotation ≤ 3) (htab : table_bitmap tet)
    (hx : 0 ≤ tet.x ∧ tet.x ≤ 6) (hy : 0 ≤ tet.y ∧ tet.y ≤ 36) :
    ∃ t1 t2 t3,
      collision tet empty_pf dir 0 0 = some (NO_COLLISION, t1) ∧
      collision t1 empty_pf dir 0 0 = some (NO_COLLISION, t2) ∧
      collision t2 empty_pf dir 0 0 = some (NO_COLLISION, t3) ∧
      collision t3 empty_pf dir 0 0 = some (NO_COLLISION, tet) := by
  have hd : dir ≠ DIR_LRD := by
    rcases hdir with h | h <;> rw [h] <;> decide
  by_cases ho : tet.shape = O_tet
  · have h : collision tet empty_pf dir 0 0 = some (NO_COLLISION, tet) := by
      unfold collision
      rw [if_neg hd, if_pos ho]
    exact ⟨tet, tet, tet, h, h, h, h⟩
  · have step : ∀ t : tetromino_t, t.shape ≠ O_tet → (0 ≤ t.rotation ∧ t.rotation ≤ 3) →
        (0 ≤ t.x ∧ t.x ≤ 6) → (0 ≤ t.y ∧ t.y ≤ 36) →
        collision t empty_pf dir 0 0 = some (NO_COLLISION, turned t dir) :=
      fun t h1 h2 h3 h4 => rotate_in_place empty_pf t dir 0 0 hd h1 h2
        (box_inside_free _ _ _ h3 h4).1 (box_inside_free _ _ _ h3 h4).2
    have hback : turned (turned (turned (turned tet dir) dir) dir) dir = tet := by
      have hbm := table_bitmap_eq tet hrot htab
      obtain ⟨s, x, y, r, bm, f⟩ := tet
      simp only [] at hrot hbm
      subst hbm
      have hr : r = 0 ∨ r = 1 ∨ r = 2 ∨ r = 3 := by omega
      rcases hr with rfl | rfl | rfl | rfl <;> cases dir <;> rfl
    have h1 := step tet ho hrot hx hy
    have h2 := step (turned tet dir) ho (rotation_after_range _ _) hx hy
    have h3 := step (turned (turned tet dir) dir) ho (rotation_after_range _ _) hx hy
    have h4 := step (turned (turned (turned tet dir) dir) dir) ho (rotation_after_range _ _)
      hx hy
    rw [hback] at h4
    exact ⟨_, _, _, h1, h2, h3, h4⟩

/-- Witness of C16: an L piece in rotation 1 at column 4, row 30, rotated
clockwise four times. -/
theorem C16_full_cycle_witness :
    ∃ t1 t2 t3,
      collision piece_L_mid empty_pf DIR_CW 0 0 = some (NO_COLLISION, t1) ∧
      collision t1 empty_pf DIR_CW 0 0 = some (NO_COLLISION, t2) ∧
      collision t2 empty_pf DIR_CW 0 0 = some (NO_COLLISION, t3) ∧
      collision t3 empty_pf DIR_CW 0 0 = some (NO_COLLISION, piece_L_mid) :=
  C16_full_cycle piece_L_mid DIR_CW (Or.inl rfl) (by decide) (by decide) (by decide)
    (by decide)

/-- C17 (as amended): for a T piece at rotation 0 with its leftmost occupied
cell in column 0 (origin `x = 0`) at a row `y` with `0 <= y <= 37`, on the
empty playfield, a counter-clockwise rotate returns success with the first
kick point of the shared table, the zero offset: the origin stays `(0, y)`,
the rotation becomes 3 and the bitmap the table value for rotation 3. -/
theorem C17_left_wall_rotates_in_place (y : Int) (falling : Bool)
    (hy : 0 ≤ y ∧ y ≤ 37) :
    collision (piece_T_wall y falling) empty_pf DIR_CCW 0 0 =
      some (NO_COLLISION,
        ⟨T_tet, 0, y, 3, rows4 0b0100 0b1100 0b0100 0b0000, falling⟩) ∧
    (kick_candidates T_tet 0 DIR_CCW)[0]? = some (0, 0) ∧
    covers (piece_T_wall y falling) (y + 1).toNat 0 := by
  refine ⟨?_, by decide, ?_⟩
  · have h := rotate_in_place empty_pf (piece_T_wall y falling) DIR_CCW 0 0 (by decide)
      (show T_tet ≠ O_tet by decide) (show 0 ≤ (0 : Int) ∧ (0 : Int) ≤ 3 by decide)
      (by
        intro i hi hb
        show 0 ≤ y + ((i / 4 : Nat) : Int)
        omega)
      (by
        rintro ⟨i, hi, hb, h | h | h | h⟩
        · have hx : (0 : Int) + ((i % 4 : Nat) : Int) < 0 := h
          omega
        · have hb2 : bit_at (rows4 0b0100 0b1100 0b0100 0b0000) i = true := hb
          have hx : (0 : Int) + ((i % 4 : Nat) : Int) ≥ 10 := h
          omega
        · have hb2 : bit_at (rows4 0b0100 0b1100 0b0100 0b0000) i = true := hb
          have hy2 : y + ((i / 4 : Nat) : Int) ≥ 40 := h
          have hi12 : i < 12 := by
            by_contra hge
            have : i = 12 ∨ i = 13 ∨ i = 14 ∨ i = 15 := by omega
            rcases this with rfl | rfl | rfl | rfl <;> exact absurd hb2 (by decide)
          omega
        · exact h rfl)
    rw [h]
    rfl
  · refine ⟨4, by decide,
      show bit_at (rows4 0b0100 0b1110 0b0000 0b0000) 4 = true by decide, ?_, ?_⟩
    · show (0 : Int) + ((4 % 4 : Nat) : Int) = ((0 : Nat) : Int)
      decide
    · show y + ((4 / 4 : Nat) : Int) = (((y + 1).toNat : Nat) : Int)
      have : ((4 / 4 : Nat) : Int) = 1 := by decide
      rw [this]
      omega

/-- Witness of C17: the T piece at the left wall, at row 30. -/
theorem C17_left_wall_rotates_in_place_witness :
    collision (piece_T_wall 30 true) empty_pf DIR_CCW 0 0 =
      some (NO_COLLISION,
        ⟨T_tet, 0, 30, 3, rows4 0b0100 0b1100 0b0100 0b0000, true⟩) ∧
    (kick_candidates T_tet 0 DIR_CCW)[0]? = some (0, 0) ∧
    covers (piece_T_wall 30 true) ((30 : Int) + 1).toNat 0 :=
  C17_left_wall_rotates_in_place 30 true (by decide)

/-- Counterexample to C17 as stated: the T piece at rotation 0 with origin
`(0, 30)` on the empty playfield has its leftmost occupied cell in column 0
(row 31). The counter-clockwise rotate returns success, but the committed kick
point is the first of the table row, `(0, 0)`: the origin's `x` is 0 before
and after the call, so the kick has no horizontal component. -/
theorem C17_counterexample :
    covers (piece_T_wall 30 true) 31 0 ∧
    (∀ r, r < 40 → ∀ c, c < 10 → empty_pf r c = 0) ∧
    (piece_T_wall 30 true).x = 0 ∧
    (∃ t, collision (piece_T_wall 30 true) empty_pf DIR_CCW 0 0 = some (NO_COLLISION, t) ∧
      t.x = (piece_T_wall 30 true).x ∧ t.y = (piece_T_wall 30 true).y) ∧
    ¬ ∃ t, collision (piece_T_wall 30 true) empty_pf DIR_CCW 0 0 = some (NO_COLLISION, t) ∧
      t.x ≠ (piece_T_wall 30 true).x := by
  refine ⟨by decide, by decide, by decide,
    ⟨⟨T_tet, 0, 30, 3, rows4 0b0100 0b1100 0b0100 0b0000, true⟩, by decide, by decide,
      by decide⟩, ?_⟩
  rintro ⟨t, ht, hne⟩
  have h : collision (piece_T_wall 30 true) empty_pf DIR_CCW 0 0 =
      some (NO_COLLISION, ⟨T_tet, 0, 30, 3, rows4 0b0100 0b1100 0b0100 0b0000, true⟩) := by
    decide
  rw [h] at ht
  simp only [Option.some.injEq, Prod.mk.injEq, true_and] at ht
  rw [← ht] at hne
  exact hne rfl

/-! ## The gravity tick -/

/-- C19, the code at a failing input: the I piece `piece_I_row20_falling`
rests on `pf_stack_20`, so the move down of a gravity tick is blocked. At
level 15 (`GRAV_LEVELS`, the maximum level) with no time elapsed on the slide
timer the piece is left falling: it is not locked. At level 14 with no time
elapsed it is locked at once. For every level and elapsed time the piece is
locked on the tick exactly when the level is 14 or more than 500000
microseconds have elapsed. -/
theorem C19_immediate_lock_at_level_14 :
    collision piece_I_row20_falling pf_stack_20 DIR_LRD 1 0 =
      some (ERR_COLLISION, piece_I_row20_falling) ∧
    (GRAV_LEVELS : Int) = 15 ∧
    gravity_tick piece_I_row20_falling pf_stack_20 15 0 = some piece_I_row20_falling ∧
    piece_I_row20_falling.falling = true ∧
    gravity_tick piece_I_row20_falling pf_stack_20 14 0 =
      some { piece_I_row20_falling with falling := false } ∧
    (∀ level slide_us : Int,
      gravity_tick piece_I_row20_falling pf_stack_20 level slide_us =
        some (if level = 14 ∨ slide_us > 500000
          then { piece_I_row20_falling with falling := false }
          else piece_I_row20_falling)) := by
  have hc : collision piece_I_row20_falling pf_stack_20 DIR_LRD 1 0 =
      some (ERR_COLLISION, piece_I_row20_falling) := by decide
  refine ⟨hc, by decide, by decide, by decide, by decide, ?_⟩
  intro level slide_us
  unfold gravity_tick
  rw [hc]
  simp only [ne_eq, one_ne_zero, not_false_eq_true, if_true]
  by_cases h14 : level = 14
  · subst h14
    simp
  · have hne : level ≠ ((GRAV_LEVELS : Nat) : Int) - 1 := by
      simp only [GRAV_LEVELS]
      omega
    rw [if_pos hne]
    by_cases hs : slide_us > 500000
    · rw [if_pos hs, if_pos (Or.inr hs)]
    · rw [if_neg hs, if_neg]
      rintro (h | h)
      · exact h14 h
      · exact hs h

/-! ## The hard drop -/

/-- More fuel does not change the result of a hard drop that ends. -/
theorem hard_drop_mono (fuel k : Nat) (tet : tetromino_t) (pf : playfield_t) (t : tetromino_t)
    (h : hard_drop fuel tet pf = some t) : hard_drop (fuel + k) tet pf = some t := by
  induction fuel generalizing tet with
  | zero => simp [hard_drop] at h
  | succ f ih =>
    have e : f + 1 + k = (f + k) + 1 := by omega
    rw [e]
    simp only [hard_drop] at h ⊢
    split
    · rename_i hc
      rw [hc] at h
      exact absurd h (by simp)
    · rename_i r t2 hc
      rw [hc] at h
      simp only [] at h
      split
      · rename_i hr
        rw [if_pos hr] at h
        exact h
      · rename_i hr
        rw [if_neg hr] at h
        exact ih t2 h

/-- The playfield after `piece_I_bottom` is locked on the empty playfield. -/
theorem locked_bottom_cells (r c : Nat) :
    tet2playfield piece_I_bottom empty_pf r c =
      if r = 39 ∧ 3 ≤ c ∧ c ≤ 6 then I_tet.tag else 0 := by
  rw [tet2playfield_apply]
  have hiff : (r < 40 ∧ c < 10 ∧ covers piece_I_bottom r c) ↔ (r = 39 ∧ 3 ≤ c ∧ c ≤ 6) := by
    constructor
    · rintro ⟨_, _, i, hi, hb, hx, hy⟩
      have hx2 : (3 : Int) + ((i % 4 : Nat) : Int) = (c : Int) := hx
      have hy2 : (38 : Int) + ((i / 4 : Nat) : Int) = (r : Int) := hy
      have hb2 : bit_at (rows4 0b0000 0b1111 0b0000 0b0000) i = true := hb
      have hi2 : 4 ≤ i ∧ i ≤ 7 := by
        by_contra hne
        have hcases : i = 0 ∨ i = 1 ∨ i = 2 ∨ i = 3 ∨ i = 8 ∨ i = 9 ∨ i = 10 ∨ i = 11 ∨
            i = 12 ∨ i = 13 ∨ i = 14 ∨ i = 15 := by omega
        rcases hcases with rfl | rfl | rfl | rfl | rfl | rfl | rfl | rfl | rfl | rfl | rfl | rfl <;>
          exact absurd hb2 (by decide)
      omega
    · rintro ⟨hr, hc1, hc2⟩
      refine ⟨by omega, by omega, c + 1, by omega, ?_, ?_, ?_⟩
      · have hcases : c = 3 ∨ c = 4 ∨ c = 5 ∨ c = 6 := by omega
        rcases hcases with rfl | rfl | rfl | rfl <;> decide
      · show (3 : Int) + (((c + 1) % 4 : Nat) : Int) = (c : Int)
        omega
      · show (38 : Int) + (((c + 1) / 4 : Nat) : Int) = (r : Int)
        omega
  by_cases h : r = 39 ∧ 3 ≤ c ∧ c ≤ 6
  · rw [if_pos (hiff.mpr h), if_pos h]
    rfl
  · rw [if_neg (fun hh => h (hiff.mp hh)), if_neg h]
    rfl

set_option maxRecDepth 100000 in
/-- The hard drop of the I piece from the spawn origin on the empty playfield
ends after 22 calls of `collision`, at origin `(3, 38)`. -/
theorem hard_drop_spawn_I :
    hard_drop 22 ⟨I_tet, 3, 17, 0, rows4 0b0000 0b1111 0b0000 0b0000, true⟩ empty_pf =
      some piece_I_bottom := by
  decide

/-- C20: an I piece spawned at rotation 0 at the spawn origin `(3, 17)` on the
empty playfield, after a hard drop followed by the lock, the overflow check,
the line-clear step and the score update, leaves the playfield with exactly the
four cells of row 39 in the columns `3..6` set to the I tag and every other
cell empty; `running` stays true, 0 rows are cleared, and score, lines and
level are unchanged. This holds for every score, lines and level, whatever the
piece variable held before the spawn, with fuel for the 22 calls of the drop
and the 19 iterations of the scan. -/
theorem C20_hard_drop_scenario (old : tetromino_t) (score lines level : Int)
    (fuel1 fuel2 : Nat) (h1 : 22 ≤ fuel1) (h2 : 19 ≤ fuel2) :
    spawn_piece old I_tet = ⟨I_tet, 3, 17, 0, rows4 0b0000 0b1111 0b0000 0b0000, true⟩ ∧
    ∃ t g,
      hard_drop fuel1 (spawn_piece old I_tet) empty_pf = some t ∧
      clear_lines fuel2 (tet2playfield t empty_pf) 0 = some (tet2playfield t empty_pf, 0) ∧
      lock_phase fuel2 t ⟨empty_pf, true, score, lines, level, 0⟩ = some (.ok g) ∧
      (∀ r c, g.playfield r c = if r = 39 ∧ 3 ≤ c ∧ c ≤ 6 then I_tet.tag else 0) ∧
      g.running = true ∧ g.score = score ∧ g.lines = lines ∧ g.level = level := by
  have hspawn : spawn_piece old I_tet =
      ⟨I_tet, 3, 17, 0, rows4 0b0000 0b1111 0b0000 0b0000, true⟩ := rfl
  have hdrop : hard_drop fuel1 (spawn_piece old I_tet) empty_pf = some piece_I_bottom := by
    obtain ⟨k, rfl⟩ : ∃ k, fuel1 = 22 + k := ⟨fuel1 - 22, by omega⟩
    rw [hspawn]
    exact hard_drop_mono 22 k _ _ _ hard_drop_spawn_I
  have hclear : clear_lines fuel2 (tet2playfield piece_I_bottom empty_pf) 0 =
      some (tet2playfield piece_I_bottom empty_pf, 0) := by
    show clear_loop fuel2 _ 39 0 = _
    apply clear_loop_no_full
    · intro k _ _ hf
      have h0 := hf 0 (by omega)
      rw [locked_bottom_cells, if_neg (by omega)] at h0
      exact h0 rfl
    · omega
  have hover : overflow_check (tet2playfield piece_I_bottom empty_pf) true = true := by
    rw [overflow_check_true]
    refine ⟨rfl, fun i j hi _ => ?_⟩
    rw [locked_bottom_cells, if_neg (by omega)]
  refine ⟨hspawn, piece_I_bottom,
    ⟨tet2playfield piece_I_bottom empty_pf, true, score, lines, level, 0⟩, hdrop, hclear, ?_,
    locked_bottom_cells, rfl, rfl, rfl, rfl⟩
  rw [lock_phase_eq fuel2 piece_I_bottom ⟨empty_pf, true, score, lines, level, 0⟩ _ 0 hclear]
  show some (score_update
    ⟨tet2playfield piece_I_bottom empty_pf,
      overflow_check (tet2playfield piece_I_bottom empty_pf) true, score, lines, level, 0⟩) = _
  rw [hover]
  rfl

/-- Witness of C20: the scenario at score 0, lines 0, level 1, with the fuel
bounds met exactly. -/
theorem C20_hard_drop_scenario_witness :
    spawn_piece piece_T_spawn I_tet =
      ⟨I_tet, 3, 17, 0, rows4 0b0000 0b1111 0b0000 0b0000, true⟩ ∧
    ∃ t g,
      hard_drop 22 (spawn_piece piece_T_spawn I_tet) empty_pf = some t ∧
      clear_lines 19 (tet2playfield t empty_pf) 0 = some (tet2playfield t empty_pf, 0) ∧
      lock_phase 19 t ⟨empty_pf, true, 0, 0, 1, 0⟩ = some (.ok g) ∧
      (∀ r c, g.playfield r c = if r = 39 ∧ 3 ≤ c ∧ c ≤ 6 then I_tet.tag else 0) ∧
      g.running = true ∧ g.score = 0 ∧ g.lines = 0 ∧ g.level = 1 :=
  C20_hard_drop_scenario piece_T_spawn 0 0 1 22 19 (by decide) (by decide)

/-! ## The line-clear scan in general -/

/-- The count `full_count pf i` is the number of rows `k` with
`22 <= k <= i` that are full. -/
theorem full_count_card (pf : playfield_t) (i : Nat) :
    full_count pf i =
      ((Finset.range (i + 1)).filter (fun k => 21 < k ∧ row_full pf k)).card := by
  induction i with
  | zero =>
    simp only [full_count]
    rw [eq_comm, Finset.card_eq_zero, Finset.filter_eq_empty_iff]
    intro k hk
    rw [Finset.mem_range] at hk
    omega
  | succ i ih =>
    simp only [full_count]
    rw [ih, Finset.range_succ (n := i + 1), Finset.filter_insert]
    by_cases h : 21 < i + 1 ∧ row_full pf (i + 1)
    · rw [if_pos h, if_pos h, Finset.card_insert_of_not_mem]
      rw [Finset.mem_filter, Finset.mem_range]
      omega
    · rw [if_neg h, if_neg h]
      rfl

theorem full_count_le (pf : playfield_t) (i : Nat) : full_count pf i ≤ i - 21 := by
  induction i with
  | zero => simp [full_count]
  | succ i ih =>
    simp only [full_count]
    split
    · omega
    · omega

/-- After the rows above the full row `j` are moved down, a row `k` with
`22 <= k <= j` is full exactly when the previous row `k - 1` was. -/
theorem row_full_shift (pf : playfield_t) (j k : Nat) (hk : 21 < k) (hkj : k ≤ j) :
    row_full (shift_rows pf j) k ↔ row_full pf (k - 1) := by
  unfold row_full
  constructor
  · intro h c hc
    have := h c hc
    rw [shift_rows_apply, if_pos ⟨hk, hkj, hc⟩] at this
    exact this
  · intro h c hc
    rw [shift_rows_apply, if_pos ⟨hk, hkj, hc⟩]
    exact h c hc

/-- When row 21 is not full, the shifted playfield has as many full rows
among `22..i+1` as the playfield had among `22..i`. -/
theorem full_count_shift (pf : playfield_t) (j i : Nat) (h21 : ¬ row_full pf 21)
    (hij : i + 1 ≤ j) : full_count (shift_rows pf j) (i + 1) = full_count pf i := by
  induction i with
  | zero => simp [full_count]
  | succ i ih =>
    have ih2 := ih (by omega)
    rw [full_count, ih2]
    simp only [full_count]
    by_cases hi : 21 < i + 1
    · have hiff := row_full_shift pf j (i + 1 + 1) (by omega) hij
      have e : i + 1 + 1 - 1 = i + 1 := by omega
      rw [e] at hiff
      by_cases hf : row_full pf (i + 1)
      · rw [if_pos ⟨by omega, hiff.mpr hf⟩, if_pos ⟨hi, hf⟩]
      · rw [if_neg (fun h => hf (hiff.mp h.2)), if_neg (fun h => hf h.2)]
    · have hright : ¬ (21 < i + 1 ∧ row_full pf (i + 1)) := fun h => hi h.1
      have hleft : ¬ (21 < i + 1 + 1 ∧ row_full (shift_rows pf j) (i + 1 + 1)) := by
        rintro ⟨h1, h2⟩
        have hiff := row_full_shift pf j (i + 1 + 1) h1 hij
        have e : i + 1 + 1 - 1 = 21 := by omega
        rw [e] at hiff
        exact h21 (hiff.mp h2)
      rw [if_neg hleft, if_neg hright]

theorem row_full_congr (pf pf2 : playfield_t) (r : Nat) (h : ∀ c, pf2 r c = pf r c) :
    row_full pf2 r ↔ row_full pf r := by
  unfold row_full
  constructor
  · intro hf c hc
    rw [← h c]
    exact hf c hc
  · intro hf c hc
    rw [h c]
    exact hf c hc

/-- The line-clear loop from row `i` on a playfield whose row 21 is not full:
with fuel for the rows `i` down to `21` and one more unit per full row, the
loop ends, it adds the number of full rows among `22..i` to the counter, it
changes no cell outside the rows `22..i`, and it leaves no full row among
`22..i`. -/
theorem clear_loop_spec (fuel : Nat) (pf : playfield_t) (i : Nat) (n : Int)
    (h21 : ¬ row_full pf 21) (hfuel : (i - 21) + full_count pf i < fuel) :
    ∃ pf2, clear_loop fuel pf i n = some (pf2, n + (full_count pf i : Int)) ∧
      (∀ r c, r ≤ 21 ∨ i < r → pf2 r c = pf r c) ∧
      (∀ k, 21 < k → k ≤ i → ¬ row_full pf2 k) := by
  induction fuel generalizing pf i n with
  | zero => omega
  | succ f ih =>
    by_cases hi : i ≤ 21
    · have h0 : full_count pf i = 0 := by
        have := full_count_le pf i
        omega
      refine ⟨pf, ?_, fun _ _ _ => rfl, fun k h1 h2 => by omega⟩
      rw [clear_loop_done f pf i n hi, h0]
      simp
    · obtain ⟨i2, rfl⟩ : ∃ i2, i = i2 + 1 := ⟨i - 1, by omega⟩
      by_cases hf : row_full pf (i2 + 1)
      · have hcount : full_count pf (i2 + 1) = full_count pf i2 + 1 := by
          simp only [full_count]
          rw [if_pos ⟨by omega, hf⟩]
        have hshift := full_count_shift pf (i2 + 1) i2 h21 (le_refl _)
        have h21b : ¬ row_full (shift_rows pf (i2 + 1)) 21 := by
          intro h
          apply h21
          intro c hc
          have := h c hc
          rw [shift_rows_apply, if_neg (by omega)] at this
          exact this
        obtain ⟨pf2, hc, hsame, hnone⟩ := ih (shift_rows pf (i2 + 1)) (i2 + 1) (n + 1) h21b
          (by rw [hshift]; omega)
        refine ⟨pf2, ?_, ?_, hnone⟩
        · rw [clear_loop_full f pf (i2 + 1) n (by omega) hf, hc, hshift, hcount]
          congr 2
          push_cast
          omega
        · intro r c hr
          rw [hsame r c hr, shift_rows_apply, if_neg (by omega)]
      · have hcount : full_count pf (i2 + 1) = full_count pf i2 := by
          simp only [full_count]
          rw [if_neg (fun h => hf h.2)]
          rfl
        obtain ⟨pf2, hc, hsame, hnone⟩ := ih pf i2 n h21 (by rw [hcount] at hfuel; omega)
        refine ⟨pf2, ?_, ?_, ?_⟩
        · rw [clear_loop_skip f pf (i2 + 1) n (by omega) hf, hcount]
          exact hc
        · intro r c hr
          exact hsame r c (by omega)
        · intro k h1 h2
          by_cases hk : k = i2 + 1
          · rw [hk, row_full_congr pf pf2 (i2 + 1) (fun c => hsame (i2 + 1) c (by omega))]
            exact hf
          · exact hnone k h1 (by omega)

/-- Whenever the line-clear loop ends, the rows `0..21` are as before. -/
theorem clear_loop_keeps_top (fuel : Nat) (pf : playfield_t) (i : Nat) (n : Int)
    (pf2 : playfield_t) (n2 : Int) (h : clear_loop fuel pf i n = some (pf2, n2))
    (r c : Nat) (hr : r ≤ 21) : pf2 r c = pf r c := by
  induction fuel generalizing pf i n with
  | zero => simp [clear_loop] at h
  | succ f ih =>
    simp only [clear_loop] at h
    split at h
    · split at h
      · rw [ih _ _ _ h, shift_rows_apply, if_neg (by omega)]
      · exact ih _ _ _ h
    · simp only [Option.some.injEq, Prod.mk.injEq] at h
      rw [← h.1]

/-- C24: for every playfield whose row 21 has at least one empty cell, the
line-clear scan over the rows 39 down to 22 ends (for every fuel of at least
37 iterations), the number of rows it clears is the number of rows among
`22..39` that were full before the scan, the rows `0..21` are unchanged, and
afterwards no row among `22..39` is full. -/
theorem C24_clear_counts_full_rows (pf : playfield_t) (fuel : Nat)
    (h21 : ∃ c, c < 10 ∧ pf 21 c = 0) (hfuel : 37 ≤ fuel) :
    ∃ pf2 : playfield_t,
      clear_lines fuel pf 0 =
        some (pf2,
          (((Finset.range 40).filter (fun k => 21 < k ∧ row_full pf k)).card : Int)) ∧
      (∀ r c, r ≤ 21 → pf2 r c = pf r c) ∧
      (∀ k, 22 ≤ k → k ≤ 39 → ¬ row_full pf2 k) := by
  have hnot : ¬ row_full pf 21 := by
    obtain ⟨c, hc, h0⟩ := h21
    exact fun h => h c hc h0
  have hle := full_count_le pf 39
  obtain ⟨pf2, hc, hsame, hnone⟩ := clear_loop_spec fuel pf 39 0 hnot (by omega)
  refine ⟨pf2, ?_, fun r c hr => hsame r c (Or.inl hr), fun k h1 h2 => hnone k (by omega) h2⟩
  show clear_loop fuel pf 39 0 = _
  rw [hc, full_count_card pf 39]
  simp

/-- Witness of C24: the playfield `pf_one_full`, whose row 21 has empty cells
and whose only full row is 39. -/
theorem C24_clear_counts_full_rows_witness :
    (∃ c, c < 10 ∧ pf_one_full 21 c = 0) ∧
    ∃ pf2 : playfield_t,
      clear_lines 37 pf_one_full 0 =
        some (pf2,
          (((Finset.range 40).filter (fun k => 21 < k ∧ row_full pf_one_full k)).card : Int)) ∧
      (∀ r c, r ≤ 21 → pf2 r c = pf_one_full r c) ∧
      (∀ k, 22 ≤ k → k ≤ 39 → ¬ row_full pf2 k) :=
  ⟨⟨1, by decide, by decide⟩,
    C24_clear_counts_full_rows pf_one_full 37 ⟨1, by decide, by decide⟩ (by decide)⟩

/-! ## Spawning after the overflow check -/

/-- The piece set up for a shape: spawn origin, rotation 0, table bitmap. -/
theorem spawn_piece_eq (old : tetromino_t) (shape : shapes_t) :
    spawn_piece old shape =
      ⟨shape, TETROMINO_SPAWN_X, TETROMINO_SPAWN_Y, 0, table_value shape 0, true⟩ := by
  cases shape <;> rfl

/-- In rotation 0 every shape has its set bits in the local rows 0 and 1. -/
theorem spawn_bits_top (shape : shapes_t) (i : Nat) (hi : i < 16)
    (hb : bit_at (table_value shape 0) i = true) : i < 8 := by
  have h : ∀ i, i < 16 → bit_at (table_value shape 0) i = true → i < 8 := by
    cases shape <;> decide
  exact h i hi hb

/-- C22: for every playfield on which the overflow check passes (the rows
`0..19` are empty), whenever the line-clear step ends, the rows `0..19` are
still empty afterwards, and for each of the 7 shapes the piece spawned at
origin `(3, 17)` with rotation 0 has all its cells inside the grid, on empty
cells, and a translate by the zero offset succeeds. -/
theorem C22_spawn_is_free (pf : playfield_t) (fuel : Nat) (n : Int) (pf2 : playfield_t)
    (k : Int) (old : tetromino_t) (shape : shapes_t)
    (hover : ∀ i j, i ≤ 19 → j < 10 → pf i j = 0)
    (hclear : clear_lines fuel pf n = some (pf2, k)) :
    overflow_check pf true = true ∧
    (∀ i j, i ≤ 19 → j < 10 → pf2 i j = 0) ∧
    ((spawn_piece old shape).x = 3 ∧ (spawn_piece old shape).y = 17 ∧
      (spawn_piece old shape).rotation = 0 ∧ (spawn_piece old shape).shape = shape) ∧
    in_bounds (spawn_piece old shape) ∧
    (∀ r c, covers (spawn_piece old shape) r c → pf2 r c = 0) ∧
    collision (spawn_piece old shape) pf2 DIR_LRD 0 0 =
      some (NO_COLLISION, spawn_piece old shape) := by
  have hempty : ∀ i j, i ≤ 19 → j < 10 → pf2 i j = 0 := by
    intro i j hi hj
    rw [clear_loop_keeps_top fuel pf _ n pf2 k hclear i j (by omega)]
    exact hover i j hi hj
  rw [spawn_piece_eq]
  have hin : in_bounds ⟨shape, TETROMINO_SPAWN_X, TETROMINO_SPAWN_Y, 0, table_value shape 0,
      true⟩ := by
    intro i hi hb
    have h8 := spawn_bits_top shape i hi hb
    show 0 ≤ (3 : Int) + ((i % 4 : Nat) : Int) ∧ (3 : Int) + ((i % 4 : Nat) : Int) < 10 ∧
      0 ≤ (40 : Int) - 1 - 22 + ((i / 4 : Nat) : Int) ∧
      (40 : Int) - 1 - 22 + ((i / 4 : Nat) : Int) < 40
    omega
  have hcov : ∀ r c,
      covers ⟨shape, TETROMINO_SPAWN_X, TETROMINO_SPAWN_Y, 0, table_value shape 0, true⟩ r c →
      pf2 r c = 0 := by
    rintro r c ⟨i, hi, hb, hx, hy⟩
    have h8 := spawn_bits_top shape i hi hb
    have hx2 : (3 : Int) + ((i % 4 : Nat) : Int) = (c : Int) := hx
    have hy2 : (40 : Int) - 1 - 22 + ((i / 4 : Nat) : Int) = (r : Int) := hy
    exact hempty r c (by omega) (by omega)
  refine ⟨(overflow_check_true pf true).mpr ⟨rfl, hover⟩, hempty, ⟨rfl, rfl, rfl, rfl⟩, hin,
    hcov, ?_⟩
  unfold collision
  rw [if_pos rfl, collision_lrd_eq _ _ _ _ (fun i hi hb => by
    have h8 := spawn_bits_top shape i hi hb
    show 0 ≤ (40 : Int) - 1 - 22 + 0 + ((i / 4 : Nat) : Int)
    omega)]
  rw [if_neg]
  · simp
  · rintro ⟨i, hi, hb, h⟩
    have hb2 : bit_at (table_value shape 0) i = true := hb
    have h8 := spawn_bits_top shape i hi hb2
    have hc := hcov ((40 : Int) - 1 - 22 + ((i / 4 : Nat) : Int)).toNat
      ((3 : Int) + ((i % 4 : Nat) : Int)).toNat
      ⟨i, hi, hb2, by
        show (3 : Int) + ((i % 4 : Nat) : Int) = _
        omega, by
        show (40 : Int) - 1 - 22 + ((i / 4 : Nat) : Int) = _
        omega⟩
    rcases h with h | h | h | h
    · have h2 : (3 : Int) + 0 + ((i % 4 : Nat) : Int) < 0 := h
      omega
    · have h2 : (3 : Int) + 0 + ((i % 4 : Nat) : Int) ≥ 10 := h
      omega
    · have h2 : (40 : Int) - 1 - 22 + 0 + ((i / 4 : Nat) : Int) ≥ 40 := h
      omega
    · apply h
      have e1 : ((40 : Int) - 1 - 22 + 0 + ((i / 4 : Nat) : Int)) =
          ((40 : Int) - 1 - 22 + ((i / 4 : Nat) : Int)) := by omega
      have e2 : ((3 : Int) + 0 + ((i % 4 : Nat) : Int)) = ((3 : Int) + ((i % 4 : Nat) : Int)) := by
        omega
      show pf2 ((40 : Int) - 1 - 22 + 0 + ((i / 4 : Nat) : Int)).toNat
        ((3 : Int) + 0 + ((i % 4 : Nat) : Int)).toNat = 0
      rw [e1, e2]
      exact hc

set_option maxRecDepth 100000 in
/-- The line-clear scan after `piece_I_four` is locked on `pf_four_rows`:
four rows are cleared. -/
theorem clear_four_rows :
    ∃ pf2, clear_lines 40 (tet2playfield piece_I_four pf_four_rows) 0 = some (pf2, 4) := by
  have h21 : ¬ row_full (tet2playfield piece_I_four pf_four_rows) 21 := by decide
  have hcount : full_count (tet2playfield piece_I_four pf_four_rows) 39 = 4 := by decide
  obtain ⟨pf2, hc, _, _⟩ := clear_loop_spec 40 (tet2playfield piece_I_four pf_four_rows) 39 0
    h21 (by rw [hcount]; decide)
  rw [hcount] at hc
  exact ⟨pf2, hc⟩

set_option maxRecDepth 100000 in
/-- Witness of C22: the playfield after `piece_I_four` is locked on
`pf_four_rows`, whose line-clear step clears four rows, and the S shape. -/
theorem C22_spawn_is_free_witness :
    ∃ pf2,
      clear_lines 40 (tet2playfield piece_I_four pf_four_rows) 0 = some (pf2, 4) ∧
      overflow_check (tet2playfield piece_I_four pf_four_rows) true = true ∧
      (∀ i j, i ≤ 19 → j < 10 → pf2 i j = 0) ∧
      collision (spawn_piece piece_I_four S_tet) pf2 DIR_LRD 0 0 =
        some (NO_COLLISION, spawn_piece piece_I_four S_tet) := by
  obtain ⟨pf2, hc⟩ := clear_four_rows
  have hover : ∀ i, i < 20 → ∀ j, j < 10 →
      tet2playfield piece_I_four pf_four_rows i j = 0 := by
    decide
  have h := C22_spawn_is_free (tet2playfield piece_I_four pf_four_rows) 40 0 pf2 4
    piece_I_four S_tet (fun i j hi hj => hover i (by omega) j hj) hc
  exact ⟨pf2, hc, h.1, h.2.1, h.2.2.2.2.2⟩

/-! ## The hard drop in general -/

theorem collision_lrd_def (tet : tetromino_t) (pf : playfield_t) (yoff xoff : Int) :
    collision tet pf DIR_LRD yoff xoff = collision_lrd tet pf yoff xoff := by
  unfold collision
  rw [if_pos rfl]

/-- A piece with rotation in `0..3` and a table bitmap has a set bit. -/
theorem table_bitmap_has_bit (tet : tetromino_t) (hrot : 0 ≤ tet.rotation ∧ tet.rotation ≤ 3)
    (htab : table_bitmap tet) : ∃ i, i < 16 ∧ bit_at tet.bitmap i = true := by
  have h4 := table_value_four_bits tet.shape tet.rotation hrot
  rw [← table_bitmap_eq tet hrot htab] at h4
  have hpos : 0 < ((Finset.range 16).filter (fun i => bit_at tet.bitmap i = true)).card := by
    omega
  obtain ⟨i, hi⟩ := Finset.card_pos.mp hpos
  rw [Finset.mem_filter, Finset.mem_range] at hi
  exact ⟨i, hi.1, hi.2⟩

/-- One call of the move down by one row, on a piece with its cells in rows
`>= 0`. -/
theorem drop_step (tet : tetromino_t) (pf : playfield_t)
    (hrows : rows_nonneg tet.bitmap tet.y) :
    collision tet pf DIR_LRD 1 0 =
      if blocked pf tet.bitmap tet.x (tet.y + 1) then some (ERR_COLLISION, tet)
      else some (NO_COLLISION, { tet with y := tet.y + 1 }) := by
  have hr : rows_nonneg tet.bitmap (tet.y + 1) := by
    intro i hi hb
    have := hrows i hi hb
    omega
  rw [collision_lrd_def, collision_lrd_eq tet pf 1 0 hr]
  simp only [Int.add_zero]

/-- The hard drop of a piece that has a set bit `i0` and its cells in rows
`>= 0`: it ends after `m` successful moves, `m` bounded by the distance of the
cell of bit `i0` to row 39; the move after the last is blocked and the
positions reached by the moves are free. -/
theorem hard_drop_spec (pf : playfield_t) (N : Nat) (tet : tetromino_t) (i0 : Nat)
    (hi0 : i0 < 16) (hb : bit_at tet.bitmap i0 = true)
    (hrows : rows_nonneg tet.bitmap tet.y)
    (hN : 39 - (tet.y + ((i0 / 4 : Nat) : Int)) ≤ (N : Int)) :
    ∃ m : Nat, m ≤ N ∧
      (∀ fuel, m + 1 ≤ fuel →
        hard_drop fuel tet pf = some { tet with y := tet.y + (m : Int), falling := false }) ∧
      blocked pf tet.bitmap tet.x (tet.y + (m : Int) + 1) ∧
      (∀ j : Nat, 1 ≤ j → j ≤ m → ¬ blocked pf tet.bitmap tet.x (tet.y + (j : Int))) := by
  induction N generalizing tet with
  | zero =>
    have hblk : blocked pf tet.bitmap tet.x (tet.y + 1) :=
      ⟨i0, hi0, hb, Or.inr (Or.inr (Or.inl (by omega)))⟩
    refine ⟨0, le_refl 0, ?_, by simpa using hblk, fun j h1 h2 => by omega⟩
    intro fuel hfuel
    obtain ⟨f, rfl⟩ : ∃ f, fuel = f + 1 := ⟨fuel - 1, by omega⟩
    simp only [hard_drop]
    rw [drop_step tet pf hrows, if_pos hblk]
    simp
  | succ N2 ih =>
    by_cases hblk : blocked pf tet.bitmap tet.x (tet.y + 1)
    · refine ⟨0, by omega, ?_, by simpa using hblk, fun j h1 h2 => by omega⟩
      intro fuel hfuel
      obtain ⟨f, rfl⟩ : ∃ f, fuel = f + 1 := ⟨fuel - 1, by omega⟩
      simp only [hard_drop]
      rw [drop_step tet pf hrows, if_pos hblk]
      simp
    · have hrows2 : rows_nonneg tet.bitmap (tet.y + 1) := by
        intro i hi hbi
        have := hrows i hi hbi
        omega
      obtain ⟨m2, hm2, hdrop, hlast, hfree⟩ := ih { tet with y := tet.y + 1 } hb hrows2
        (by
          show 39 - (tet.y + 1 + ((i0 / 4 : Nat) : Int)) ≤ (N2 : Int)
          push_cast at hN
          omega)
      refine ⟨m2 + 1, by omega, ?_, ?_, ?_⟩
      · intro fuel hfuel
        obtain ⟨f, rfl⟩ : ∃ f, fuel = f + 1 := ⟨fuel - 1, by omega⟩
        simp only [hard_drop]
        rw [drop_step tet pf hrows, if_neg hblk]
        simp only [ne_eq, not_true_eq_false, if_false]
        rw [hdrop f (by omega)]
        have e : tet.y + 1 + (m2 : Int) = tet.y + ((m2 + 1 : Nat) : Int) := by
          push_cast
          omega
        simp only [e]
      · have e : tet.y + ((m2 + 1 : Nat) : Int) + 1 = tet.y + 1 + (m2 : Int) + 1 := by
          push_cast
          omega
        rw [e]
        exact hlast
      · intro j h1 h2
        by_cases hj : j = 1
        · rw [hj]
          exact hblk
        · have h := hfree (j - 1) (by omega) (by omega)
          have e : tet.y + 1 + ((j - 1 : Nat) : Int) = tet.y + (j : Int) := by omega
          rw [← e]
          exact h

/-- C23: for every playfield and every piece with rotation in `0..3` and a
table bitmap whose cells all lie in rows `>= 0`, the hard-drop loop ends after
`m` successful moves with `m <= 40`; it changes only `y`, which becomes
`y + m` (so it is at least the initial `y`), and the falling flag, which is
cleared; at the final position a further move down by one row is blocked, and
every position reached by a move is collision-free. -/
theorem C23_hard_drop_rests (pf : playfield_t) (tet : tetromino_t)
    (hrot : 0 ≤ tet.rotation ∧ tet.rotation ≤ 3) (htab : table_bitmap tet)
    (hrows : rows_nonneg tet.bitmap tet.y) :
    ∃ m : Nat, m ≤ 40 ∧
      (∀ fuel, m + 1 ≤ fuel →
        ∃ t, hard_drop fuel tet pf = some t ∧
          t.x = tet.x ∧ t.shape = tet.shape ∧ t.rotation = tet.rotation ∧
          t.bitmap = tet.bitmap ∧ t.y = tet.y + (m : Int) ∧ tet.y ≤ t.y ∧
          collision t pf DIR_LRD 1 0 = some (ERR_COLLISION, t)) ∧
      (∀ j : Nat, 1 ≤ j → j ≤ m → ¬ blocked pf tet.bitmap tet.x (tet.y + (j : Int))) := by
  obtain ⟨i0, hi0, hb⟩ := table_bitmap_has_bit tet hrot htab
  have h0 := hrows i0 hi0 hb
  obtain ⟨m, hm, hdrop, hlast, hfree⟩ := hard_drop_spec pf 39 tet i0 hi0 hb hrows (by
    push_cast
    omega)
  refine ⟨m, by omega, ?_, hfree⟩
  intro fuel hfuel
  refine ⟨_, hdrop fuel hfuel, rfl, rfl, rfl, rfl, rfl, ?_, ?_⟩
  · show tet.y ≤ tet.y + (m : Int)
    omega
  · have hr : rows_nonneg tet.bitmap (tet.y + (m : Int)) := by
      intro i hi hbi
      have := hrows i hi hbi
      omega
    rw [drop_step { tet with y := tet.y + (m : Int), falling := false } pf hr]
    exact if_pos hlast

/-- Witness of C23: the T piece at the spawn origin on the empty playfield. -/
theorem C23_hard_drop_rests_witness :
    ∃ m : Nat, m ≤ 40 ∧
      (∀ fuel, m + 1 ≤ fuel →
        ∃ t, hard_drop fuel piece_T_spawn empty_pf = some t ∧
          t.x = piece_T_spawn.x ∧ t.shape = piece_T_spawn.shape ∧
          t.rotation = piece_T_spawn.rotation ∧
          t.bitmap = piece_T_spawn.bitmap ∧ t.y = piece_T_spawn.y + (m : Int) ∧
          piece_T_spawn.y ≤ t.y ∧
          collision t empty_pf DIR_LRD 1 0 = some (ERR_COLLISION, t)) ∧
      (∀ j : Nat, 1 ≤ j → j ≤ m →
        ¬ blocked empty_pf piece_T_spawn.bitmap piece_T_spawn.x (piece_T_spawn.y + (j : Int))) :=
  C23_hard_drop_rests empty_pf piece_T_spawn (by decide) (by decide) (by decide)

/-! ## The active piece stays placed -/

/-- A piece is placed exactly when its cells lie in rows `>= 0` and none is
blocked. -/
theorem placed_iff (tet : tetromino_t) (pf : playfield_t) :
    placed tet pf ↔ (rows_nonneg tet.bitmap tet.y ∧ ¬ blocked pf tet.bitmap tet.x tet.y) := by
  constructor
  · intro h
    refine ⟨fun i hi hb => (h i hi hb).2.2.1, ?_⟩
    rintro ⟨i, hi, hb, hc⟩
    obtain ⟨h1, h2, h3, h4, h5⟩ := h i hi hb
    rcases hc with hc | hc | hc | hc
    · omega
    · omega
    · omega
    · exact hc h5
  · rintro ⟨hrows, hfree⟩ i hi hb
    have hr := hrows i hi hb
    refine ⟨?_, ?_, hr, ?_, ?_⟩
    · by_contra hc
      exact hfree ⟨i, hi, hb, Or.inl (by omega)⟩
    · by_contra hc
      exact hfree ⟨i, hi, hb, Or.inr (Or.inl (by omega))⟩
    · by_contra hc
      exact hfree ⟨i, hi, hb, Or.inr (Or.inr (Or.inl (by omega)))⟩
    · by_contra hc
      exact hfree ⟨i, hi, hb, Or.inr (Or.inr (Or.inr hc))⟩

/-- The two results of the translation branch. -/
theorem collision_lrd_cases (tet : tetromino_t) (pf : playfield_t) (yoff xoff : Int)
    (r : Nat) (t : tetromino_t) (h : collision_lrd tet pf yoff xoff = some (r, t)) :
    (r = ERR_COLLISION ∧ t = tet) ∨
    (r = NO_COLLISION ∧ t = { tet with x := tet.x + xoff, y := tet.y + yoff }) := by
  unfold collision_lrd at h
  split at h
  · exact absurd h (by simp)
  · split at h
    · simp only [Option.some.injEq, Prod.mk.injEq] at h
      exact Or.inl ⟨h.1.symm, h.2.symm⟩
    · simp only [Option.some.injEq, Prod.mk.injEq] at h
      exact Or.inr ⟨h.1.symm, h.2.symm⟩

/-- A successful call of the translation branch whose moved cells lie in rows
`>= 0` ends on a free position. -/
theorem collision_lrd_free (tet : tetromino_t) (pf : playfield_t) (yoff xoff : Int)
    (t : tetromino_t) (h : collision_lrd tet pf yoff xoff = some (NO_COLLISION, t))
    (hrows : rows_nonneg tet.bitmap (tet.y + yoff)) :
    ¬ blocked pf tet.bitmap (tet.x + xoff) (tet.y + yoff) := by
  intro hb
  rw [collision_lrd_eq tet pf yoff xoff hrows, if_pos hb] at h
  simp at h

/-- A piece committed by the kick loop is the probed piece moved by a kick
point whose probe returned `NO_COLLISION`. -/
theorem kick_loop_some_probe (tet : tetromino_t) (pf : playfield_t) (l : List (Int × Int))
    (t : tetromino_t) (h : kick_loop tet pf l = some (some t)) :
    ∃ p ∈ l, t = { tet with x := tet.x + p.1, y := tet.y - p.2 } ∧
      ∃ t2, collision_lrd tet pf (-p.2) p.1 = some (NO_COLLISION, t2) := by
  induction l with
  | nil => simp [kick_loop] at h
  | cons p rest ih =>
    simp only [kick_loop] at h
    split at h
    · exact absurd h (by simp)
    · rename_i r t2 hprobe
      split at h
      · obtain ⟨q, hq, ht, hp⟩ := ih h
        exact ⟨q, List.mem_cons_of_mem _ hq, ht, hp⟩
      · rename_i hr
        simp only [Option.some.injEq] at h
        have hr0 : r = NO_COLLISION := not_not.mp hr
        rw [hr0] at hprobe
        exact ⟨p, List.mem_cons_self _ _, h.symm, t2, hprobe⟩

/-- A lock of a placed piece changes only cells that were empty. -/
theorem lock_writes_empty (tet : tetromino_t) (pf : playfield_t) (hp : placed tet pf)
    (r c : Nat) (h : tet2playfield tet pf r c ≠ pf r c) : pf r c = 0 := by
  rw [tet2playfield_apply] at h
  by_cases hc : r < 40 ∧ c < 10 ∧ covers tet r c
  · obtain ⟨_, _, i, hi, hb, hx, hy⟩ := hc
    have h5 := (hp i hi hb).2.2.2.2
    rw [hx, hy] at h5
    simpa using h5
  · rw [if_neg hc] at h
    exact absurd rfl h

/-- C25: for every playfield and every placed piece with rotation in `0..3`
and a table bitmap, after any call of `collision` that returns blocked, and
after any call (translate by any offset, rotate in either direction, the
unconditional success of the O shape included) that returns success with the
cells of the resulting piece in rows `>= 0`, the piece is still placed; and a
lock of the resulting piece changes only cells that were empty. -/
theorem C25_piece_stays_placed (pf : playfield_t) (tet : tetromino_t) (dir : directions_e)
    (yoff xoff : Int) (r : Nat) (t : tetromino_t)
    (hplaced : placed tet pf)
    (hrot : 0 ≤ tet.rotation ∧ tet.rotation ≤ 3) (htab : table_bitmap tet)
    (hres : collision tet pf dir yoff xoff = some (r, t))
    (hrows : r = NO_COLLISION → rows_nonneg t.bitmap t.y) :
    (r = NO_COLLISION ∨ r = ERR_COLLISION) ∧ placed t pf ∧
    (∀ row col, tet2playfield t pf row col ≠ pf row col → pf row col = 0) := by
  have hmain : (r = NO_COLLISION ∨ r = ERR_COLLISION) ∧ placed t pf := by
    by_cases hd : dir = DIR_LRD
    · subst hd
      rw [collision_lrd_def] at hres
      rcases collision_lrd_cases tet pf yoff xoff r t hres with ⟨hr, ht⟩ | ⟨hr, ht⟩
      · rw [ht]
        exact ⟨Or.inr hr, hplaced⟩
      · refine ⟨Or.inl hr, ?_⟩
        have hrw := hrows hr
        rw [hr] at hres
        rw [ht] at hrw ⊢
        exact (placed_iff _ pf).mpr ⟨hrw, collision_lrd_free tet pf yoff xoff t hres hrw⟩
    · unfold collision at hres
      rw [if_neg hd] at hres
      by_cases ho : tet.shape = O_tet
      · rw [if_pos ho] at hres
        simp only [Option.some.injEq, Prod.mk.injEq] at hres
        rw [← hres.2]
        exact ⟨Or.inl hres.1.symm, hplaced⟩
      · rw [if_neg ho] at hres
        obtain ⟨idx, hidx⟩ := table_idx_some tet.rotation dir hrot
        rw [hidx] at hres
        simp only [] at hres
        split at hres
        · exact absurd hres (by simp)
        · rename_i t2 hk
          simp only [Option.some.injEq, Prod.mk.injEq] at hres
          obtain ⟨p, _, hp, t3, hprobe⟩ := kick_loop_some_probe _ _ _ _ hk
          have hrw := hrows hres.1.symm
          rw [← hres.2, hp] at hrw
          refine ⟨Or.inl hres.1.symm, ?_⟩
          rw [← hres.2, hp]
          have hrw2 : rows_nonneg
              (update_tetromino
                { tet with rotation :=
                    if dir = DIR_CW then (tet.rotation + 1).tmod 4
                    else (tet.rotation + 3).tmod 4 }).bitmap
              ((update_tetromino
                { tet with rotation :=
                    if dir = DIR_CW then (tet.rotation + 1).tmod 4
                    else (tet.rotation + 3).tmod 4 }).y + -p.2) := by
            rw [← Int.sub_eq_add_neg]
            exact hrw
          have hfree := collision_lrd_free _ pf (-p.2) p.1 t3 hprobe hrw2
          rw [← Int.sub_eq_add_neg] at hfree
          exact (placed_iff _ pf).mpr ⟨hrw, hfree⟩
        · simp only [Option.some.injEq, Prod.mk.injEq] at hres
          rw [← hres.2, rotate_back tet dir hrot htab]
          exact ⟨Or.inr hres.1.symm, hplaced⟩
  exact ⟨hmain.1, hmain.2, lock_writes_empty t pf hmain.2⟩

/-- Witness of C25: the T piece at the left wall rotated counter-clockwise on
the empty playfield. -/
theorem C25_piece_stays_placed_witness :
    placed piece_T_left empty_pf ∧
    collision piece_T_left empty_pf DIR_CCW 0 0 =
      some (NO_COLLISION, ⟨T_tet, 0, 30, 3, rows4 0b0100 0b1100 0b0100 0b0000, true⟩) ∧
    placed ⟨T_tet, 0, 30, 3, rows4 0b0100 0b1100 0b0100 0b0000, true⟩ empty_pf :=
  ⟨by decide, by decide,
    (C25_piece_stays_placed empty_pf piece_T_left DIR_CCW 0 0 NO_COLLISION
      ⟨T_tet, 0, 30, 3, rows4 0b0100 0b1100 0b0100 0b0000, true⟩ (by decide) (by decide)
      (by decide) (by decide) (fun _ => by decide)).2.1⟩

/-! ## The gravity lookup -/

/-- The lookup `gravity[level - 1]` is inside the table exactly for the
levels `1..15`. -/
theorem gravity_read_none (level : Int) : gravity_read level = none ↔ (level < 1 ∨ 15 < level) := by
  unfold gravity_read
  simp only [GRAV_LEVELS]
  split
  · constructor
    · intro h
      exact absurd h (by simp)
    · intro h
      omega
  · constructor
    · intro _
      omega
    · intro _
      rfl

/-- C26, the code at failing inputs: at level 1, the level of a new game, the
key `o` makes the level 0 and the gravity test of the same iteration evaluates
`gravity[-1]`; at level 15 the key `p` makes the level 16 and the test
evaluates `gravity[15]`. Both reads are outside the 15-entry table. Neither
key is followed by a bounds check: the lookup is inside the table exactly when
`1 <= level <= 15`. -/
theorem C26_level_keys_leave_table :
    key_level 'o' 1 = 0 ∧ gravity_read (key_level 'o' 1) = none ∧
    falling_levels ['o'] 1 = none ∧
    key_level 'p' 15 = 16 ∧ gravity_read (key_level 'p' 15) = none ∧
    falling_levels ['p'] 15 = none ∧
    gravity.length = 15 ∧
    (∀ level, gravity_read level = none ↔ (level < 1 ∨ 15 < level)) ∧
    (∀ level, key_level 'o' level = level - 1 ∧ key_level 'p' level = level + 1) := by
  refine ⟨by decide, by decide, by decide, by decide, by decide, by decide, by decide,
    gravity_read_none, fun level => ⟨?_, ?_⟩⟩
  · unfold key_level
    rw [if_pos rfl]
  · unfold key_level
    rw [if_neg (by decide), if_pos rfl]

/-! ## Scoring scenarios -/

/-- C21 (as amended): a lock at level 1 whose line-clear scan ends with 1 row
cleared increases the score by exactly 100; a lock at level 3 whose scan ends
with 4 rows cleared increases the score by exactly 2400, which is 800 times
the level. The new score is stored in a 32-bit `int`: the increase is exactly
this whenever the new score is a value of an `int`. -/
theorem C21_scoring_scenarios (fuel : Nat) (tet : tetromino_t) (g : game_t)
    (pf2 : playfield_t) (k : Int)
    (hclear : clear_lines fuel (tet2playfield tet g.playfield) g.lines_cleared = some (pf2, k)) :
    (g.level = 1 → k = 1 →
      ∃ g2, lock_phase fuel tet g = some (.ok g2) ∧ g2.score = wrap_int (g.score + 100) ∧
        (int_range (g.score + 100) → g2.score = g.score + 100)) ∧
    (g.level = 3 → k = 4 →
      ∃ g2, lock_phase fuel tet g = some (.ok g2) ∧ g2.score = wrap_int (g.score + 2400) ∧
        (int_range (g.score + 2400) → g2.score = g.score + 2400)) := by
  rw [lock_phase_eq fuel tet g pf2 k hclear]
  constructor
  · intro hl hk
    subst hk
    have hs : wrap_int (g.score + 100 * g.level) = wrap_int (g.score + 100) := by
      rw [hl]
      rfl
    exact ⟨_, rfl, hs, fun hr => hs.trans (wrap_int_eq _ hr)⟩
  · intro hl hk
    subst hk
    have hs : wrap_int (g.score + 800 * g.level) = wrap_int (g.score + 2400) := by
      rw [hl]
      rfl
    exact ⟨_, rfl, hs, fun hr => hs.trans (wrap_int_eq _ hr)⟩

/-- Witness of C21: at level 1 the lock of `piece_I_col9` on `pf_stack_high`
clears one row, and at level 3 the lock of `piece_I_four` on `pf_four_rows`
clears four rows. -/
theorem C21_scoring_scenarios_witness :
    (∃ g2, lock_phase 20 piece_I_col9 game_stack_high = some (.ok g2) ∧
      g2.score = game_stack_high.score + 100) ∧
    (∃ g2, lock_phase 40 piece_I_four game_four_rows = some (.ok g2) ∧
      g2.score = game_four_rows.score + 2400) := by
  obtain ⟨pf2, hc⟩ := clear_four_rows
  obtain ⟨g2, h1, _, h2⟩ := (C21_scoring_scenarios 20 piece_I_col9 game_stack_high
      (shift_rows (tet2playfield piece_I_col9 pf_stack_high) 22) 1 clear_stack_high).1 rfl rfl
  obtain ⟨g3, h3, _, h4⟩ :=
    (C21_scoring_scenarios 40 piece_I_four game_four_rows pf2 4 hc).2 rfl rfl
  exact ⟨⟨g2, h1, h2 (by decide)⟩, ⟨g3, h3, h4 (by decide)⟩⟩

/-- Counterexample to C21 as stated: the I piece `piece_I_four` rests on the
stack `pf_four_rows` and its lock completes the rows `36..39`. At level 3 with
score 1500 the scan clears 4 rows and the score becomes 3900: the increase is
`800 * 3 = 2400`, not 3200. -/
theorem C21_counterexample :
    collision piece_I_four pf_four_rows DIR_LRD 1 0 = some (ERR_COLLISION, piece_I_four) ∧
    game_four_rows.level = 3 ∧ game_four_rows.score = 1500 ∧
    ∃ pf2 g2,
      clear_lines 40 (tet2playfield piece_I_four game_four_rows.playfield) 0 = some (pf2, 4) ∧
      lock_phase 40 piece_I_four game_four_rows = some (.ok g2) ∧
      g2.score = 3900 ∧ g2.score ≠ game_four_rows.score + 3200 := by
  obtain ⟨pf2, hc⟩ := clear_four_rows
  have h := lock_phase_eq 40 piece_I_four game_four_rows pf2 4 hc
  obtain ⟨g2, h1, _, _, h4, _, _⟩ := score_update_eq
    { game_four_rows with
      playfield := pf2
      running := overflow_check (tet2playfield piece_I_four game_four_rows.playfield)
        game_four_rows.running
      lines_cleared := 4 } (show (0 : Int) ≤ 4 ∧ (4 : Int) ≤ 4 by decide)
  rw [h1] at h
  have hs : g2.score = 3900 := by
    rw [h4]
    show (if (4 : Int) = 0 then (1500 : Int) else wrap_int (1500 + reward 4 * 3)) = 3900
    decide
  refine ⟨by decide, rfl, rfl, pf2, g2, hc, h, hs, ?_⟩
  rw [hs]
  decide

/-! ## The origin row in the falling loop -/

set_option maxRecDepth 100000 in
/-- On the tables, a placed piece (columns inside the grid) that rotates has
a kick point that keeps the rotated bitmap in the columns of the grid among
the leading kick points that do not change the row. -/
theorem kick_in_row_exists (shape : shapes_t) (rotation : Int) (dir : directions_e)
    (n : Nat) (hn : n < 13)
    (hshape : shape ≠ O_tet) (hrot : 0 ≤ rotation ∧ rotation ≤ 3)
    (hdir : dir ≠ DIR_LRD)
    (hcols : cols_inside (table_value shape rotation) ((n : Int) - 3)) :
    ∃ j, j < 3 ∧ kick_in_row shape rotation dir ((n : Int) - 3) j := by
  have hr : rotation = 0 ∨ rotation = 1 ∨ rotation = 2 ∨ rotation = 3 := by omega
  have key : ∀ m : Nat, m < 13 →
      cols_inside (table_value shape rotation) ((m : Int) - 3) →
        ∃ j, j < 3 ∧ kick_in_row shape rotation dir ((m : Int) - 3) j := by
    rcases hr with rfl | rfl | rfl | rfl <;> cases shape <;> cases dir <;>
      first
        | exact absurd rfl hshape
        | exact absurd rfl hdir
        | decide
  exact key n hn hcols

/-- A kick point moves the origin by at most two rows. -/
theorem kick_candidates_bound (shape : shapes_t) (rotation : Int) (dir : directions_e)
    (hrot : 0 ≤ rotation ∧ rotation ≤ 3) (p : Int × Int)
    (hp : p ∈ kick_candidates shape rotation dir) : -2 ≤ p.2 ∧ p.2 ≤ 2 := by
  have hr : rotation = 0 ∨ rotation = 1 ∨ rotation = 2 ∨ rotation = 3 := by omega
  have key : ∀ q ∈ kick_candidates shape rotation dir, -2 ≤ q.2 ∧ q.2 ≤ 2 := by
    rcases hr with rfl | rfl | rfl | rfl <;> cases shape <;> cases dir <;> decide
  exact key p hp

/-- With the rows `0..19` empty, a bitmap whose box lies in the rows `0..19`
and whose set bits lie in the columns of the grid is not blocked. -/
theorem free_of_cols (pf : playfield_t) (hempty : ∀ i j, i ≤ 19 → j < 10 → pf i j = 0)
    (bm : Nat) (x y : Int) (hy : 0 ≤ y ∧ y ≤ 16) (hc : cols_inside bm x) :
    ¬ blocked pf bm x y := by
  rintro ⟨i, hi, hb, h⟩
  obtain ⟨c1, c2⟩ := hc i hi hb
  rcases h with h | h | h | h
  · omega
  · omega
  · omega
  · exact h (hempty _ _ (by omega) (by omega))

/-- The two results of a rotation of a piece other than the O shape whose
kick points all keep the rotated bitmap in rows `>= 0`: blocked with the piece
unchanged when every kick point is blocked, success at the first kick point
that is not blocked otherwise. -/
theorem rotate_cases (pf : playfield_t) (tet : tetromino_t) (dir : directions_e)
    (yoff xoff : Int) (hd : dir ≠ DIR_LRD) (hshape : tet.shape ≠ O_tet)
    (hrot : 0 ≤ tet.rotation ∧ tet.rotation ≤ 3) (htab : table_bitmap tet)
    (hrows : ∀ p ∈ kick_candidates tet.shape tet.rotation dir,
      rows_nonneg (table_value tet.shape (rotation_after tet.rotation dir)) (tet.y - p.2)) :
    collision tet pf dir yoff xoff = some (ERR_COLLISION, tet) ∨
    ∃ (k : Nat) (p : Int × Int),
      (kick_candidates tet.shape tet.rotation dir)[k]? = some p ∧
      ¬ blocked pf (table_value tet.shape (rotation_after tet.rotation dir))
        (tet.x + p.1) (tet.y - p.2) ∧
      (∀ (j : Nat) (q : Int × Int), j < k →
        (kick_candidates tet.shape tet.rotation dir)[j]? = some q →
        blocked pf (table_value tet.shape (rotation_after tet.rotation dir))
          (tet.x + q.1) (tet.y - q.2)) ∧
      collision tet pf dir yoff xoff =
        some (NO_COLLISION,
          { tet with
            rotation := rotation_after tet.rotation dir
            bitmap := table_value tet.shape (rotation_after tet.rotation dir)
            x := tet.x + p.1
            y := tet.y - p.2 }) := by
  obtain ⟨idx, hidx⟩ := table_idx_some tet.rotation dir hrot
  have hcand : kick_candidates tet.shape tet.rotation dir = kick_row tet.shape idx := by
    unfold kick_candidates
    rw [hidx]
  rw [hcand] at hrows
  rw [hcand]
  by_cases hfree : ∃ p ∈ kick_row tet.shape idx,
      ¬ blocked pf (table_value tet.shape (rotation_after tet.rotation dir))
        (tet.x + p.1) (tet.y - p.2)
  · right
    obtain ⟨k, p, hkp, hpf, hearlier, hloop⟩ := kick_loop_first_free
      { tet with
        rotation := rotation_after tet.rotation dir
        bitmap := table_value tet.shape (rotation_after tet.rotation dir) }
      pf (kick_row tet.shape idx) hrows hfree
    refine ⟨k, p, hkp, hpf, hearlier, ?_⟩
    unfold collision
    rw [if_neg hd, if_neg hshape, hidx]
    simp only []
    rw [rotated_piece_eq tet dir hrot, hloop]
  · left
    have hblk : ∀ p ∈ kick_row tet.shape idx,
        blocked pf (table_value tet.shape (rotation_after tet.rotation dir))
          (tet.x + p.1) (tet.y - p.2) := by
      intro p hp
      by_contra hc
      exact hfree ⟨p, hp, hc⟩
    have hk : kick_loop
        (update_tetromino
          { tet with rotation :=
              if dir = DIR_CW then (tet.rotation + 1).tmod 4 else (tet.rotation + 3).tmod 4 })
        pf (kick_row tet.shape idx) = some none := by
      rw [rotated_piece_eq tet dir hrot]
      exact kick_loop_all_blocked
        { tet with
          rotation := rotation_after tet.rotation dir
          bitmap := table_value tet.shape (rotation_after tet.rotation dir) }
        pf (kick_row tet.shape idx) hrows hblk
    unfold collision
    rw [if_neg hd, if_neg hshape, hidx]
    simp only []
    rw [hk]
    simp only []
    rw [rotate_back tet dir hrot htab]

/-- The cells of a piece in play, moved down by `yoff >= 0` rows, lie in rows
`>= 0`. -/
theorem in_play_rows (tet : tetromino_t) (pf : playfield_t) (h : in_play tet pf) (yoff : Int)
    (hy : 0 ≤ yoff) : rows_nonneg tet.bitmap (tet.y + yoff) := by
  intro i _ _
  have := h.2.1
  omega

/-- The falling flag is not part of the state `in_play`. -/
theorem in_play_falling (tet : tetromino_t) (pf : playfield_t) (f : Bool)
    (h : in_play tet pf) : in_play { tet with falling := f } pf := by
  obtain ⟨hp, hy, hrot, htab⟩ := h
  refine ⟨hp, hy, hrot, ?_⟩
  exact (table_bitmap_iff { tet with falling := f } hrot).mpr
    ((table_bitmap_iff tet hrot).mp htab)

/-- A translation that does not move the piece up keeps it in play, and its
result is decided by the cells of the piece. -/
theorem translate_in_play (pf : playfield_t) (tet : tetromino_t) (yoff xoff : Int)
    (h : in_play tet pf) (hy : 0 ≤ yoff) :
    ∃ r t, collision tet pf DIR_LRD yoff xoff = some (r, t) ∧ in_play t pf ∧
      (r = ERR_COLLISION ↔ blocked pf tet.bitmap (tet.x + xoff) (tet.y + yoff)) := by
  have hr := in_play_rows tet pf h yoff hy
  rw [collision_lrd_def, collision_lrd_eq tet pf yoff xoff hr]
  obtain ⟨hp, h15, hrot, htab⟩ := h
  by_cases hb : blocked pf tet.bitmap (tet.x + xoff) (tet.y + yoff)
  · rw [if_pos hb]
    exact ⟨_, _, rfl, ⟨hp, h15, hrot, htab⟩, fun _ => hb, fun _ => rfl⟩
  · rw [if_neg hb]
    refine ⟨_, _, rfl, ⟨(placed_iff _ pf).mpr ⟨hr, hb⟩, ?_, hrot, ?_⟩,
      fun h0 => absurd h0 (by decide), fun h1 => absurd h1 hb⟩
    · show 15 ≤ tet.y + yoff
      omega
    · exact (table_bitmap_iff
        ⟨tet.shape, tet.x + xoff, tet.y + yoff, tet.rotation, tet.bitmap, tet.falling⟩
        hrot).mpr ((table_bitmap_iff tet hrot).mp htab)

/-- A rotation keeps the piece in play: with the rows `0..19` empty, a piece
whose origin row is at most 16 rotates without a change of row, and a kick
moves a piece at most two rows up. -/
theorem rotate_in_play (pf : playfield_t) (hempty : ∀ i j, i ≤ 19 → j < 10 → pf i j = 0)
    (tet : tetromino_t) (dir : directions_e) (yoff xoff : Int) (hd : dir ≠ DIR_LRD)
    (h : in_play tet pf) :
    ∃ r t, collision tet pf dir yoff xoff = some (r, t) ∧ in_play t pf := by
  obtain ⟨hp, h15, hrot, htab⟩ := h
  by_cases ho : tet.shape = O_tet
  · refine ⟨NO_COLLISION, tet, ?_, hp, h15, hrot, htab⟩
    unfold collision
    rw [if_neg hd, if_pos ho]
  · have hbound := kick_candidates_bound tet.shape tet.rotation dir hrot
    have hrows : ∀ p ∈ kick_candidates tet.shape tet.rotation dir,
        rows_nonneg (table_value tet.shape (rotation_after tet.rotation dir)) (tet.y - p.2) := by
      intro p hp2 i _ _
      have := hbound p hp2
      omega
    rcases rotate_cases pf tet dir yoff xoff hd ho hrot htab hrows with hres | hres
    · exact ⟨_, _, hres, hp, h15, hrot, htab⟩
    · obtain ⟨k, p, hkp, hpf, hearlier, hres⟩ := hres
      have hmem : p ∈ kick_candidates tet.shape tet.rotation dir :=
        List.getElem?_mem hkp
      have hb := hbound p hmem
      refine ⟨_, _, hres, (placed_iff _ pf).mpr ⟨hrows p hmem, hpf⟩, ?_,
        rotation_after_range _ _, ?_⟩
      · show 15 ≤ tet.y - p.2
        by_cases h17 : 17 ≤ tet.y
        · omega
        · have hbm := (table_bitmap_iff tet hrot).mp htab
          obtain ⟨i0, hi0, hb0⟩ := table_bitmap_has_bit tet hrot htab
          have hc0 := hp i0 hi0 hb0
          have hcols : cols_inside (table_value tet.shape tet.rotation)
              ((((tet.x + 3).toNat : Nat) : Int) - 3) := by
            have e : (((tet.x + 3).toNat : Nat) : Int) - 3 = tet.x := by omega
            rw [e, ← hbm]
            intro i hi hbi
            exact ⟨(hp i hi hbi).1, (hp i hi hbi).2.1⟩
          obtain ⟨j, hj3, hjlen, hjcols, hjzero⟩ :=
            kick_in_row_exists tet.shape tet.rotation dir (tet.x + 3).toNat (by omega) ho hrot
              hd hcols
          have e : (((tet.x + 3).toNat : Nat) : Int) - 3 = tet.x := by omega
          rw [e] at hjcols
          have hkj : k ≤ j := by
            by_contra hlt
            have hq : (kick_candidates tet.shape tet.rotation dir)[j]? =
                some ((kick_candidates tet.shape tet.rotation dir).getD j (0, 0)) := by
              rw [List.getD_eq_getElem?_getD, List.getElem?_eq_getElem hjlen]
              rfl
            have hblk := hearlier j _ (by omega) hq
            rw [hjzero j (by omega)] at hblk
            exact free_of_cols pf hempty _ _ _ ⟨by omega, by omega⟩ hjcols hblk
          have hk0 := hjzero k (by omega)
          have hgd : (kick_candidates tet.shape tet.rotation dir).getD k (0, 0) = p := by
            rw [List.getD_eq_getElem?_getD, hkp]
            rfl
          rw [hgd] at hk0
          omega
      · exact (table_bitmap_iff
          ⟨tet.shape, tet.x + p.1, tet.y - p.2, rotation_after tet.rotation dir,
            table_value tet.shape (rotation_after tet.rotation dir), tet.falling⟩
          (rotation_after_range _ _)).mpr rfl

/-- The hard drop of a piece in play ends and leaves the piece in play. -/
theorem hard_drop_in_play (pf : playfield_t) (tet : tetromino_t) (fuel : Nat)
    (h : in_play tet pf) (hfuel : 40 ≤ fuel) :
    ∃ t, hard_drop fuel tet pf = some t ∧ in_play t pf := by
  have hin := h
  obtain ⟨hp, h15, hrot, htab⟩ := h
  obtain ⟨i0, hi0, hb0⟩ := table_bitmap_has_bit tet hrot htab
  have hrows := in_play_rows tet pf hin 0 (le_refl 0)
  rw [Int.add_zero] at hrows
  obtain ⟨m, hm, hdrop, _, hfree⟩ := hard_drop_spec pf 39 tet i0 hi0 hb0 hrows (by
    push_cast
    omega)
  refine ⟨_, hdrop fuel (by omega), ?_⟩
  have hmoved : in_play { tet with y := tet.y + (m : Int) } pf := by
    refine ⟨(placed_iff _ pf).mpr ⟨in_play_rows tet pf hin (m : Int) (by omega), ?_⟩, ?_, hrot,
      ?_⟩
    · by_cases hm0 : m = 0
      · subst hm0
        show ¬ blocked pf tet.bitmap tet.x (tet.y + ((0 : Nat) : Int))
        simp only [Nat.cast_zero, Int.add_zero]
        exact ((placed_iff tet pf).mp hp).2
      · exact hfree m (by omega) (le_refl m)
    · show 15 ≤ tet.y + (m : Int)
      omega
    · exact (table_bitmap_iff
        ⟨tet.shape, tet.x, tet.y + (m : Int), tet.rotation, tet.bitmap, tet.falling⟩
        hrot).mpr ((table_bitmap_iff tet hrot).mp htab)
  exact in_play_falling _ pf false hmoved

/-- The gravity step keeps the piece in play. -/
theorem gravity_tick_in_play (pf : playfield_t) (tet : tetromino_t) (level slide_us : Int)
    (h : in_play tet pf) :
    ∃ t, gravity_tick tet pf level slide_us = some t ∧ in_play t pf := by
  obtain ⟨r, t, hres, hin, _⟩ := translate_in_play pf tet 1 0 h (by decide)
  unfold gravity_tick
  rw [hres]
  simp only []
  split
  · split
    · split
      · exact ⟨_, rfl, in_play_falling t pf false hin⟩
      · exact ⟨_, rfl, hin⟩
    · exact ⟨_, rfl, in_play_falling t pf false hin⟩
  · exact ⟨_, rfl, hin⟩

/-- The switch on the key keeps the piece in play. -/
theorem key_step_in_play (pf : playfield_t) (hempty : ∀ i j, i ≤ 19 → j < 10 → pf i j = 0)
    (fuel : Nat) (hfuel : 40 ≤ fuel) (ch : Char) (tet : tetromino_t) (h : in_play tet pf) :
    ∃ t, key_step fuel ch tet pf = some t ∧ in_play t pf := by
  unfold key_step
  split
  · obtain ⟨r, t, hres, hin, _⟩ := translate_in_play pf tet 0 (-1) h (le_refl 0)
    rw [hres]
    exact ⟨t, rfl, hin⟩
  · split
    · obtain ⟨r, t, hres, hin, _⟩ := translate_in_play pf tet 0 1 h (le_refl 0)
      rw [hres]
      exact ⟨t, rfl, hin⟩
    · split
      · obtain ⟨r, t, hres, hin, _⟩ := translate_in_play pf tet 1 0 h (by decide)
        rw [hres]
        simp only []
        split
        · exact ⟨_, rfl, in_play_falling t pf false hin⟩
        · exact ⟨_, rfl, hin⟩
      · split
        · obtain ⟨r, t, hres, hin⟩ := rotate_in_play pf hempty tet DIR_CW 0 0 (by decide) h
          rw [hres]
          exact ⟨t, rfl, hin⟩
        · split
          · obtain ⟨r, t, hres, hin⟩ := rotate_in_play pf hempty tet DIR_CCW 0 0 (by decide) h
            rw [hres]
            exact ⟨t, rfl, hin⟩
          · split
            · exact hard_drop_in_play pf tet fuel h hfuel
            · split
              · exact ⟨_, rfl, in_play_falling tet pf false h⟩
              · exact ⟨_, rfl, h⟩

/-- One iteration of the falling loop keeps the piece in play. -/
theorem falling_iter_in_play (pf : playfield_t)
    (hempty : ∀ i j, i ≤ 19 → j < 10 → pf i j = 0) (fuel : Nat) (hfuel : 40 ≤ fuel)
    (ev : falling_event) (s : tetromino_t × Int) (h : in_play s.1 pf) :
    ∃ s2, falling_iter fuel pf ev s = some s2 ∧ in_play s2.1 pf := by
  obtain ⟨t, hres, hin⟩ := key_step_in_play pf hempty fuel hfuel ev.key s.1 h
  unfold falling_iter
  rw [hres]
  simp only []
  split
  · exact ⟨_, rfl, hin⟩
  · rename_i slide_us _
    obtain ⟨t2, hres2, hin2⟩ := gravity_tick_in_play pf t (key_level ev.key s.2) slide_us hin
    rw [hres2]
    exact ⟨_, rfl, hin2⟩

/-- The falling loop keeps the piece in play, for any events. -/
theorem falling_loop_in_play (pf : playfield_t)
    (hempty : ∀ i j, i ≤ 19 → j < 10 → pf i j = 0) (fuel : Nat) (hfuel : 40 ≤ fuel)
    (evs : List falling_event) (s : tetromino_t × Int) (h : in_play s.1 pf) :
    ∃ s2, falling_loop fuel pf evs s = some s2 ∧ in_play s2.1 pf := by
  induction evs generalizing s with
  | nil => exact ⟨s, rfl, h⟩
  | cons ev rest ih =>
    simp only [falling_loop]
    split
    · obtain ⟨s2, hres, hin⟩ := falling_iter_in_play pf hempty fuel hfuel ev s h
      rw [hres]
      exact ih s2 hin
    · exact ⟨s, rfl, h⟩

/-- With the rows `0..19` empty, the piece set up for a shape is in play. -/
theorem spawn_in_play (pf : playfield_t) (hempty : ∀ i j, i ≤ 19 → j < 10 → pf i j = 0)
    (old : tetromino_t) (shape : shapes_t) : in_play (spawn_piece old shape) pf := by
  rw [spawn_piece_eq]
  refine ⟨?_, show (15 : Int) ≤ 40 - 1 - 22 by decide,
    show (0 : Int) ≤ 0 ∧ (0 : Int) ≤ 3 by decide, ?_⟩
  · intro i hi hb
    have h8 := spawn_bits_top shape i hi hb
    show 0 ≤ (3 : Int) + ((i % 4 : Nat) : Int) ∧ (3 : Int) + ((i % 4 : Nat) : Int) < 10 ∧
      0 ≤ (40 : Int) - 1 - 22 + ((i / 4 : Nat) : Int) ∧
      (40 : Int) - 1 - 22 + ((i / 4 : Nat) : Int) < 40 ∧
      pf ((40 : Int) - 1 - 22 + ((i / 4 : Nat) : Int)).toNat
        ((3 : Int) + ((i % 4 : Nat) : Int)).toNat = 0
    exact ⟨by omega, by omega, by omega, by omega, hempty _ _ (by omega) (by omega)⟩
  · exact (table_bitmap_iff
      ⟨shape, TETROMINO_SPAWN_X, TETROMINO_SPAWN_Y, 0, table_value shape 0, true⟩
      (show (0 : Int) ≤ 0 ∧ (0 : Int) ≤ 3 by decide)).mpr rfl

/-! ## Cells above the grid -/

end Tetris
